import Mathlib

/-!
# Dif: the binary type codec of `base/io.h`

A shallow embedding of the stream codec of the Dif library (`src/Dif/base/io.h`,
`src/Dif/objects/interiorPathFollower.cpp`) together with theorems about it.

Platform assumptions of the embedding (the source copies raw object
representations and relies on them): bytes are 8 bits, scalars are stored
little-endian, `int` and `U32` are 32 bits wide, `size_t` is 64 bits wide,
and an `int` increment past `INT_MAX` wraps around in two's complement.

The streams are the standard library's `std::istream` / `std::ostream`,
modelled over an in-memory byte sequence with the three state bits of
`std::ios_base`.

Storage: where the code asks for storage by a count read from the stream
(`value->reserve(size)`, `new type[countvar]`), whether the request is met is a
parameter of the run; an unmet request ends the run by an exception.
Storage for data that has been decoded is taken to be available. A store
through a cast pointer that goes past the end of an array ends the run with
undefined behaviour.
-/

set_option autoImplicit false

namespace Dif

/-! ## Bytes and object representations -/

/-- One byte (`char`) of a stream or of memory. -/
abbrev Byte := Fin 256

/-- The object representation of the `w`-byte scalar holding the bit pattern
`v`: the `w` low-order bytes of `v`, least significant first. -/
def toBytes : Nat → Nat → List Byte
  | 0, _ => []
  | w + 1, v => ⟨v % 256, Nat.mod_lt v (by decide)⟩ :: toBytes w (v / 256)

/-- The bit pattern held by an object whose bytes are `bs` (least significant
byte first). -/
def ofBytes : List Byte → Nat
  | [] => 0
  | b :: bs => b.val + 256 * ofBytes bs

/-! ## Streams -/

/-- A `std::istream` reading from memory: the bytes not yet extracted and
the state bits. -/
structure IStream where
  buf : List Byte
  eofbit : Bool
  failbit : Bool
  badbit : Bool
deriving DecidableEq

/-- A stream positioned at the start of the bytes `bs`, all state bits clear. -/
def IStream.ofBytes (bs : List Byte) : IStream :=
  { buf := bs, eofbit := false, failbit := false, badbit := false }

/-- Model of `std::istream::good()`: no state bit is set. -/
def IStream.good (s : IStream) : Bool :=
  !(s.eofbit || s.failbit || s.badbit)

/-- Model of `std::istream::eof()`. -/
def IStream.eof (s : IStream) : Bool :=
  s.eofbit

/-- Model of `std::istream::read(char*, n)`: the new stream and the bytes
stored through the pointer. When the stream is not good nothing is
extracted and `failbit` is set; when fewer than `n` bytes are left they are
all stored and `eofbit` and `failbit` are set. -/
def IStream.read (s : IStream) (n : Nat) : IStream × List Byte :=
  if s.good then
    if n ≤ s.buf.length then
      ({ s with buf := s.buf.drop n }, s.buf.take n)
    else
      ({ s with buf := [], eofbit := true, failbit := true }, s.buf)
  else
    ({ s with failbit := true }, [])

/-- A `std::ostream`: the bytes written so far, the number of bytes the sink
still accepts (`none` when it never fills up) and the state bits. -/
structure OStream where
  out : List Byte
  room : Option Nat
  eofbit : Bool
  failbit : Bool
  badbit : Bool
deriving DecidableEq

/-- An empty output stream over a sink that accepts every byte. -/
def OStream.fresh : OStream :=
  { out := [], room := none, eofbit := false, failbit := false, badbit := false }

/-- Model of `std::ostream::good()`. -/
def OStream.good (s : OStream) : Bool :=
  !(s.eofbit || s.failbit || s.badbit)

/-- Model of `std::ostream::write(const char*, n)` with the `n` bytes `bs`.
When the stream is not good nothing is written and `failbit` is set; when
the sink accepts fewer bytes than offered, those are written and `badbit`
is set. -/
def OStream.write (s : OStream) (bs : List Byte) : OStream :=
  if s.good then
    match s.room with
    | none => { s with out := s.out ++ bs }
    | some r =>
      if bs.length ≤ r then
        { s with out := s.out ++ bs, room := some (r - bs.length) }
      else
        { s with out := s.out ++ bs.take r, room := some 0, badbit := true }
  else
    { s with failbit := true }

/-! ## The scalar path -/

/-- Model of `IO::read_impl<T, true>::read` for a fundamental type of `w` bytes.
`value` is the memory the destination pointer designates; the result holds
that memory after the call. -/
def read_impl (w : Nat) (stream : IStream) (value : List Byte) :
    IStream × List Byte × Bool :=
  if stream.eof then
    (stream, value, false)
  else
    let r := stream.read w
    (r.1, r.2 ++ value.drop r.2.length, r.1.good)

/-- Model of `IO::write_impl<T, true>::write` for a fundamental type of `w` bytes
holding the bit pattern `value`. -/
def write_impl (w : Nat) (stream : OStream) (value : Nat) : OStream × Bool :=
  let s := stream.write (toBytes w value)
  (s, s.good)

/-- What `IO::read<T>` and `IO::write<T>` resolve to for a type `T`: the pair of
functions selected at compile time by `std::is_fundamental<T>`. The reader
receives the current contents of the destination object. -/
structure Codec (T : Type) where
  read : IStream → T → IStream × T × Bool
  write : OStream → T → OStream × Bool

/-- The codec of a fundamental type of `w` bytes (`U8`: 1, `U16`: 2, `U32` and
`F32`: 4, `U64` and `F64`: 8); a value is its bit pattern. -/
def scalar (w : Nat) : Codec Nat where
  read stream value :=
    let r := read_impl w stream (toBytes w value)
    (r.1, ofBytes r.2.1, r.2.2)
  write stream value := write_impl w stream value

/-! ## Machine integers of the loops -/

/-- Conversion of an integer to `int`: reduction into `[-2^31, 2^31)`. -/
def wrapInt (z : Int) : Int :=
  (z + 2 ^ 31) % 2 ^ 32 - 2 ^ 31

/-- The value of an `int` variable after `i ++`. -/
def intInc (i : Int) : Int :=
  wrapInt (i + 1)

/-- Conversion of an `int` to `U32`, as applied to `i` in `i < size` with
`U32 size`. -/
def intToU32 (i : Int) : Nat :=
  (i % 2 ^ 32).toNat

/-- Conversion of an `int` to `size_t`, as applied to `i` in
`i < value.size()` and in `value[i]`. -/
def intToSizeT (i : Int) : Nat :=
  (i % 2 ^ 64).toNat

/-- Conversion of a `U8` to `char`, as in `*value += chr`. -/
def toChar (v : Nat) : Byte :=
  ⟨v % 256, Nat.mod_lt v (by decide)⟩

/-! ## How a run ends

The code obtains storage by a count it has read from the stream
(`value->reserve(size)`, `new type[countvar]`) and stores elements through
pointer casts. Whether such a request for storage is met is a matter of the
machine; the models take it as a parameter. -/

/-- The ways in which a run that comes to an end can end: the code runs
through (a function returns) with the state `a`; a request for storage is
not met and the exception (`std::bad_alloc`, `std::length_error`) leaves the
code, with the state `e` at that point; or bytes are stored outside an
array, after which the behaviour is undefined. -/
inductive Outcome (ε α : Type) where
  | done (a : α)
  | thrown (e : ε)
  | undefined
deriving DecidableEq

/-- The outcome with a function applied to the state of a run that went
through. -/
def Outcome.map {ε α β : Type} (f : α → β) : Outcome ε α → Outcome ε β
  | Outcome.done a => Outcome.done (f a)
  | Outcome.thrown e => Outcome.thrown e
  | Outcome.undefined => Outcome.undefined

/-! ## Sequences and strings

The loops carry a step budget (`fuel`); `none` stands for a run that does
not come to an end within the budget or that indexes outside the container.
The budgets passed by the callers below are never exhausted when the source
loop terminates. -/

/-- The loop `for (int i = 0; i < size; i ++)` of the vector reader, entered
with index `i`. `obj0` is the content of the default-initialised `T obj`. -/
def readVectorLoop {T : Type} (c : Codec T) (obj0 : T) (size : Nat) :
    Nat → Int → IStream → List T → Option (IStream × List T × Bool)
  | 0, _, _, _ => none
  | fuel + 1, i, stream, value =>
    if intToU32 i < size then
      let r := c.read stream obj0
      if r.2.2 then
        readVectorLoop c obj0 size fuel (intInc i) r.1 (value ++ [r.2.1])
      else
        some (r.1, value, false)
    else
      some (stream, value, true)

/-- Model of `IO::read(std::istream&, std::vector<T>*, const String&)`. The
local `U32 size` is uninitialised; it is used only after a successful read,
which overwrites all of it, so its initial content is taken as 0.
`reserve n` tells whether the call `value->reserve(n)` on the destination
obtains its storage. When it does, the elements are unchanged and the loop
runs; when it does not, `reserve` throws and the exception leaves `IO::read`
with the stream as the count read left it and the destination unchanged.
Storage for the elements that are decoded and appended is taken to be
available. -/
def readVector {T : Type} (c : Codec T) (obj0 : T) (reserve : Nat → Bool) (stream : IStream)
    (value : List T) : Option (Outcome (IStream × List T) (IStream × List T × Bool)) :=
  let r := (scalar 4).read stream 0
  if !r.2.2 then
    some (Outcome.done (r.1, value, false))
  else if !reserve r.2.1 then
    some (Outcome.thrown (r.1, value))
  else
    (readVectorLoop c obj0 r.2.1 (r.2.1 + 1) 0 r.1 value).map Outcome.done

/-- The loop `for (U32 i = 0; i < length; i ++)` of the string reader. -/
def readStringLoop (length : Nat) :
    Nat → Nat → IStream → List Byte → Option (IStream × List Byte × Bool)
  | 0, _, _, _ => none
  | fuel + 1, i, stream, value =>
    if i < length then
      let r := (scalar 1).read stream 0
      if r.2.2 then
        readStringLoop length fuel ((i + 1) % 2 ^ 32) r.1 (value ++ [toChar r.2.1])
      else
        some (r.1, value, false)
    else
      some (stream, value, true)

/-- Model of `IO::read(std::istream&, std::string*, const String&)`. The
uninitialised locals `U8 length` and `U8 chr` are taken as 0 before their
reads. -/
def readString (stream : IStream) (value : List Byte) :
    Option (IStream × List Byte × Bool) :=
  let r := (scalar 1).read stream 0
  if !r.2.2 then
    some (r.1, value, false)
  else
    readStringLoop r.2.1 (r.2.1 + 1) 0 r.1 []

/-- The loop `for (int i = 0; i < value.size(); i ++)` of the vector writer,
entered with index `i`. -/
def writeVectorLoop {T : Type} (c : Codec T) (value : List T) :
    Nat → Int → OStream → Option (OStream × Bool)
  | 0, _, _ => none
  | fuel + 1, i, stream =>
    if intToSizeT i < value.length then
      match value.get? (intToSizeT i) with
      | none => none
      | some x =>
        let r := c.write stream x
        if !r.2 then
          some (r.1, false)
        else
          writeVectorLoop c value fuel (intInc i) r.1
    else
      some (stream, true)

/-- Model of `IO::write(std::ostream&, const std::vector<T>&, const String&)`. -/
def writeVector {T : Type} (c : Codec T) (stream : OStream) (value : List T) :
    Option (OStream × Bool) :=
  let r := (scalar 4).write stream (value.length % 2 ^ 32)
  if !r.2 then
    some (r.1, false)
  else
    writeVectorLoop c value (value.length + 1) 0 r.1

/-- The loop `for (U32 i = 0; i < value.length(); i ++)` of the string writer. -/
def writeStringLoop (value : List Byte) :
    Nat → Nat → OStream → Option (OStream × Bool)
  | 0, _, _ => none
  | fuel + 1, i, stream =>
    if i < value.length then
      match value.get? i with
      | none => none
      | some ch =>
        let r := (scalar 1).write stream ch.val
        if !r.2 then
          some (r.1, false)
        else
          writeStringLoop value fuel ((i + 1) % 2 ^ 32) r.1
    else
      some (stream, true)

/-- Model of `IO::write(std::ostream&, const std::string&, const String&)`. Each
successful pass of the loop puts one byte into the sink, so a sink with
room for `r` bytes ends the loop within `r + 1` passes; over a sink that
never fills up the loop ends within `value.length + 1` passes when the
length fits the `U32` index and does not end otherwise. -/
def writeString (stream : OStream) (value : List Byte) : Option (OStream × Bool) :=
  let r := (scalar 1).write stream (value.length % 2 ^ 8)
  if !r.2 then
    some (r.1, false)
  else
    writeStringLoop value (r.1.room.getD value.length + 1) 0 r.1

/-! ## Composite types

`Point3<T>` is declared in `math.h` and `WayPoint` in
`interiorPathFollower.h`; their members are the ones the readers and
writers below name, with the types of the casts in `READTOVAR` and `WRITE`.
`F32` and `U32` are fundamental types of 4 bytes. -/

/-- The record `Point3<T>`. -/
structure Point3 (T : Type) where
  x : T
  y : T
  z : T
deriving DecidableEq

/-- Model of `Point3<T>::read`: the operands of `&&` are evaluated from left
to right up to the first that is false. -/
def Point3.read {T : Type} (c : Codec T) (stream : IStream) (value : Point3 T) :
    IStream × Point3 T × Bool :=
  let rx := c.read stream value.x
  if !rx.2.2 then
    (rx.1, { value with x := rx.2.1 }, false)
  else
    let ry := c.read rx.1 value.y
    if !ry.2.2 then
      (ry.1, { value with x := rx.2.1, y := ry.2.1 }, false)
    else
      let rz := c.read ry.1 value.z
      (rz.1, { x := rx.2.1, y := ry.2.1, z := rz.2.1 }, rz.2.2)

/-- Model of `Point3<T>::write`. -/
def Point3.write {T : Type} (c : Codec T) (stream : OStream) (value : Point3 T) :
    OStream × Bool :=
  let rx := c.write stream value.x
  if !rx.2 then
    (rx.1, false)
  else
    let ry := c.write rx.1 value.y
    if !ry.2 then
      (ry.1, false)
    else
      c.write ry.1 value.z

/-- What `IO::read` and `IO::write` resolve to for `Point3<T>`
(`read_impl<T, false>` and `write_impl<T, false>`: the member functions). -/
def Point3.codec {T : Type} (c : Codec T) : Codec (Point3 T) where
  read := Point3.read c
  write := Point3.write c

/-- The record `WayPoint`. `Q` stands for `QuatF`, declared in `math.h`. -/
structure WayPoint (Q : Type) where
  position : Point3 Nat
  rotation : Q
  msToNext : Nat
  smoothingType : Nat

/-- Model of `WayPoint::read`. Each `READTOVAR` is the statement
`IO::read(stream, (type *)&name, "");`, whose result is not used. `quatF` is
the codec of `QuatF`, whose reader and writer are defined in `math.h`. -/
def WayPoint.read {Q : Type} (quatF : Codec Q) (stream : IStream) (value : WayPoint Q) :
    IStream × WayPoint Q × Bool :=
  let r1 := (Point3.codec (scalar 4)).read stream value.position
  let r2 := quatF.read r1.1 value.rotation
  let r3 := (scalar 4).read r2.1 value.msToNext
  let r4 := (scalar 4).read r3.1 value.smoothingType
  (r4.1, { position := r1.2.1, rotation := r2.2.1, msToNext := r3.2.1,
           smoothingType := r4.2.1 }, true)

/-- Model of `WayPoint::write`. Each `WRITE` is the statement
`IO::write(stream, (type) value, "");`, whose result is not used. -/
def WayPoint.write {Q : Type} (quatF : Codec Q) (stream : OStream) (value : WayPoint Q) :
    OStream × Bool :=
  let r1 := (Point3.codec (scalar 4)).write stream value.position
  let r2 := quatF.write r1.1 value.rotation
  let r3 := (scalar 4).write r2.1 value.msToNext
  let r4 := (scalar 4).write r3.1 value.smoothingType
  (r4.1, true)

/-- What `IO::read` and `IO::write` resolve to for `WayPoint`. -/
def WayPoint.codec {Q : Type} (quatF : Codec Q) : Codec (WayPoint Q) where
  read := WayPoint.read quatF
  write := WayPoint.write quatF

/-! ## The extended-count shorthands

`READLOOPVAR2`, `READLISTVAR2`, `READLOOP2` and `READLIST2` are preprocessor
definitions: statement sequences pasted into the caller. They have no value of their own: what
they leave behind is the stream, the count variable, the two locals
`read<count>2` and `read<count>param`, and the list storage. The element
types are used through pointer casts, so they act on raw memory. -/

/-- A type as the shorthands use it: its `sizeof` and what `IO::read` does
through a pointer to memory. The reader receives the memory from the
pointer up to the end of the array it points into and returns that memory
after the call; a result longer than the memory received means that bytes
were stored past the end of the array. -/
structure MemType where
  size : Nat
  read : IStream → List Byte → IStream × List Byte × Bool

/-- A fundamental type of `w` bytes. -/
def MemType.scalar (w : Nat) : MemType where
  size := w
  read := read_impl w

/-- The variables left by the count statements. -/
structure Count2 where
  stream : IStream
  countvar : Nat
  flag : Bool
  param : Nat
deriving DecidableEq

/-- The statements that open each of the four shorthands:
`bool flag = false; U8 param = 0; READTOVAR(countvar, U32);`
`if (countvar & 0x80000000) { countvar ^= 0x80000000; flag = true;`
`READTOVAR(param, U8); }`. `countvar` is the content of the count variable
before the read. The results of the reads are not used. -/
def extendedCount (stream : IStream) (countvar : Nat) : Count2 :=
  let r := (scalar 4).read stream countvar
  if r.2.1 &&& 0x80000000 ≠ 0 then
    let p := (scalar 1).read r.1 0
    { stream := p.1, countvar := r.2.1 ^^^ 0x80000000, flag := true, param := p.2.1 }
  else
    { stream := r.1, countvar := r.2.1, flag := false, param := 0 }

/-- One call of `IO::read` on an element, as recorded by the loops below:
the index, whether the alternate type was used, and the result of the call.
The record is not part of the source; it is kept to state which decodes a
run performs. -/
structure Decode where
  index : Nat
  alternate : Bool
  ok : Bool
deriving DecidableEq

/-- What `READLISTVAR2` leaves behind, with the record of its element
decodes. `listvar` is the memory of the array. -/
structure ListVar2 where
  stream : IStream
  countvar : Nat
  flag : Bool
  param : Nat
  listvar : List Byte
  decodes : List Decode
deriving DecidableEq

/-- The loop of `READLISTVAR2`, entered with index `i`:
`for (U32 i = 0; i < countvar; i ++) { if ((condition))`
`READTOVAR(listvar[i], alternatetype); else READTOVAR(listvar[i], normaltype); }`.
The condition is an expression of the caller; it is given the flag, the
parameter and the index. `&listvar[i]` is the memory from byte
`i * sizeof(normaltype)` of the array on. A read that stores bytes past the
end of the array (an alternate type wider than what is left of the array)
ends the run with undefined behaviour. -/
def READLISTVAR2_loop (condition : Bool → Nat → Nat → Bool) (normaltype alternatetype : MemType)
    (countvar : Nat) (flag : Bool) (param : Nat) :
    Nat → Nat → IStream → List Byte → List Decode →
      Option (Outcome Count2 (IStream × List Byte × List Decode))
  | 0, _, _, _, _ => none
  | fuel + 1, i, stream, listvar, decodes =>
    if i < countvar then
      let off := i * normaltype.size
      if condition flag param i then
        let r := alternatetype.read stream (listvar.drop off)
        if (listvar.drop off).length < r.2.1.length then
          some Outcome.undefined
        else
          READLISTVAR2_loop condition normaltype alternatetype countvar flag param fuel
            ((i + 1) % 2 ^ 32) r.1 (listvar.take off ++ r.2.1)
            (decodes ++ [{ index := i, alternate := true, ok := r.2.2 }])
      else
        let r := normaltype.read stream (listvar.drop off)
        if (listvar.drop off).length < r.2.1.length then
          some Outcome.undefined
        else
          READLISTVAR2_loop condition normaltype alternatetype countvar flag param fuel
            ((i + 1) % 2 ^ 32) r.1 (listvar.take off ++ r.2.1)
            (decodes ++ [{ index := i, alternate := false, ok := r.2.2 }])
    else
      some (Outcome.done (stream, listvar, decodes))

/-- Model of `READLISTVAR2(countvar, listvar, condition, normaltype,
alternatetype)`. `alloc n` tells whether `new normaltype[n]` obtains its
storage; when it does not, the exception leaves the shorthand with the
variables as the count statements left them. `heap k` is the content of
byte `k` of the storage that `new normaltype[countvar]` returns. -/
def READLISTVAR2 (condition : Bool → Nat → Nat → Bool) (normaltype alternatetype : MemType)
    (alloc : Nat → Bool) (heap : Nat → Byte) (stream : IStream) (countvar : Nat) :
    Option (Outcome Count2 ListVar2) :=
  let h := extendedCount stream countvar
  if !alloc h.countvar then
    some (Outcome.thrown h)
  else
    let listvar := (List.range (h.countvar * normaltype.size)).map heap
    (READLISTVAR2_loop condition normaltype alternatetype h.countvar h.flag h.param
        (h.countvar + 1) 0 h.stream listvar []).map
      (Outcome.map fun r =>
        { stream := r.1, countvar := h.countvar, flag := h.flag, param := h.param,
          listvar := r.2.1, decodes := r.2.2 })

/-- What `READLIST2` leaves behind, with the record of its element decodes. -/
structure List2 where
  stream : IStream
  length : Nat
  flag : Bool
  param : Nat
  decodes : List Decode
deriving DecidableEq

/-- The loop of `READLIST2`, entered with index `i`. `READ(type)` is
`__read(stream, (type *)NULL)`, which reads into its local `__garbage` and
returns it; the value is dropped. `garbage` is the initial content of that
local. -/
def READLIST2_loop (condition : Bool → Nat → Nat → Bool) (normaltype alternatetype : MemType)
    (garbage : List Byte) (length : Nat) (flag : Bool) (param : Nat) :
    Nat → Nat → IStream → List Decode → Option (IStream × List Decode)
  | 0, _, _, _ => none
  | fuel + 1, i, stream, decodes =>
    if i < length then
      if condition flag param i then
        let r := alternatetype.read stream garbage
        READLIST2_loop condition normaltype alternatetype garbage length flag param fuel
          ((i + 1) % 2 ^ 32) r.1 (decodes ++ [{ index := i, alternate := true, ok := r.2.2 }])
      else
        let r := normaltype.read stream garbage
        READLIST2_loop condition normaltype alternatetype garbage length flag param fuel
          ((i + 1) % 2 ^ 32) r.1 (decodes ++ [{ index := i, alternate := false, ok := r.2.2 }])
    else
      some (stream, decodes)

/-- Model of `READLIST2(name, condition, normaltype, alternatetype)`.
`READVAR(name_length, U32)` declares the count as an uninitialised local
and reads it; `junk` is the content of that local before the read. -/
def READLIST2 (condition : Bool → Nat → Nat → Bool) (normaltype alternatetype : MemType)
    (garbage : List Byte) (junk : Nat) (stream : IStream) : Option List2 :=
  let h := extendedCount stream junk
  (READLIST2_loop condition normaltype alternatetype garbage h.countvar h.flag h.param
      (h.countvar + 1) 0 h.stream []).map
    fun r => { stream := r.1, length := h.countvar, flag := h.flag, param := h.param,
               decodes := r.2 }

/-- The loop `for (U32 i = 0; i < countvar; i ++)` that ends `READLOOPVAR2`
and `READLOOP2`; its body is the statement the caller writes after the
shorthand, acting on the stream and on the caller's variables `σ`. -/
def READLOOP2_loop {σ : Type} (body : Bool → Nat → Nat → IStream × σ → IStream × σ)
    (countvar : Nat) (flag : Bool) (param : Nat) :
    Nat → Nat → IStream × σ → Option (IStream × σ)
  | 0, _, _ => none
  | fuel + 1, i, st =>
    if i < countvar then
      READLOOP2_loop body countvar flag param fuel ((i + 1) % 2 ^ 32) (body flag param i st)
    else
      some st

/-- Model of `READLOOPVAR2(countvar, listvar, type)` followed by the caller's
loop body. `alloc n` tells whether `new type[n]` obtains its storage; when
it does not, the exception leaves the shorthand with the variables as the
count statements left them. The assignment `listvar = new type[countvar]`
acts on the caller's variables and is given by `assign` from the count. -/
def READLOOPVAR2 {σ : Type} (body : Bool → Nat → Nat → IStream × σ → IStream × σ)
    (alloc : Nat → Bool) (assign : Nat → σ → σ) (stream : IStream) (countvar : Nat)
    (vars : σ) : Option (Outcome Count2 (Count2 × σ)) :=
  let h := extendedCount stream countvar
  if !alloc h.countvar then
    some (Outcome.thrown h)
  else
    (READLOOP2_loop body h.countvar h.flag h.param (h.countvar + 1) 0
        (h.stream, assign h.countvar vars)).map
      fun r => Outcome.done ({ h with stream := r.1 }, r.2)

/-- Model of `READLOOP2(name)` followed by the caller's loop body; `junk` is
the content of the uninitialised local `name_length` before its read. -/
def READLOOP2 {σ : Type} (body : Bool → Nat → Nat → IStream × σ → IStream × σ)
    (junk : Nat) (stream : IStream) (vars : σ) : Option (Count2 × σ) :=
  let h := extendedCount stream junk
  (READLOOP2_loop body h.countvar h.flag h.param (h.countvar + 1) 0 (h.stream, vars)).map
    fun r => ({ h with stream := r.1 }, r.2)

/-! ## Straight-line forms of the loops

The element loops of the sequence reader and writer without their index:
`readN` decodes a given number of elements, `writeAll` encodes a list of
elements, both stopping at the first failure. The theorems below relate
the loops to them. -/

/-- Decode `k` elements one after the other and append them to `value`,
stopping at the first failure. -/
def readN {T : Type} (c : Codec T) (obj0 : T) :
    Nat → IStream → List T → IStream × List T × Bool
  | 0, stream, value => (stream, value, true)
  | k + 1, stream, value =>
    let r := c.read stream obj0
    if r.2.2 then
      readN c obj0 k r.1 (value ++ [r.2.1])
    else
      (r.1, value, false)

/-- Encode the elements of a list one after the other, stopping at the
first failure. -/
def writeAll {T : Type} (c : Codec T) : List T → OStream → OStream × Bool
  | [], stream => (stream, true)
  | x :: xs, stream =>
    let r := c.write stream x
    if !r.2 then
      (r.1, false)
    else
      writeAll c xs r.1

/-- An output stream in good state that holds `out` over a sink that
accepts every byte. -/
def OStream.sink (out : List Byte) : OStream :=
  { out := out, room := none, eofbit := false, failbit := false, badbit := false }

/-- The bytes of `w`-byte scalars laid out one after the other. -/
def encodeElems (w : Nat) : List Nat → List Byte
  | [] => []
  | x :: xs => toBytes w x ++ encodeElems w xs

/-- The bytes of a sequence of `w`-byte scalars: a 32-bit count and the
elements in order. -/
def encodeVector (w : Nat) (xs : List Nat) : List Byte :=
  toBytes 4 xs.length ++ encodeElems w xs

/-- The bytes of a string: an 8-bit length and the characters in order. -/
def encodeString (s : List Byte) : List Byte :=
  toChar s.length :: s

/-! ## The other geometric and colour records

`Point2<T>`, `Point4<T>` and `Color<T>` are declared in `math.h`; their members are
the ones their readers and writers in `io.h` name. -/

/-- The record `Point2<T>`. -/
structure Point2 (T : Type) where
  x : T
  y : T
deriving DecidableEq

/-- Model of `Point2<T>::read`. -/
def Point2.read {T : Type} (c : Codec T) (stream : IStream) (value : Point2 T) :
    IStream × Point2 T × Bool :=
  let rx := c.read stream value.x
  if !rx.2.2 then
    (rx.1, { value with x := rx.2.1 }, false)
  else
    let ry := c.read rx.1 value.y
    (ry.1, { x := rx.2.1, y := ry.2.1 }, ry.2.2)

/-- Model of `Point2<T>::write`. -/
def Point2.write {T : Type} (c : Codec T) (stream : OStream) (value : Point2 T) :
    OStream × Bool :=
  let rx := c.write stream value.x
  if !rx.2 then
    (rx.1, false)
  else
    c.write rx.1 value.y

/-- What `IO::read` and `IO::write` resolve to for `Point2<T>`. -/
def Point2.codec {T : Type} (c : Codec T) : Codec (Point2 T) where
  read := Point2.read c
  write := Point2.write c

/-- The record `Point4<T>`. -/
structure Point4 (T : Type) where
  w : T
  x : T
  y : T
  z : T
deriving DecidableEq

/-- Model of `Point4<T>::read`. -/
def Point4.read {T : Type} (c : Codec T) (stream : IStream) (value : Point4 T) :
    IStream × Point4 T × Bool :=
  let rw := c.read stream value.w
  if !rw.2.2 then
    (rw.1, { value with w := rw.2.1 }, false)
  else
    let rx := c.read rw.1 value.x
    if !rx.2.2 then
      (rx.1, { value with w := rw.2.1, x := rx.2.1 }, false)
    else
      let ry := c.read rx.1 value.y
      if !ry.2.2 then
        (ry.1, { value with w := rw.2.1, x := rx.2.1, y := ry.2.1 }, false)
      else
        let rz := c.read ry.1 value.z
        (rz.1, { w := rw.2.1, x := rx.2.1, y := ry.2.1, z := rz.2.1 }, rz.2.2)

/-- Model of `Point4<T>::write`. -/
def Point4.write {T : Type} (c : Codec T) (stream : OStream) (value : Point4 T) :
    OStream × Bool :=
  let rw := c.write stream value.w
  if !rw.2 then
    (rw.1, false)
  else
    let rx := c.write rw.1 value.x
    if !rx.2 then
      (rx.1, false)
    else
      let ry := c.write rx.1 value.y
      if !ry.2 then
        (ry.1, false)
      else
        c.write ry.1 value.z

/-- What `IO::read` and `IO::write` resolve to for `Point4<T>`. -/
def Point4.codec {T : Type} (c : Codec T) : Codec (Point4 T) where
  read := Point4.read c
  write := Point4.write c

/-- The record `Color<T>`. -/
structure Color (T : Type) where
  red : T
  green : T
  blue : T
  alpha : T
deriving DecidableEq

/-- Model of `Color<T>::read`. -/
def Color.read {T : Type} (c : Codec T) (stream : IStream) (value : Color T) :
    IStream × Color T × Bool :=
  let rr := c.read stream value.red
  if !rr.2.2 then
    (rr.1, { value with red := rr.2.1 }, false)
  else
    let rg := c.read rr.1 value.green
    if !rg.2.2 then
      (rg.1, { value with red := rr.2.1, green := rg.2.1 }, false)
    else
      let rb := c.read rg.1 value.blue
      if !rb.2.2 then
        (rb.1, { value with red := rr.2.1, green := rg.2.1, blue := rb.2.1 }, false)
      else
        let ra := c.read rb.1 value.alpha
        (ra.1, { red := rr.2.1, green := rg.2.1, blue := rb.2.1, alpha := ra.2.1 }, ra.2.2)

/-- Model of `Color<T>::write`. -/
def Color.write {T : Type} (c : Codec T) (stream : OStream) (value : Color T) :
    OStream × Bool :=
  let rr := c.write stream value.red
  if !rr.2 then
    (rr.1, false)
  else
    let rg := c.write rr.1 value.green
    if !rg.2 then
      (rg.1, false)
    else
      let rb := c.write rg.1 value.blue
      if !rb.2 then
        (rb.1, false)
      else
        c.write rb.1 value.alpha

/-- What `IO::read` and `IO::write` resolve to for `Color<T>`. -/
def Color.codec {T : Type} (c : Codec T) : Codec (Color T) where
  read := Color.read c
  write := Color.write c

/-! ## The path follower record

`InteriorPathFollower` is declared in `interiorPathFollower.h`; its members are the
ones its constructor and writer name, with the types of the casts in
`READTOVAR` and `WRITE`. `String` is `std::string` and `Vector` is `std::vector`, so
that `IO::read` and `IO::write` resolve to the string and sequence overloads.
`Dictionary` is declared in `types.h`; `D` stands for it and `dictionary` for
what `IO::read` and `IO::write` resolve to on it. -/

/-- The members of `InteriorPathFollower`. -/
inductive Field where
  | name
  | datablock
  | interiorResIndex
  | offset
  | properties
  | triggerId
  | wayPoint
  | totalMS
deriving DecidableEq

/-- The record `InteriorPathFollower`. -/
structure InteriorPathFollower (D Q : Type) where
  name : List Byte
  datablock : List Byte
  interiorResIndex : Nat
  offset : Point3 Nat
  properties : D
  triggerId : List Nat
  wayPoint : List (WayPoint Q)
  totalMS : Nat

/-- Model of the constructor `InteriorPathFollower::InteriorPathFollower(std::istream &)`.
Each `READTOVAR` is the statement `IO::read(stream, (type *)&name, "");`, whose
result is not used. `init` holds the members as they are when the body is
entered: the strings and vectors are empty there, the other members have
no initialiser. `obj0` is the content of the local `WayPoint obj` of the
sequence reader; the local `U32 obj` of the reader of `triggerId` is taken as 0,
like the other uninitialised scalars that are used only after a successful
read. `reserveId` and `reserveWp` tell whether `reserve` obtains its storage
in the readers of `triggerId` and of `wayPoint`; an exception thrown there
leaves the constructor, with the stream as it was at that point. -/
def InteriorPathFollower.construct {D Q : Type} (dictionary : Codec D) (quatF : Codec Q)
    (obj0 : WayPoint Q) (reserveId reserveWp : Nat → Bool) (init : InteriorPathFollower D Q)
    (stream : IStream) : Option (Outcome IStream (IStream × InteriorPathFollower D Q)) :=
  match readString stream [] with
  | none => none
  | some r1 =>
    match readString r1.1 [] with
    | none => none
    | some r2 =>
      let r3 := (scalar 4).read r2.1 init.interiorResIndex
      let r4 := (Point3.codec (scalar 4)).read r3.1 init.offset
      let r5 := dictionary.read r4.1 init.properties
      match readVector (scalar 4) 0 reserveId r5.1 [] with
      | none => none
      | some Outcome.undefined => some Outcome.undefined
      | some (Outcome.thrown e) => some (Outcome.thrown e.1)
      | some (Outcome.done r6) =>
        match readVector (WayPoint.codec quatF) obj0 reserveWp r6.1 [] with
        | none => none
        | some Outcome.undefined => some Outcome.undefined
        | some (Outcome.thrown e) => some (Outcome.thrown e.1)
        | some (Outcome.done r7) =>
          let r8 := (scalar 4).read r7.1 init.totalMS
          some (Outcome.done (r8.1,
            { name := r1.2.1, datablock := r2.2.1, interiorResIndex := r3.2.1,
              offset := r4.2.1, properties := r5.2.1, triggerId := r6.2.1,
              wayPoint := r7.2.1, totalMS := r8.2.1 }))

/-- Model of `InteriorPathFollower::write`. `WRITE(value, type)` is the statement
`IO::write(stream, (type) value, "");`, whose result is not used;
`WRITECHECK(value, type)` is `{ if (!WRITE(value, type)) return false; }`. The
third component of the result lists the members whose write was executed;
it is not part of the source and is kept to state where a run stops. -/
def InteriorPathFollower.write {D Q : Type} (dictionary : Codec D) (quatF : Codec Q)
    (stream : OStream) (value : InteriorPathFollower D Q) :
    Option (OStream × Bool × List Field) :=
  match writeString stream value.name with
  | none => none
  | some r1 =>
    match writeString r1.1 value.datablock with
    | none => none
    | some r2 =>
      let r3 := (scalar 4).write r2.1 value.interiorResIndex
      if !r3.2 then
        some (r3.1, false, [Field.name, Field.datablock, Field.interiorResIndex])
      else
        let r4 := (Point3.codec (scalar 4)).write r3.1 value.offset
        if !r4.2 then
          some (r4.1, false,
            [Field.name, Field.datablock, Field.interiorResIndex, Field.offset])
        else
          let r5 := dictionary.write r4.1 value.properties
          match writeVector (scalar 4) r5.1 value.triggerId with
          | none => none
          | some r6 =>
            match writeVector (WayPoint.codec quatF) r6.1 value.wayPoint with
            | none => none
            | some r7 =>
              let r8 := (scalar 4).write r7.1 value.totalMS
              if !r8.2 then
                some (r8.1, false,
                  [Field.name, Field.datablock, Field.interiorResIndex, Field.offset,
                   Field.properties, Field.triggerId, Field.wayPoint, Field.totalMS])
              else
                some (r8.1, true,
                  [Field.name, Field.datablock, Field.interiorResIndex, Field.offset,
                   Field.properties, Field.triggerId, Field.wayPoint, Field.totalMS])

/-! ## Encodings of the records

The byte layouts against which the round trips are stated. -/

/-- A codec round-trips on `v` with the bytes `enc v`: over a sink in good
state it appends `enc v` and returns true, and from a stream in good state
that begins with `enc v` it returns `v` and true and leaves what follows. -/
def Codec.RoundTrips {T : Type} (c : Codec T) (enc : T → List Byte) (v : T) : Prop :=
  (∀ out : List Byte, c.write (OStream.sink out) v = (OStream.sink (out ++ enc v), true)) ∧
    ∀ (tail : List Byte) (old : T),
      c.read (IStream.ofBytes (enc v ++ tail)) old = (IStream.ofBytes tail, v, true)

/-- The encodings of the elements of a list laid out one after the other. -/
def encodeAll {T : Type} (enc : T → List Byte) : List T → List Byte
  | [] => []
  | x :: xs => enc x ++ encodeAll enc xs

/-- The bytes of a sequence: a 32-bit count and the encodings of the
elements in order. -/
def encodeSeq {T : Type} (enc : T → List Byte) (xs : List T) : List Byte :=
  toBytes 4 xs.length ++ encodeAll enc xs

/-- The bytes of a `Point3F`: x, y, z. -/
def encodePoint3 (p : Point3 Nat) : List Byte :=
  toBytes 4 p.x ++ toBytes 4 p.y ++ toBytes 4 p.z

/-- The bytes of a `WayPoint`: position, rotation, msToNext, smoothingType. -/
def encodeWayPoint {Q : Type} (encQ : Q → List Byte) (wp : WayPoint Q) : List Byte :=
  encodePoint3 wp.position ++ encQ wp.rotation ++ toBytes 4 wp.msToNext ++
    toBytes 4 wp.smoothingType

/-- The members of a `WayPoint` hold values of their types. -/
def WayPoint.Valid {Q : Type} (wp : WayPoint Q) : Prop :=
  wp.position.x < 2 ^ 32 ∧ wp.position.y < 2 ^ 32 ∧ wp.position.z < 2 ^ 32 ∧
    wp.msToNext < 2 ^ 32 ∧ wp.smoothingType < 2 ^ 32

/-- The bytes of an `InteriorPathFollower`: name, datablock, interiorResIndex,
offset, properties, triggerId, wayPoint, totalMS. -/
def encodeFollower {D Q : Type} (encD : D → List Byte) (encQ : Q → List Byte)
    (v : InteriorPathFollower D Q) : List Byte :=
  encodeString v.name ++ encodeString v.datablock ++ toBytes 4 v.interiorResIndex ++
    encodePoint3 v.offset ++ encD v.properties ++ encodeVector 4 v.triggerId ++
    encodeSeq (encodeWayPoint encQ) v.wayPoint ++ toBytes 4 v.totalMS

/-- The members of an `InteriorPathFollower` hold values the format can carry:
strings of at most 255 bytes, 32-bit scalars, sequences of fewer than 2^31
elements. -/
def InteriorPathFollower.Valid {D Q : Type} (v : InteriorPathFollower D Q) : Prop :=
  v.name.length ≤ 255 ∧ v.datablock.length ≤ 255 ∧ v.interiorResIndex < 2 ^ 32 ∧
    (v.offset.x < 2 ^ 32 ∧ v.offset.y < 2 ^ 32 ∧ v.offset.z < 2 ^ 32) ∧
    (v.triggerId.length < 2 ^ 31 ∧ ∀ x ∈ v.triggerId, x < 2 ^ 32) ∧
    (v.wayPoint.length < 2 ^ 31 ∧ ∀ wp ∈ v.wayPoint, wp.Valid) ∧ v.totalMS < 2 ^ 32

/-! ## The writing shorthand for lists -/

/-- The loop of `WRITELIST`, entered with index `i`:
`for (U32 i = 0; i < countvar; i ++) { WRITE(listvar[i], type); }`. The result of each
write is not used. `listvar` holds the elements of the array; `none` stands
for an index outside it. -/
def WRITELIST_loop (w : Nat) (countvar : Nat) (listvar : List Nat) :
    Nat → Nat → OStream → Option OStream
  | 0, _, _ => none
  | fuel + 1, i, stream =>
    if i < countvar then
      match listvar.get? i with
      | none => none
      | some x =>
        WRITELIST_loop w countvar listvar fuel ((i + 1) % 2 ^ 32) ((scalar w).write stream x).1
    else
      some stream

/-- Model of `WRITELIST(countvar, listvar, type)` for a fundamental `type` of `w`
bytes and a count variable of type `U32`. `WRITECHECK(countvar, U32)` makes the
enclosing function return false when the write of the count fails; the
second component of the result is false in that case and true when control
leaves the shorthand at its end. -/
def WRITELIST (w : Nat) (stream : OStream) (countvar : Nat) (listvar : List Nat) :
    Option (OStream × Bool) :=
  let r := (scalar 4).write stream countvar
  if !r.2 then
    some (r.1, false)
  else
    (WRITELIST_loop w countvar listvar (countvar + 1) 0 r.1).map fun s => (s, true)

/-- The value of element `i` of an array of `w`-byte scalars held in the
memory `listvar`. -/
def arrayGet (w : Nat) (listvar : List Byte) (i : Nat) : Nat :=
  ofBytes ((listvar.drop (i * w)).take w)

/-! ## Example values

Values at which the theorems on records are instantiated. `QuatF` is given
the layout of four `F32` and `Dictionary` that of one `U32` there. -/

/-- The bytes of four `F32` in the order w, x, y, z. -/
def encodePoint4 (q : Point4 Nat) : List Byte :=
  toBytes 4 q.w ++ toBytes 4 q.x ++ toBytes 4 q.y ++ toBytes 4 q.z

/-- A waypoint. -/
def exampleWayPoint : WayPoint (Point4 Nat) :=
  { position := { x := 1, y := 2, z := 3 }, rotation := { w := 4, x := 5, y := 6, z := 7 },
    msToNext := 8, smoothingType := 9 }

/-- A path follower with two trigger ids and one waypoint. -/
def exampleFollower : InteriorPathFollower Nat (Point4 Nat) :=
  { name := [0x61], datablock := [0x62, 0x63], interiorResIndex := 7,
    offset := { x := 1, y := 2, z := 3 }, properties := 5, triggerId := [10, 11],
    wayPoint := [exampleWayPoint], totalMS := 1000 }

/-! ## Theorems: bytes and the scalar path -/

theorem toBytes_length (w v : Nat) : (toBytes w v).length = w := by
  induction w generalizing v with
  | zero => rfl
  | succ w ih => simp [toBytes, ih]

theorem ofBytes_toBytes (w v : Nat) : ofBytes (toBytes w v) = v % 256 ^ w := by
  induction w generalizing v with
  | zero => simp [toBytes, ofBytes, Nat.mod_one]
  | succ w ih =>
    simp only [toBytes, ofBytes, ih]
    rw [pow_succ, Nat.mul_comm (256 ^ w) 256, Nat.mod_mul]

theorem ofBytes_toBytes_of_lt {w v : Nat} (h : v < 256 ^ w) : ofBytes (toBytes w v) = v := by
  rw [ofBytes_toBytes, Nat.mod_eq_of_lt h]

theorem ofBytes_lt (bs : List Byte) : ofBytes bs < 256 ^ bs.length := by
  induction bs with
  | nil => simp [ofBytes]
  | cons b bs ih =>
    simp only [ofBytes, List.length_cons, pow_succ]
    have := b.isLt
    omega

theorem toBytes_ofBytes (bs : List Byte) : toBytes bs.length (ofBytes bs) = bs := by
  induction bs with
  | nil => rfl
  | cons b bs ih =>
    have hb := b.isLt
    simp only [List.length_cons, toBytes, ofBytes]
    congr 1
    · apply Fin.ext
      simp [Nat.add_mul_mod_self_left, Nat.mod_eq_of_lt hb]
    · have : (b.val + 256 * ofBytes bs) / 256 = ofBytes bs := by omega
      rw [this, ih]

theorem IStream.read_short (s : IStream) (n : Nat) (h : s.buf.length < n) :
    (s.read n).1.good = false := by
  unfold IStream.read
  split
  · rw [if_neg (by omega)]
    simp [IStream.good]
  · simp [IStream.good]

theorem IStream.read_not_good (s : IStream) (n : Nat) (h : s.good = false) :
    (s.read n).1.good = false := by
  unfold IStream.read
  rw [h]
  simp [IStream.good]

theorem IStream.good_ofBytes (bs : List Byte) : (IStream.ofBytes bs).good = true := rfl

theorem IStream.read_ofBytes (bs rest : List Byte) :
    (IStream.ofBytes (bs ++ rest)).read bs.length = (IStream.ofBytes rest, bs) := by
  simp [IStream.read, IStream.ofBytes, IStream.good]

/-- Reading a scalar of `w` bytes from a clean stream that holds at least `w`
bytes. -/
theorem scalar_read_ofBytes (w : Nat) (bs rest : List Byte) (old : Nat) (h : bs.length = w) :
    (scalar w).read (IStream.ofBytes (bs ++ rest)) old = (IStream.ofBytes rest, ofBytes bs, true) := by
  subst h
  simp only [scalar, read_impl, IStream.read_ofBytes]
  simp [IStream.eof, IStream.ofBytes, IStream.good,
    List.drop_eq_nil_of_le (Nat.le_of_eq (toBytes_length bs.length old))]

theorem scalar_read_toBytes (w v : Nat) (rest : List Byte) (old : Nat) (h : v < 256 ^ w) :
    (scalar w).read (IStream.ofBytes (toBytes w v ++ rest)) old = (IStream.ofBytes rest, v, true) := by
  rw [scalar_read_ofBytes w _ _ _ (toBytes_length w v), ofBytes_toBytes_of_lt h]

/-- A scalar read fails when fewer than `w` bytes are left, whatever the
state of the stream. -/
theorem scalar_read_short (w : Nat) (s : IStream) (old : Nat) (h : s.buf.length < w) :
    ((scalar w).read s old).2.2 = false := by
  simp only [scalar, read_impl]
  split
  · rfl
  · exact IStream.read_short s w h

/-- A successful scalar read started from a good stream, took exactly `w`
bytes and left the stream good. -/
theorem scalar_read_ok (w : Nat) (s : IStream) (old : Nat)
    (h : ((scalar w).read s old).2.2 = true) :
    s.good = true ∧ w ≤ s.buf.length ∧
      (scalar w).read s old = ({ s with buf := s.buf.drop w }, ofBytes (s.buf.take w), true) := by
  have hg : s.good = true := by
    by_contra hn
    have hn2 : s.good = false := by simpa using hn
    simp only [scalar, read_impl] at h
    split at h
    · simp at h
    · rw [IStream.read_not_good s w hn2] at h
      simp at h
  have hw : w ≤ s.buf.length := by
    by_contra hn
    rw [scalar_read_short w s old (by omega)] at h
    simp at h
  refine ⟨hg, hw, ?_⟩
  have he : s.eof = false := by
    simp only [IStream.good, IStream.eof] at hg ⊢
    revert hg
    cases s.eofbit <;> simp
  have hr : s.read w = ({ s with buf := s.buf.drop w }, s.buf.take w) := by
    simp [IStream.read, hg, hw]
  have hd : List.drop (s.buf.take w).length (toBytes w old) = [] :=
    List.drop_eq_nil_of_le (by simp [toBytes_length, hw])
  simp only [scalar, read_impl, he, hr, hd, List.append_nil]
  simp only [Bool.false_eq_true, if_false, Prod.mk.injEq, true_and]
  exact hg

/-! ## Theorems: the loops and their straight-line forms -/

theorem intToU32_wrapInt (j : Nat) (h : j < 2 ^ 32) : intToU32 (wrapInt j) = j := by
  unfold intToU32 wrapInt
  omega

theorem intInc_wrapInt (z : Int) : intInc (wrapInt z) = wrapInt (z + 1) := by
  unfold intInc wrapInt
  omega

theorem wrapInt_zero : wrapInt 0 = 0 := by
  unfold wrapInt
  omega

theorem intToSizeT_wrapInt_lt (j : Nat) (h : j < 2 ^ 31) : intToSizeT (wrapInt j) = j := by
  unfold intToSizeT wrapInt
  omega

theorem intToSizeT_wrapInt_ge (j : Nat) (h : 2 ^ 31 ≤ j) (h2 : j < 2 ^ 32) :
    intToSizeT (wrapInt j) = 2 ^ 64 - 2 ^ 32 + j := by
  unfold intToSizeT wrapInt
  omega

/-- The reader's loop entered at index `j` decodes the remaining
`size - j` elements. -/
theorem readVectorLoop_eq {T : Type} (c : Codec T) (obj0 : T) (size : Nat) (hs : size < 2 ^ 32)
    (fuel j : Nat) (stream : IStream) (value : List T) (hj : j ≤ size) (hf : size - j < fuel) :
    readVectorLoop c obj0 size fuel (wrapInt j) stream value =
      some (readN c obj0 (size - j) stream value) := by
  induction fuel generalizing j stream value with
  | zero => omega
  | succ fuel ih =>
    unfold readVectorLoop
    rw [intToU32_wrapInt j (by omega)]
    by_cases hlt : j < size
    · have hk : size - j = (size - (j + 1)) + 1 := by omega
      rw [if_pos hlt, hk, readN, intInc_wrapInt]
      by_cases hok : (c.read stream obj0).2.2 = true
      · have := ih (j + 1) (c.read stream obj0).1 (value ++ [(c.read stream obj0).2.1])
          (by omega) (by omega)
        simpa [hok] using this
      · simp [hok]
    · have hk : size - j = 0 := by omega
      rw [if_neg hlt, hk, readN]

/-- The count decoded by a successful 32-bit read fits 32 bits. -/
theorem scalar_read_lt (w : Nat) (s : IStream) (old : Nat)
    (h : ((scalar w).read s old).2.2 = true) : ((scalar w).read s old).2.1 < 256 ^ w := by
  obtain ⟨_, hw, he⟩ := scalar_read_ok w s old h
  rw [he]
  have := ofBytes_lt (s.buf.take w)
  simpa [Nat.min_eq_left hw] using this

/-- The sequence reader decodes the count, asks for storage and then
decodes that many elements. -/
theorem readVector_eq {T : Type} (c : Codec T) (obj0 : T) (reserve : Nat → Bool)
    (stream : IStream) (value : List T) :
    readVector c obj0 reserve stream value =
      some (if ((scalar 4).read stream 0).2.2 = true then
        if reserve ((scalar 4).read stream 0).2.1 = true then
          Outcome.done
            (readN c obj0 ((scalar 4).read stream 0).2.1 ((scalar 4).read stream 0).1 value)
        else Outcome.thrown (((scalar 4).read stream 0).1, value)
      else Outcome.done (((scalar 4).read stream 0).1, value, false)) := by
  unfold readVector
  have hlt := scalar_read_lt 4 stream 0
  have := fun h => readVectorLoop_eq c obj0 ((scalar 4).read stream 0).2.1 h
    (((scalar 4).read stream 0).2.1 + 1) 0 ((scalar 4).read stream 0).1 value (by omega) (by omega)
  simp only [Nat.cast_zero, wrapInt_zero, Nat.sub_zero] at this
  generalize (scalar 4).read stream 0 = r at this hlt ⊢
  obtain ⟨s1, size, ok⟩ := r
  cases ok
  · simp
  · simp only [Bool.not_true, Bool.false_eq_true, if_false, if_true]
    have h32 : size < 256 ^ 4 := hlt rfl
    cases hres : reserve size
    · simp
    · simp only [Bool.not_true, Bool.false_eq_true, if_false, if_true]
      rw [this (by show size < 2 ^ 32; omega)]
      rfl

/-- The writer's loop entered at index `j` encodes the elements from `j` on,
up to the element at which the `int` index leaves its range. -/
theorem writeVectorLoop_eq {T : Type} (c : Codec T) (value : List T) (hn : value.length < 2 ^ 63)
    (fuel j : Nat) (stream : OStream) (hj : j ≤ min value.length (2 ^ 31))
    (hf : min value.length (2 ^ 31) - j < fuel) :
    writeVectorLoop c value fuel (wrapInt j) stream =
      some (writeAll c ((value.take (2 ^ 31)).drop j) stream) := by
  induction fuel generalizing j stream with
  | zero => omega
  | succ fuel ih =>
    unfold writeVectorLoop
    by_cases hlt : j < min value.length (2 ^ 31)
    · have h1 : j < value.length := by omega
      have h2 : j < (value.take (2 ^ 31)).length := by rw [List.length_take]; omega
      rw [intToSizeT_wrapInt_lt j (by omega), if_pos h1, List.drop_eq_getElem_cons h2, writeAll,
        intInc_wrapInt]
      simp only [List.get?_eq_getElem?, List.getElem?_eq_getElem h1, List.getElem_take]
      by_cases hok : (c.write stream value[j]).2 = true
      · have := ih (j + 1) (c.write stream value[j]).1 (by omega) (by omega)
        simpa [hok] using this
      · simp [hok]
    · have hd : (value.take (2 ^ 31)).drop j = [] :=
        List.drop_eq_nil_of_le (by rw [List.length_take]; omega)
      rw [hd, writeAll]
      by_cases h31 : j < 2 ^ 31
      · rw [intToSizeT_wrapInt_lt j h31, if_neg (by omega)]
      · rw [intToSizeT_wrapInt_ge j (by omega) (by omega), if_neg (by omega)]

/-- The sequence writer encodes the count and then the elements, up to the
element at which the `int` index leaves its range. -/
theorem writeVector_eq {T : Type} (c : Codec T) (stream : OStream) (value : List T)
    (hn : value.length < 2 ^ 63) :
    writeVector c stream value =
      some (if ((scalar 4).write stream (value.length % 2 ^ 32)).2 = true then
        writeAll c (value.take (2 ^ 31)) ((scalar 4).write stream (value.length % 2 ^ 32)).1
      else (((scalar 4).write stream (value.length % 2 ^ 32)).1, false)) := by
  unfold writeVector
  have := writeVectorLoop_eq c value hn (value.length + 1) 0
    ((scalar 4).write stream (value.length % 2 ^ 32)).1 (by omega) (by omega)
  simp only [Nat.cast_zero, wrapInt_zero, List.drop_zero] at this
  generalize (scalar 4).write stream (value.length % 2 ^ 32) = r at this ⊢
  obtain ⟨s1, ok⟩ := r
  cases ok
  · simp
  · simp only [Bool.not_true, Bool.false_eq_true, if_false, if_true]
    exact this

/-- The string reader's loop entered at index `j` decodes the remaining
`length - j` bytes. -/
theorem readStringLoop_eq (length : Nat) (hl : length < 2 ^ 32) (fuel j : Nat) (stream : IStream)
    (acc : List Nat) (hj : j ≤ length) (hf : length - j < fuel) :
    readStringLoop length fuel j stream (acc.map toChar) =
      some ((readN (scalar 1) 0 (length - j) stream acc).1,
        (readN (scalar 1) 0 (length - j) stream acc).2.1.map toChar,
        (readN (scalar 1) 0 (length - j) stream acc).2.2) := by
  induction fuel generalizing j stream acc with
  | zero => omega
  | succ fuel ih =>
    unfold readStringLoop
    by_cases hlt : j < length
    · have hk : length - j = (length - (j + 1)) + 1 := by omega
      have hm : (j + 1) % 2 ^ 32 = j + 1 := Nat.mod_eq_of_lt (by omega)
      rw [if_pos hlt, hk, readN, hm]
      have := ih (j + 1) ((scalar 1).read stream 0).1 (acc ++ [((scalar 1).read stream 0).2.1])
        (by omega) (by omega)
      rw [List.map_append, List.map_singleton] at this
      generalize (scalar 1).read stream 0 = r at this ⊢
      obtain ⟨s1, x, ok⟩ := r
      cases ok
      · simp
      · simpa using this
    · have hk : length - j = 0 := by omega
      rw [if_neg hlt, hk, readN]

/-- The string reader decodes the length, empties the destination and
decodes that many bytes. -/
theorem readString_eq (stream : IStream) (value : List Byte) :
    readString stream value =
      some (if ((scalar 1).read stream 0).2.2 = true then
        ((readN (scalar 1) 0 ((scalar 1).read stream 0).2.1 ((scalar 1).read stream 0).1 []).1,
          (readN (scalar 1) 0 ((scalar 1).read stream 0).2.1
            ((scalar 1).read stream 0).1 []).2.1.map toChar,
          (readN (scalar 1) 0 ((scalar 1).read stream 0).2.1 ((scalar 1).read stream 0).1 []).2.2)
      else (((scalar 1).read stream 0).1, value, false)) := by
  unfold readString
  have hlt := scalar_read_lt 1 stream 0
  have := fun h => readStringLoop_eq ((scalar 1).read stream 0).2.1 h
    (((scalar 1).read stream 0).2.1 + 1) 0 ((scalar 1).read stream 0).1 [] (by omega) (by omega)
  simp only [Nat.sub_zero, List.map_nil] at this
  generalize (scalar 1).read stream 0 = r at this hlt ⊢
  obtain ⟨s1, size, ok⟩ := r
  cases ok
  · simp
  · simp only [Bool.not_true, Bool.false_eq_true, if_false, if_true]
    have h8 : size < 256 ^ 1 := hlt rfl
    exact this (by show size < 2 ^ 32; omega)

/-- The string writer's loop entered at index `j` encodes the bytes from
`j` on. -/
theorem writeStringLoop_eq (value : List Byte) (hl : value.length < 2 ^ 32) (fuel j : Nat)
    (stream : OStream) (hj : j ≤ value.length) (hf : value.length - j < fuel) :
    writeStringLoop value fuel j stream =
      some (writeAll (scalar 1) ((value.drop j).map Fin.val) stream) := by
  induction fuel generalizing j stream with
  | zero => omega
  | succ fuel ih =>
    unfold writeStringLoop
    by_cases hlt : j < value.length
    · have hm : (j + 1) % 2 ^ 32 = j + 1 := Nat.mod_eq_of_lt (by omega)
      rw [if_pos hlt, List.drop_eq_getElem_cons hlt, List.map_cons, writeAll, hm]
      simp only [List.get?_eq_getElem?, List.getElem?_eq_getElem hlt]
      have := ih (j + 1) ((scalar 1).write stream (value[j]).val).1 (by omega) (by omega)
      generalize (scalar 1).write stream (value[j]).val = r at this ⊢
      obtain ⟨s1, ok⟩ := r
      cases ok
      · simp
      · simpa using this
    · have hd : value.drop j = [] := List.drop_eq_nil_of_le (by omega)
      rw [if_neg hlt, hd, List.map_nil, writeAll]

/-! ## Theorems: scalars in sequences -/

theorem OStream.good_sink (out : List Byte) : (OStream.sink out).good = true := rfl

theorem OStream.write_sink (out bs : List Byte) :
    (OStream.sink out).write bs = OStream.sink (out ++ bs) := by
  simp [OStream.write, OStream.sink, OStream.good]

theorem scalar_write_sink (w : Nat) (out : List Byte) (v : Nat) :
    (scalar w).write (OStream.sink out) v = (OStream.sink (out ++ toBytes w v), true) := by
  simp only [scalar, write_impl, OStream.write_sink, OStream.good_sink]

theorem encodeElems_length (w : Nat) (xs : List Nat) :
    (encodeElems w xs).length = w * xs.length := by
  induction xs with
  | nil => rfl
  | cons x xs ih =>
    simp only [encodeElems, List.length_append, toBytes_length, ih, List.length_cons]
    rw [Nat.mul_succ, Nat.add_comm]

theorem encodeElems_map_val (s : List Byte) : encodeElems 1 (s.map Fin.val) = s := by
  induction s with
  | nil => rfl
  | cons b s ih =>
    have hb := b.isLt
    simp only [List.map_cons, encodeElems, toBytes, ih, List.cons_append, List.nil_append]
    congr 1
    apply Fin.ext
    simp [Nat.mod_eq_of_lt hb]

/-- Over a sink in good state every element of a list of scalars is
written. -/
theorem writeAll_scalar_sink (w : Nat) (xs : List Nat) (out : List Byte) :
    writeAll (scalar w) xs (OStream.sink out) = (OStream.sink (out ++ encodeElems w xs), true) := by
  induction xs generalizing out with
  | nil => simp [writeAll, encodeElems]
  | cons x xs ih =>
    rw [writeAll, scalar_write_sink]
    simp only [Bool.not_true, Bool.false_eq_true, if_false]
    rw [ih, encodeElems, List.append_assoc]

/-- Decoding as many scalars as were laid out returns them and leaves what
follows unread. -/
theorem readN_scalar_ofBytes (w : Nat) (obj0 : Nat) (xs : List Nat) (tail : List Byte)
    (value : List Nat) (hx : ∀ x ∈ xs, x < 256 ^ w) :
    readN (scalar w) obj0 xs.length (IStream.ofBytes (encodeElems w xs ++ tail)) value =
      (IStream.ofBytes tail, value ++ xs, true) := by
  induction xs generalizing value with
  | nil => simp [readN, encodeElems]
  | cons x xs ih =>
    rw [List.length_cons, readN, encodeElems, List.append_assoc,
      scalar_read_toBytes w x _ obj0 (hx x (List.mem_cons_self x xs))]
    simp only [if_true]
    rw [ih (value ++ [x]) (fun y hy => hx y (List.mem_cons_of_mem x hy))]
    simp

/-- Over a sink in good state the sequence writer emits the count and the
elements up to the one at which the `int` index leaves its range. -/
theorem writeVector_scalar_sink (w : Nat) (xs : List Nat) (out : List Byte)
    (hn : xs.length < 2 ^ 63) :
    writeVector (scalar w) (OStream.sink out) xs =
      some (OStream.sink (out ++ (toBytes 4 (xs.length % 2 ^ 32) ++
        encodeElems w (xs.take (2 ^ 31)))), true) := by
  rw [writeVector_eq (scalar w) (OStream.sink out) xs hn, scalar_write_sink]
  simp only [if_true]
  rw [writeAll_scalar_sink, List.append_assoc]

/-- The sequence reader appends the decoded elements of a complete encoding
to the destination and leaves what follows unread. -/
theorem readVector_scalar_ofBytes (w : Nat) (obj0 : Nat) (reserve : Nat → Bool)
    (xs : List Nat) (tail : List Byte) (value : List Nat) (hx : ∀ x ∈ xs, x < 256 ^ w)
    (hn : xs.length < 2 ^ 32) (hres : reserve xs.length = true) :
    readVector (scalar w) obj0 reserve (IStream.ofBytes (encodeVector w xs ++ tail)) value =
      some (Outcome.done (IStream.ofBytes tail, value ++ xs, true)) := by
  have hc : (scalar 4).read (IStream.ofBytes (encodeVector w xs ++ tail)) 0 =
      (IStream.ofBytes (encodeElems w xs ++ tail), xs.length, true) := by
    rw [encodeVector, List.append_assoc]
    exact scalar_read_toBytes 4 xs.length _ 0 (by omega)
  rw [readVector_eq, hc]
  simp only [if_true, hres]
  rw [readN_scalar_ofBytes w obj0 xs tail value hx]

theorem toBytes_one (v : Nat) : toBytes 1 v = [toChar v] := rfl

theorem toChar_val (b : Byte) : toChar b.val = b := by
  apply Fin.ext
  simp [toChar, Nat.mod_eq_of_lt b.isLt]

theorem map_toChar_val (s : List Byte) : (s.map Fin.val).map toChar = s := by
  induction s with
  | nil => rfl
  | cons b s ih =>
    rw [List.map_cons, List.map_cons, ih, toChar_val]

/-- Over a sink in good state the string writer emits the low 8 bits of the
length and then every byte of the string. -/
theorem writeString_sink (s out : List Byte) (hl : s.length < 2 ^ 32) :
    writeString (OStream.sink out) s =
      some (OStream.sink (out ++ (toChar (s.length % 2 ^ 8) :: s)), true) := by
  unfold writeString
  rw [scalar_write_sink]
  simp only [Bool.not_true, Bool.false_eq_true, if_false]
  have hroom : (OStream.sink (out ++ toBytes 1 (s.length % 2 ^ 8))).room = none := rfl
  rw [hroom, Option.getD_none,
    writeStringLoop_eq s hl (s.length + 1) 0 _ (Nat.zero_le _) (by omega), List.drop_zero,
    writeAll_scalar_sink, encodeElems_map_val, toBytes_one, List.append_assoc,
    List.singleton_append]

/-- The string reader replaces the destination by the bytes of a complete
encoding and leaves what follows unread. -/
theorem readString_ofBytes (s tail prior : List Byte) (hl : s.length ≤ 255) :
    readString (IStream.ofBytes (encodeString s ++ tail)) prior =
      some (IStream.ofBytes tail, s, true) := by
  have hc : (scalar 1).read (IStream.ofBytes (encodeString s ++ tail)) 0 =
      (IStream.ofBytes (encodeElems 1 (s.map Fin.val) ++ tail), (s.map Fin.val).length, true) := by
    rw [encodeString, encodeElems_map_val, List.length_map]
    have h := scalar_read_toBytes 1 s.length (s ++ tail) 0 (by omega)
    rw [toBytes_one] at h
    exact h
  rw [readString_eq, hc]
  simp only [if_true]
  rw [readN_scalar_ofBytes 1 0 (s.map Fin.val) tail [] (by
    intro x hx
    obtain ⟨b, _, rfl⟩ := List.mem_map.mp hx
    have := b.isLt
    omega)]
  simp only [List.nil_append, map_toChar_val]

/-! ## Theorems: round trips and wire layout -/

/-- C1. A sequence of fewer than 2^31 scalars of `w` bytes written to a
stream in good state and read back into an empty vector, on a machine on
which storage for as many elements as the sequence has can be reserved:
both calls return true, the elements come back in the same number and
order, and the bytes that follow the encoding are left unread. -/
theorem vector_write_read_roundtrip (w : Nat) (xs : List Nat) (out tail : List Byte)
    (obj0 : Nat) (reserve : Nat → Bool) (hx : ∀ x ∈ xs, x < 256 ^ w)
    (hn : xs.length < 2 ^ 31) (hres : reserve xs.length = true) :
    ∃ enc : List Byte,
      writeVector (scalar w) (OStream.sink out) xs = some (OStream.sink (out ++ enc), true) ∧
      readVector (scalar w) obj0 reserve (IStream.ofBytes (enc ++ tail)) [] =
        some (Outcome.done (IStream.ofBytes tail, xs, true)) := by
  refine ⟨encodeVector w xs, ?_, ?_⟩
  · rw [writeVector_scalar_sink w xs out (by omega), Nat.mod_eq_of_lt (by omega),
      List.take_of_length_le (by omega), encodeVector]
  · rw [readVector_scalar_ofBytes w obj0 reserve xs tail [] hx (by omega) hres,
      List.nil_append]

/-- C1 at the vector [1, 2, 4000000000] of `U32` followed by the bytes `07 09`, on a
machine that reserves storage for up to 1000 elements. -/
theorem vector_write_read_roundtrip_witness :
    ∃ enc : List Byte,
      writeVector (scalar 4) (OStream.sink []) [1, 2, 4000000000] =
        some (OStream.sink ([] ++ enc), true) ∧
      readVector (scalar 4) 0 (fun n => decide (n ≤ 1000)) (IStream.ofBytes (enc ++ [7, 9])) [] =
        some (Outcome.done (IStream.ofBytes [7, 9], [1, 2, 4000000000], true)) :=
  vector_write_read_roundtrip 4 [1, 2, 4000000000] [] [7, 9] 0 (fun n => decide (n ≤ 1000))
    (by decide) (by decide) (by decide)

/-- C2. A string of at most 255 bytes written to a stream in good state and
read back: both calls return true, the destination holds exactly the bytes
of the string whatever it held before, and the bytes that follow the
encoding are left unread. -/
theorem string_write_read_roundtrip (s out tail prior : List Byte) (hl : s.length ≤ 255) :
    ∃ enc : List Byte,
      writeString (OStream.sink out) s = some (OStream.sink (out ++ enc), true) ∧
      readString (IStream.ofBytes (enc ++ tail)) prior = some (IStream.ofBytes tail, s, true) := by
  refine ⟨encodeString s, ?_, readString_ofBytes s tail prior hl⟩
  rw [writeString_sink s out (by omega), Nat.mod_eq_of_lt (by omega), encodeString]

/-- C2 at the string "ok", read over a destination that held three bytes. -/
theorem string_write_read_roundtrip_witness :
    ∃ enc : List Byte,
      writeString (OStream.sink []) [0x6F, 0x6B] = some (OStream.sink ([] ++ enc), true) ∧
      readString (IStream.ofBytes (enc ++ [1])) [5, 5, 5] =
        some (IStream.ofBytes [1], [0x6F, 0x6B], true) :=
  string_write_read_roundtrip [0x6F, 0x6B] [] [1] [5, 5, 5] (by decide)

/-- C3. A scalar of `w` bytes holding any bit pattern `v`, written to a
stream in good state whose sink has room for it: the write returns true and
appends exactly `w` bytes, and reading those bytes, whatever follows them,
returns true, yields `v` whatever the destination held, and leaves exactly
what follows unread. -/
theorem scalar_write_read_roundtrip (w v : Nat) (hv : v < 256 ^ w) (o : OStream)
    (hg : o.good = true) (hr : ∀ r, o.room = some r → w ≤ r) (suffix : List Byte) (old : Nat) :
    ∃ bs : List Byte, bs.length = w ∧
      ((scalar w).write o v).2 = true ∧
      ((scalar w).write o v).1.out = o.out ++ bs ∧
      (scalar w).read (IStream.ofBytes (bs ++ suffix)) old = (IStream.ofBytes suffix, v, true) := by
  refine ⟨toBytes w v, toBytes_length w v, ?_, ?_, scalar_read_toBytes w v suffix old hv⟩
  · simp only [scalar, write_impl, OStream.write, hg, if_true]
    cases hroom : o.room with
    | none => exact hg
    | some r =>
      have := hr r hroom
      simp only [toBytes_length, this, if_true]
      exact hg
  · simp only [scalar, write_impl, OStream.write, hg, if_true]
    cases hroom : o.room with
    | none => rfl
    | some r =>
      have := hr r hroom
      simp only [toBytes_length, this, if_true]

/-- C3 at the `U32` value `0xDEADBEEF` on an empty output stream. -/
theorem scalar_write_read_roundtrip_witness :
    ∃ bs : List Byte, bs.length = 4 ∧
      ((scalar 4).write OStream.fresh 0xDEADBEEF).2 = true ∧
      ((scalar 4).write OStream.fresh 0xDEADBEEF).1.out = OStream.fresh.out ++ bs ∧
      (scalar 4).read (IStream.ofBytes (bs ++ [1, 2])) 77 =
        (IStream.ofBytes [1, 2], 0xDEADBEEF, true) :=
  scalar_write_read_roundtrip 4 0xDEADBEEF (by decide) OStream.fresh rfl
    (fun r h => by simp [OStream.fresh] at h) [1, 2] 77

/-- C8. A string of 256 bytes: the writer returns true and emits 257 bytes,
a length byte 0 followed by all 256 bytes of the string; the reader takes
the first of them as the encoding of the empty string and leaves the 256
bytes unread. -/
theorem string_write_256_bytes :
    writeString OStream.fresh (List.replicate 256 0x61) =
        some (OStream.sink (0 :: List.replicate 256 0x61), true) ∧
      readString (IStream.ofBytes (0 :: List.replicate 256 0x61)) [] =
        some (IStream.ofBytes (List.replicate 256 0x61), [], true) := by
  constructor
  · have h := writeString_sink (List.replicate 256 0x61) [] (by rw [List.length_replicate]; decide)
    rw [List.length_replicate] at h
    exact h
  · exact readString_ofBytes [] (List.replicate 256 0x61) [] (by decide)

/-- C9. A vector of 2^31 + 1 values of 32 bits: the writer returns true after
the count 2^31 + 1 and only 2^31 elements, 4 + 4 * 2^31 bytes in all, because
the `int` index leaves its range; the vector [1, 2, 3] is written as the 16
bytes of the scenario and read back. -/
theorem vector_write_stops_at_int_max :
    writeVector (scalar 4) OStream.fresh (List.replicate (2 ^ 31 + 1) 0) =
        some (OStream.sink (toBytes 4 (2 ^ 31 + 1) ++
          encodeElems 4 (List.replicate (2 ^ 31) 0)), true) ∧
      (toBytes 4 (2 ^ 31 + 1) ++ encodeElems 4 (List.replicate (2 ^ 31) 0)).length =
        4 + 4 * 2 ^ 31 ∧
      writeVector (scalar 4) OStream.fresh [1, 2, 3] =
        some (OStream.sink [3, 0, 0, 0, 1, 0, 0, 0, 2, 0, 0, 0, 3, 0, 0, 0], true) ∧
      readVector (scalar 4) 0 (fun _ => true)
          (IStream.ofBytes [3, 0, 0, 0, 1, 0, 0, 0, 2, 0, 0, 0, 3, 0, 0, 0]) [] =
        some (Outcome.done (IStream.ofBytes [], [1, 2, 3], true)) := by
  refine ⟨?_, ?_, by decide, by decide⟩
  · have hfresh : OStream.fresh = OStream.sink [] := rfl
    rw [hfresh, writeVector_scalar_sink 4 (List.replicate (2 ^ 31 + 1) 0) []
        (by rw [List.length_replicate]; decide),
      List.length_replicate, List.take_replicate, Nat.mod_eq_of_lt (by decide),
      Nat.min_eq_left (by decide), List.nil_append]
  · rw [List.length_append, toBytes_length, encodeElems_length, List.length_replicate]

/-- C10. A string of `n ≤ 255` bytes is written as `1 + n` bytes: the byte `n`
followed by the bytes of the string in order; "ok" is written as
`02 6F 6B`. -/
theorem string_wire_layout (s out : List Byte) (hl : s.length ≤ 255) :
    writeString (OStream.sink out) s = some (OStream.sink (out ++ toChar s.length :: s), true) ∧
      (toChar s.length).val = s.length ∧
      (toChar s.length :: s).length = 1 + s.length ∧
      writeString OStream.fresh [0x6F, 0x6B] = some (OStream.sink [0x02, 0x6F, 0x6B], true) := by
  refine ⟨?_, ?_, ?_, by decide⟩
  · rw [writeString_sink s out (by omega), Nat.mod_eq_of_lt (by omega)]
  · show s.length % 256 = s.length
    exact Nat.mod_eq_of_lt (by omega)
  · rw [List.length_cons, Nat.add_comm]

/-- C10 at the string "DIF" written after one earlier byte. -/
theorem string_wire_layout_witness :
    writeString (OStream.sink [9]) [0x44, 0x49, 0x46] =
        some (OStream.sink ([9] ++ toChar [0x44, 0x49, 0x46].length :: [0x44, 0x49, 0x46]), true) ∧
      (toChar [(0x44 : Byte), 0x49, 0x46].length).val = [(0x44 : Byte), 0x49, 0x46].length ∧
      (toChar [(0x44 : Byte), 0x49, 0x46].length :: [0x44, 0x49, 0x46]).length =
        1 + [(0x44 : Byte), 0x49, 0x46].length ∧
      writeString OStream.fresh [0x6F, 0x6B] = some (OStream.sink [0x02, 0x6F, 0x6B], true) :=
  string_wire_layout [0x44, 0x49, 0x46] [9] (by decide)

/-! ## Theorems: truncated input -/

/-- C5. `WayPoint::read` returns true on every stream. On the stream
`01 00 00 00 AA BB`, a sequence of one waypoint cut off inside its first
field, the read of `position` fails, and the sequence reader nevertheless
appends one waypoint and returns true (on every machine on which storage
for one element can be reserved). -/
theorem wayPoint_read_reports_success {Q : Type} (quatF : Codec Q) (stream : IStream)
    (value obj0 : WayPoint Q) :
    (WayPoint.read quatF stream value).2.2 = true ∧
      ((Point3.codec (scalar 4)).read (IStream.ofBytes [0xAA, 0xBB]) obj0.position).2.2 = false ∧
      ∀ reserve : Nat → Bool, reserve 1 = true →
        ∃ (st : IStream) (wp : WayPoint Q),
          readVector (WayPoint.codec quatF) obj0 reserve
              (IStream.ofBytes [1, 0, 0, 0, 0xAA, 0xBB]) [] =
            some (Outcome.done (st, [wp], true)) := by
  refine ⟨rfl, ?_, ?_⟩
  · have h := scalar_read_short 4 (IStream.ofBytes [0xAA, 0xBB]) obj0.position.x (by decide)
    simp only [Point3.codec, Point3.read, h]
    rfl
  · intro reserve hres
    have hc : (scalar 4).read (IStream.ofBytes [1, 0, 0, 0, 0xAA, 0xBB]) 0 =
        (IStream.ofBytes [0xAA, 0xBB], 1, true) :=
      scalar_read_ofBytes 4 [1, 0, 0, 0] [0xAA, 0xBB] 0 rfl
    rw [readVector_eq, hc]
    simp only [if_true, hres]
    exact ⟨_, _, rfl⟩

/-! ## Theorems: the extended-count shorthands -/

theorem xor_high_bit (r : Nat) (hr : r < 2 ^ 32) (hb : r &&& 0x80000000 ≠ 0) :
    r ^^^ 0x80000000 = r &&& 0x7FFFFFFF := by
  have e1 : (0x80000000 : Nat) = 2 ^ 31 := by norm_num
  have e2 : (0x7FFFFFFF : Nat) = 2 ^ 31 - 1 := by norm_num
  rw [e1] at hb
  rw [e1, e2]
  have h31 : r.testBit 31 = true := by
    by_contra hn
    apply hb
    apply Nat.eq_of_testBit_eq
    intro i
    simp only [Nat.testBit_and, Nat.testBit_two_pow, Nat.zero_testBit]
    by_cases hi : 31 = i
    · subst hi
      simpa using hn
    · simp [hi]
  apply Nat.eq_of_testBit_eq
  intro i
  simp only [Nat.testBit_xor, Nat.testBit_and, Nat.testBit_two_pow, Nat.testBit_two_pow_sub_one]
  rcases Nat.lt_trichotomy i 31 with h | h | h
  · have hne : ¬ (31 = i) := by omega
    simp [h, hne]
  · subst h
    simp [h31]
  · have hne : ¬ (31 = i) := by omega
    have hnl : ¬ (i < 31) := by omega
    have : r.testBit i = false :=
      Nat.testBit_lt_two_pow (lt_of_lt_of_le hr (Nat.pow_le_pow_right (by decide) (by omega)))
    simp [this, hne, hnl]

/-- The count statements on a stream that begins with a count whose flag
bit is clear. -/
theorem extendedCount_clear (r : Nat) (hr : r < 2 ^ 32) (hb : r &&& 0x80000000 = 0)
    (rest : List Byte) (countvar : Nat) :
    extendedCount (IStream.ofBytes (toBytes 4 r ++ rest)) countvar =
      { stream := IStream.ofBytes rest, countvar := r, flag := false, param := 0 } := by
  simp only [extendedCount, scalar_read_toBytes 4 r rest countvar (by omega)]
  rw [if_neg (by simpa using hb)]

/-- The count statements on a stream that begins with a count whose flag
bit is set, followed by the parameter byte. -/
theorem extendedCount_set (r : Nat) (hr : r < 2 ^ 32) (hb : r &&& 0x80000000 ≠ 0) (p : Byte)
    (rest : List Byte) (countvar : Nat) :
    extendedCount (IStream.ofBytes (toBytes 4 r ++ p :: rest)) countvar =
      { stream := IStream.ofBytes rest, countvar := r &&& 0x7FFFFFFF, flag := true,
        param := p.val } := by
  have hp : (scalar 1).read (IStream.ofBytes (p :: rest)) 0 =
      (IStream.ofBytes rest, p.val, true) := by
    have h := scalar_read_ofBytes 1 [p] rest 0 rfl
    simpa [ofBytes] using h
  simp only [extendedCount, scalar_read_toBytes 4 r (p :: rest) countvar (by omega)]
  rw [if_pos hb, hp, xor_high_bit r hr hb]

theorem and_low_bits_lt (r : Nat) : r &&& 0x7FFFFFFF < 2 ^ 32 :=
  lt_of_le_of_lt Nat.and_le_right (by norm_num)

/-- The loop that ends `READLOOPVAR2` and `READLOOP2` runs the caller's body
once for each remaining index, in increasing order. -/
theorem READLOOP2_loop_eq {σ : Type} (body : Bool → Nat → Nat → IStream × σ → IStream × σ)
    (countvar : Nat) (hc : countvar < 2 ^ 32) (flag : Bool) (param : Nat) (fuel i : Nat)
    (st : IStream × σ) (hi : i ≤ countvar) (hf : countvar - i < fuel) :
    READLOOP2_loop body countvar flag param fuel i st =
      some ((List.range' i (countvar - i)).foldl (fun a j => body flag param j a) st) := by
  induction fuel generalizing i st with
  | zero => omega
  | succ fuel ih =>
    rw [READLOOP2_loop]
    by_cases hlt : i < countvar
    · have hm : (i + 1) % 2 ^ 32 = i + 1 := Nat.mod_eq_of_lt (by omega)
      have hk : countvar - i = (countvar - (i + 1)) + 1 := by omega
      rw [if_pos hlt, hm, ih (i + 1) _ (by omega) (by omega), hk, List.range'_succ,
        List.foldl_cons]
    · have hk : countvar - i = 0 := by omega
      rw [if_neg hlt, hk]
      rfl

/-- The loop of `READLISTVAR2` comes to an end within `countvar - i + 1` passes. -/
theorem READLISTVAR2_loop_ends (condition : Bool → Nat → Nat → Bool)
    (normaltype alternatetype : MemType) (countvar : Nat) (hc : countvar < 2 ^ 32)
    (flag : Bool) (param : Nat) (fuel i : Nat) (stream : IStream) (listvar : List Byte)
    (decodes : List Decode) (hi : i ≤ countvar) (hf : countvar - i < fuel) :
    ∃ o : Outcome Count2 (IStream × List Byte × List Decode),
      READLISTVAR2_loop condition normaltype alternatetype countvar flag param fuel i stream
        listvar decodes = some o := by
  induction fuel generalizing i stream listvar decodes with
  | zero => omega
  | succ fuel ih =>
    rw [READLISTVAR2_loop]
    by_cases hlt : i < countvar
    · have hm : (i + 1) % 2 ^ 32 = i + 1 := Nat.mod_eq_of_lt (by omega)
      rw [if_pos hlt, hm]
      dsimp only
      split
      · split
        · exact ⟨_, rfl⟩
        · exact ih (i + 1) _ _ _ (by omega) (by omega)
      · split
        · exact ⟨_, rfl⟩
        · exact ih (i + 1) _ _ _ (by omega) (by omega)
    · rw [if_neg hlt]
      exact ⟨_, rfl⟩

/-- The loop of `READLIST2` comes to an end within `length - i + 1` passes. -/
theorem READLIST2_loop_ends (condition : Bool → Nat → Nat → Bool)
    (normaltype alternatetype : MemType) (garbage : List Byte) (length : Nat)
    (hc : length < 2 ^ 32) (flag : Bool) (param : Nat) (fuel i : Nat) (stream : IStream)
    (decodes : List Decode) (hi : i ≤ length) (hf : length - i < fuel) :
    ∃ x : IStream × List Decode,
      READLIST2_loop condition normaltype alternatetype garbage length flag param fuel i stream
        decodes = some x := by
  induction fuel generalizing i stream decodes with
  | zero => omega
  | succ fuel ih =>
    rw [READLIST2_loop]
    by_cases hlt : i < length
    · have hm : (i + 1) % 2 ^ 32 = i + 1 := Nat.mod_eq_of_lt (by omega)
      rw [if_pos hlt, hm]
      dsimp only
      split
      · exact ih (i + 1) _ _ (by omega) (by omega)
      · exact ih (i + 1) _ _ (by omega) (by omega)
    · rw [if_neg hlt]
      exact ⟨_, rfl⟩

/-- C6. The header of the four extended-count shorthands. For a raw count
`r` of 32 bits, let the header bytes, the count, the flag and the parameter
be: the 4 bytes of `r`, `r`, false and 0 when bit `0x80000000` of `r` is clear;
the 4 bytes of `r` followed by one byte `p`, `r & 0x7FFFFFFF`, true and `p` when it
is set. On a stream that holds the header and then `rest`, each of
`READLOOPVAR2`, `READLISTVAR2`, `READLOOP2` and `READLIST2` leaves that count, flag and
parameter and runs its elements from the stream that holds `rest`: the 4
or 5 bytes of the header, and no others, are consumed before the elements.
(`READLOOPVAR2` and `READLISTVAR2` are left by an exception after the header when
their storage cannot be obtained.) The raw count `0x80000005` followed by the
parameter byte `09` gives count 5, flag true, parameter 9 in each of them. -/
theorem extendedCount_header {σ : Type} (r : Nat) (hr : r < 2 ^ 32) (p : Byte)
    (hdr : List Byte) (n : Nat) (flag : Bool) (prm : Nat)
    (hcase :
      (r &&& 0x80000000 = 0 ∧ hdr = toBytes 4 r ∧ n = r ∧ flag = false ∧ prm = 0) ∨
      (r &&& 0x80000000 ≠ 0 ∧ hdr = toBytes 4 r ++ [p] ∧ n = r &&& 0x7FFFFFFF ∧
        flag = true ∧ prm = p.val))
    (rest : List Byte) (countvar : Nat)
    (body : Bool → Nat → Nat → IStream × σ → IStream × σ) (alloc : Nat → Bool)
    (assign : Nat → σ → σ) (vars : σ) (condition : Bool → Nat → Nat → Bool)
    (normaltype alternatetype : MemType) (heap : Nat → Byte) (garbage : List Byte) :
    hdr.length = (if flag then 5 else 4) ∧
    extendedCount (IStream.ofBytes (hdr ++ rest)) countvar =
      { stream := IStream.ofBytes rest, countvar := n, flag := flag, param := prm } ∧
    READLOOPVAR2 body alloc assign (IStream.ofBytes (hdr ++ rest)) countvar vars =
      some (if alloc n = true then
        Outcome.done
          ({ stream := ((List.range n).foldl (fun a i => body flag prm i a)
                (IStream.ofBytes rest, assign n vars)).1,
             countvar := n, flag := flag, param := prm },
            ((List.range n).foldl (fun a i => body flag prm i a)
                (IStream.ofBytes rest, assign n vars)).2)
      else
        Outcome.thrown
          { stream := IStream.ofBytes rest, countvar := n, flag := flag, param := prm }) ∧
    READLOOP2 body countvar (IStream.ofBytes (hdr ++ rest)) vars =
      some ({ stream := ((List.range n).foldl (fun a i => body flag prm i a)
                (IStream.ofBytes rest, vars)).1,
              countvar := n, flag := flag, param := prm },
            ((List.range n).foldl (fun a i => body flag prm i a)
                (IStream.ofBytes rest, vars)).2) ∧
    (∃ o : Outcome Count2 (IStream × List Byte × List Decode),
      READLISTVAR2_loop condition normaltype alternatetype n flag prm (n + 1) 0
          (IStream.ofBytes rest) ((List.range (n * normaltype.size)).map heap) [] = some o ∧
      READLISTVAR2 condition normaltype alternatetype alloc heap (IStream.ofBytes (hdr ++ rest))
          countvar =
        some (if alloc n = true then
          o.map fun x => ListVar2.mk x.1 n flag prm x.2.1 x.2.2
        else
          Outcome.thrown
            { stream := IStream.ofBytes rest, countvar := n, flag := flag, param := prm })) ∧
    (∃ x : IStream × List Decode,
      READLIST2_loop condition normaltype alternatetype garbage n flag prm (n + 1) 0
          (IStream.ofBytes rest) [] = some x ∧
      READLIST2 condition normaltype alternatetype garbage countvar
          (IStream.ofBytes (hdr ++ rest)) =
        some (List2.mk x.1 n flag prm x.2)) ∧
    extendedCount (IStream.ofBytes [5, 0, 0, 0x80, 9, 10, 11, 12, 13, 14, 0xEE]) 0 =
      { stream := IStream.ofBytes [10, 11, 12, 13, 14, 0xEE], countvar := 5, flag := true,
        param := 9 } ∧
    READLOOPVAR2 (fun _ _ _ a => (((scalar 1).read a.1 0).1, a.2 ++ [((scalar 1).read a.1 0).2.1]))
        (fun _ => true) (fun _ a => a) (IStream.ofBytes [5, 0, 0, 0x80, 9, 10, 11, 12, 13, 14, 0xEE])
        0 [] =
      some (Outcome.done
        ({ stream := IStream.ofBytes [0xEE], countvar := 5, flag := true, param := 9 },
          [10, 11, 12, 13, 14])) ∧
    READLOOP2 (fun _ _ _ a => (((scalar 1).read a.1 0).1, a.2 ++ [((scalar 1).read a.1 0).2.1]))
        0 (IStream.ofBytes [5, 0, 0, 0x80, 9, 10, 11, 12, 13, 14, 0xEE]) [] =
      some ({ stream := IStream.ofBytes [0xEE], countvar := 5, flag := true, param := 9 },
        [10, 11, 12, 13, 14]) ∧
    READLISTVAR2 (fun _ _ _ => false) (MemType.scalar 1) (MemType.scalar 1) (fun _ => true)
        (fun _ => 0) (IStream.ofBytes [5, 0, 0, 0x80, 9, 10, 11, 12, 13, 14, 0xEE]) 0 =
      some (Outcome.done
        { stream := IStream.ofBytes [0xEE], countvar := 5, flag := true, param := 9,
          listvar := [10, 11, 12, 13, 14],
          decodes := [⟨0, false, true⟩, ⟨1, false, true⟩, ⟨2, false, true⟩, ⟨3, false, true⟩,
            ⟨4, false, true⟩] }) ∧
    READLIST2 (fun _ _ _ => false) (MemType.scalar 1) (MemType.scalar 1) [0] 0
        (IStream.ofBytes [5, 0, 0, 0x80, 9, 10, 11, 12, 13, 14, 0xEE]) =
      some { stream := IStream.ofBytes [0xEE], length := 5, flag := true, param := 9,
             decodes := [⟨0, false, true⟩, ⟨1, false, true⟩, ⟨2, false, true⟩, ⟨3, false, true⟩,
               ⟨4, false, true⟩] } := by
  have hn : n < 2 ^ 32 := by
    rcases hcase with ⟨_, _, h, _⟩ | ⟨_, _, h, _⟩
    · omega
    · rw [h]
      exact and_low_bits_lt r
  have hh : extendedCount (IStream.ofBytes (hdr ++ rest)) countvar =
      { stream := IStream.ofBytes rest, countvar := n, flag := flag, param := prm } := by
    rcases hcase with ⟨hb, h1, h2, h3, h4⟩ | ⟨hb, h1, h2, h3, h4⟩
    · rw [h1, h2, h3, h4]
      exact extendedCount_clear r hr hb rest countvar
    · rw [h1, h2, h3, h4, List.append_assoc]
      exact extendedCount_set r hr hb p rest countvar
  have hlen : hdr.length = (if flag then 5 else 4) := by
    rcases hcase with ⟨_, h1, _, h3, _⟩ | ⟨_, h1, _, h3, _⟩
    · rw [h1, h3, toBytes_length]
      rfl
    · rw [h1, h3, List.length_append, toBytes_length]
      rfl
  refine ⟨hlen, hh, ?_, ?_, ?_, ?_, by decide, by decide, by decide, by decide, by decide⟩
  · unfold READLOOPVAR2
    simp only [hh]
    rw [READLOOP2_loop_eq body n hn flag prm (n + 1) 0 _ (Nat.zero_le _) (by omega),
      Nat.sub_zero, ← List.range_eq_range']
    cases ha : alloc n <;> simp
  · unfold READLOOP2
    simp only [hh]
    rw [READLOOP2_loop_eq body n hn flag prm (n + 1) 0 _ (Nat.zero_le _) (by omega),
      Nat.sub_zero, ← List.range_eq_range']
    rfl
  · obtain ⟨o, e⟩ := READLISTVAR2_loop_ends condition normaltype alternatetype n hn flag prm
      (n + 1) 0 (IStream.ofBytes rest) ((List.range (n * normaltype.size)).map heap) []
      (Nat.zero_le _) (by omega)
    refine ⟨o, e, ?_⟩
    unfold READLISTVAR2
    simp only [hh, e]
    cases ha : alloc n <;> simp
  · obtain ⟨x, e⟩ := READLIST2_loop_ends condition normaltype alternatetype garbage n hn flag prm
      (n + 1) 0 (IStream.ofBytes rest) [] (Nat.zero_le _) (by omega)
    refine ⟨x, e, ?_⟩
    unfold READLIST2
    simp only [hh, e, Option.map_some']

/-- C6 at the raw count `0x80000005` with parameter byte `09` followed by `01 02`, for
elements of one byte: the header has 5 bytes, the count statements leave
count 5, flag true, parameter 9 and the stream that holds `01 02`, and `READLOOP2`
and `READLIST2` leave the same count, flag and parameter and run their elements
from that stream. -/
theorem extendedCount_header_witness :
    ([(5 : Byte), 0, 0, 0x80, 9]).length = (if true then 5 else 4) ∧
    extendedCount (IStream.ofBytes ([5, 0, 0, 0x80, 9] ++ [1, 2])) 0 =
      { stream := IStream.ofBytes [1, 2], countvar := 5, flag := true, param := 9 } ∧
    READLOOP2 (fun _ _ i (a : IStream × List Nat) => (a.1, a.2 ++ [i])) 0
        (IStream.ofBytes ([5, 0, 0, 0x80, 9] ++ [1, 2])) [] =
      some ({ stream := ((List.range 5).foldl
                (fun (a : IStream × List Nat) i => (a.1, a.2 ++ [i]))
                (IStream.ofBytes [1, 2], [])).1,
              countvar := 5, flag := true, param := 9 },
            ((List.range 5).foldl (fun (a : IStream × List Nat) i => (a.1, a.2 ++ [i]))
                (IStream.ofBytes [1, 2], [])).2) ∧
    (∃ x : IStream × List Decode,
      READLIST2_loop (fun _ _ _ => false) (MemType.scalar 1) (MemType.scalar 1) [0] 5 true 9
          (5 + 1) 0 (IStream.ofBytes [1, 2]) [] = some x ∧
      READLIST2 (fun _ _ _ => false) (MemType.scalar 1) (MemType.scalar 1) [0] 0
          (IStream.ofBytes ([5, 0, 0, 0x80, 9] ++ [1, 2])) =
        some (List2.mk x.1 5 true 9 x.2)) :=
  (fun t => ⟨t.1, t.2.1, t.2.2.2.1, t.2.2.2.2.2.1⟩)
    (extendedCount_header 0x80000005 (by decide) 9 [5, 0, 0, 0x80, 9] 5 true 9
      (Or.inr ⟨by decide, by decide, by decide, rfl, rfl⟩) [1, 2] 0
      (fun _ _ i (a : IStream × List Nat) => (a.1, a.2 ++ [i])) (fun _ => true) (fun _ a => a) []
      (fun _ _ _ => false) (MemType.scalar 1) (MemType.scalar 1) (fun _ => 0) [0])

/-! ### Failures in `READLISTVAR2` -/

/-- The result of a scalar read is the state of the stream after it. -/
theorem read_impl_ok_eq_good (w : Nat) (s : IStream) (m : List Byte) :
    (read_impl w s m).2.2 = (read_impl w s m).1.good := by
  unfold read_impl
  by_cases he : s.eof = true
  · rw [if_pos he]
    simp only [IStream.eof] at he
    simp [IStream.good, he]
  · rw [if_neg he]

/-- A scalar read from a stream that is not good fails, takes no byte,
stores nothing and leaves the stream not good. -/
theorem read_impl_not_good (w : Nat) (s : IStream) (m : List Byte) (h : s.good = false) :
    (read_impl w s m).1.good = false ∧ (read_impl w s m).1.buf = s.buf ∧
      (read_impl w s m).2.1 = m ∧ (read_impl w s m).2.2 = false := by
  unfold read_impl
  by_cases he : s.eof = true
  · rw [if_pos he]
    exact ⟨h, rfl, rfl, rfl⟩
  · rw [if_neg he]
    have hr : s.read w = ({ s with failbit := true }, []) := by
      unfold IStream.read
      rw [h]
      simp
    rw [hr]
    refine ⟨?_, rfl, ?_, ?_⟩ <;> simp [IStream.good]

/-- The memory a scalar read leaves is as long as the memory it received
when that memory has room for the scalar. -/
theorem read_impl_mem_length (w : Nat) (s : IStream) (m : List Byte) (hm : w ≤ m.length) :
    (read_impl w s m).2.1.length = m.length := by
  unfold read_impl
  by_cases he : s.eof = true
  · rw [if_pos he]
  · rw [if_neg he]
    simp only [List.length_append, List.length_drop]
    have hl : (s.read w).2.length ≤ w := by
      unfold IStream.read
      split
      · split
        · simp
        · simp only
          omega
      · simp
    omega

/-- One pass of the loop of `READLISTVAR2`, with the two branches of the
condition written as one. -/
theorem READLISTVAR2_loop_succ (condition : Bool → Nat → Nat → Bool)
    (normaltype alternatetype : MemType) (countvar : Nat) (flag : Bool) (param : Nat)
    (fuel i : Nat) (stream : IStream) (listvar : List Byte) (decodes : List Decode) :
    READLISTVAR2_loop condition normaltype alternatetype countvar flag param (fuel + 1) i stream
        listvar decodes =
      if i < countvar then
        if (listvar.drop (i * normaltype.size)).length <
            ((if condition flag param i then alternatetype else normaltype).read stream
              (listvar.drop (i * normaltype.size))).2.1.length then
          some Outcome.undefined
        else
          READLISTVAR2_loop condition normaltype alternatetype countvar flag param fuel
            ((i + 1) % 2 ^ 32)
            ((if condition flag param i then alternatetype else normaltype).read stream
              (listvar.drop (i * normaltype.size))).1
            (listvar.take (i * normaltype.size) ++
              ((if condition flag param i then alternatetype else normaltype).read stream
                (listvar.drop (i * normaltype.size))).2.1)
            (decodes ++ [Decode.mk i (condition flag param i)
              ((if condition flag param i then alternatetype else normaltype).read stream
                (listvar.drop (i * normaltype.size))).2.2])
      else some (Outcome.done (stream, listvar, decodes)) := by
  rw [READLISTVAR2_loop]
  by_cases hlt : i < countvar
  · by_cases hc : condition flag param i = true
    · simp only [hlt, hc, if_true]
    · have hc2 : condition flag param i = false := by simpa using hc
      simp only [hlt, hc2, if_true, Bool.false_eq_true, if_false]
  · simp only [hlt, if_false]

/-- One pass of the loop of `READLISTVAR2` over fundamental types of which the
alternate one is not wider than the normal one, on an array of `countvar`
elements: no byte is stored outside the array, and the array keeps its
size. -/
theorem READLISTVAR2_loop_step (condition : Bool → Nat → Nat → Bool) (wn wa : Nat)
    (hw : wa ≤ wn) (countvar : Nat) (hc : countvar < 2 ^ 32) (flag : Bool) (param : Nat)
    (fuel i : Nat) (stream : IStream) (listvar : List Byte) (decodes : List Decode)
    (hlt : i < countvar) (hl : listvar.length = countvar * wn) :
    READLISTVAR2_loop condition (MemType.scalar wn) (MemType.scalar wa) countvar flag param
        (fuel + 1) i stream listvar decodes =
      READLISTVAR2_loop condition (MemType.scalar wn) (MemType.scalar wa) countvar flag param
        fuel (i + 1)
        (read_impl (if condition flag param i then wa else wn) stream
          (listvar.drop (i * wn))).1
        (listvar.take (i * wn) ++
          (read_impl (if condition flag param i then wa else wn) stream
            (listvar.drop (i * wn))).2.1)
        (decodes ++ [Decode.mk i (condition flag param i)
          (read_impl (if condition flag param i then wa else wn) stream
            (listvar.drop (i * wn))).2.2]) ∧
    (listvar.take (i * wn) ++
      (read_impl (if condition flag param i then wa else wn) stream
        (listvar.drop (i * wn))).2.1).length = countvar * wn := by
  have hm : (i + 1) % 2 ^ 32 = i + 1 := Nat.mod_eq_of_lt (by omega)
  have hty : (if condition flag param i then MemType.scalar wa else MemType.scalar wn).read =
      read_impl (if condition flag param i then wa else wn) := by
    split <;> rfl
  have hsz : (MemType.scalar wn).size = wn := rfl
  have hmul : (i + 1) * wn ≤ countvar * wn := Nat.mul_le_mul_right wn hlt
  rw [Nat.add_mul, Nat.one_mul] at hmul
  have hwle : (if condition flag param i then wa else wn) ≤ (listvar.drop (i * wn)).length := by
    rw [List.length_drop, hl]
    split <;> omega
  have hlen := read_impl_mem_length (if condition flag param i then wa else wn) stream
    (listvar.drop (i * wn)) hwle
  constructor
  · rw [READLISTVAR2_loop_succ, if_pos hlt, hty, hm, hsz, if_neg (by omega)]
  · rw [List.length_append, hlen, List.length_take, List.length_drop, hl]
    omega

/-- The loop of `READLISTVAR2` over fundamental types entered with a stream
that is not good: it makes one decode attempt for each remaining index, all
of which fail, takes no byte and stores nothing. -/
theorem READLISTVAR2_loop_not_good (condition : Bool → Nat → Nat → Bool) (wn wa : Nat)
    (hw : wa ≤ wn) (countvar : Nat) (hc : countvar < 2 ^ 32) (flag : Bool) (param : Nat)
    (fuel i : Nat) (stream : IStream) (listvar : List Byte) (decodes : List Decode)
    (hi : i ≤ countvar) (hf : countvar - i < fuel) (hl : listvar.length = countvar * wn)
    (hg : stream.good = false) :
    ∃ (s : IStream) (new : List Decode),
      READLISTVAR2_loop condition (MemType.scalar wn) (MemType.scalar wa) countvar flag param
        fuel i stream listvar decodes = some (Outcome.done (s, listvar, decodes ++ new)) ∧
      s.good = false ∧ s.buf = stream.buf ∧
      new.map (fun d => d.index) = List.range' i (countvar - i) ∧
      ∀ d ∈ new, d.ok = false := by
  induction fuel generalizing i stream decodes with
  | zero => omega
  | succ fuel ih =>
    by_cases hlt : i < countvar
    · obtain ⟨hstep, _⟩ := READLISTVAR2_loop_step condition wn wa hw countvar hc flag param fuel i
        stream listvar decodes hlt hl
      rw [hstep]
      obtain ⟨h1, h2, h3, h4⟩ := read_impl_not_good (if condition flag param i then wa else wn)
        stream (listvar.drop (i * wn)) hg
      rw [h3, h4, List.take_append_drop]
      obtain ⟨s, new, e, g, b, ix, ok⟩ := ih (i + 1) _ (decodes ++
        [{ index := i, alternate := condition flag param i, ok := false }]) (by omega) (by omega) h1
      refine ⟨s, { index := i, alternate := condition flag param i, ok := false } :: new,
        ?_, g, ?_, ?_, ?_⟩
      · rw [e, List.append_assoc, List.singleton_append]
      · rw [b, h2]
      · have hk : countvar - i = (countvar - (i + 1)) + 1 := by omega
        rw [hk, List.range'_succ, List.map_cons, ix]
      · intro d hd
        rcases List.mem_cons.mp hd with rfl | hd
        · rfl
        · exact ok d hd
    · rw [READLISTVAR2_loop_succ, if_neg hlt]
      have hk : countvar - i = 0 := by omega
      exact ⟨stream, [], by rw [List.append_nil], hg, rfl, by rw [hk]; rfl, by simp⟩

/-- The loop of `READLISTVAR2` over fundamental types of which the alternate
one is not wider than the normal one: it runs through and makes one decode
attempt for each remaining index; after a failed attempt every later one
fails, and the stream is then left not good. -/
theorem READLISTVAR2_loop_spec (condition : Bool → Nat → Nat → Bool) (wn wa : Nat)
    (hw : wa ≤ wn) (countvar : Nat) (hc : countvar < 2 ^ 32) (flag : Bool) (param : Nat)
    (fuel i : Nat) (stream : IStream) (listvar : List Byte) (decodes : List Decode)
    (hi : i ≤ countvar) (hf : countvar - i < fuel) (hl : listvar.length = countvar * wn) :
    ∃ (s : IStream) (lv : List Byte) (new : List Decode),
      READLISTVAR2_loop condition (MemType.scalar wn) (MemType.scalar wa) countvar flag param
        fuel i stream listvar decodes = some (Outcome.done (s, lv, decodes ++ new)) ∧
      new.map (fun d => d.index) = List.range' i (countvar - i) ∧
      List.Pairwise (fun a b : Decode => a.ok = false → b.ok = false) new ∧
      ((∃ d ∈ new, d.ok = false) → s.good = false) := by
  induction fuel generalizing i stream listvar decodes with
  | zero => omega
  | succ fuel ih =>
    by_cases hlt : i < countvar
    · obtain ⟨hstep, hlen⟩ := READLISTVAR2_loop_step condition wn wa hw countvar hc flag param
        fuel i stream listvar decodes hlt hl
      rw [hstep]
      have hk : countvar - i = (countvar - (i + 1)) + 1 := by omega
      have hok := read_impl_ok_eq_good (if condition flag param i then wa else wn) stream
        (listvar.drop (i * wn))
      generalize hr : read_impl (if condition flag param i then wa else wn) stream
        (listvar.drop (i * wn)) = r at hok hlen
      cases hb : r.2.2
      · have hg : r.1.good = false := by rw [← hok, hb]
        obtain ⟨s, new, e, g, _, ix, ok⟩ := READLISTVAR2_loop_not_good condition wn wa hw
          countvar hc flag param fuel (i + 1) r.1 (listvar.take (i * wn) ++ r.2.1)
          (decodes ++ [{ index := i, alternate := condition flag param i, ok := false }])
          (by omega) (by omega) hlen hg
        refine ⟨s, listvar.take (i * wn) ++ r.2.1,
          { index := i, alternate := condition flag param i, ok := false } :: new,
          ?_, ?_, ?_, fun _ => g⟩
        · rw [e, List.append_assoc, List.singleton_append]
        · rw [hk, List.range'_succ, List.map_cons, ix]
        · rw [List.pairwise_cons]
          refine ⟨fun d hd _ => ok d hd, ?_⟩
          exact List.pairwise_of_forall_mem_list (fun _ _ b hb2 _ => ok b hb2)
      · obtain ⟨s, lv, new, e, ix, pw, gd⟩ := ih (i + 1) r.1
          (listvar.take (i * wn) ++ r.2.1)
          (decodes ++ [{ index := i, alternate := condition flag param i, ok := true }])
          (by omega) (by omega) hlen
        refine ⟨s, lv, { index := i, alternate := condition flag param i, ok := true } :: new,
          ?_, ?_, ?_, ?_⟩
        · rw [e, List.append_assoc, List.singleton_append]
        · rw [hk, List.range'_succ, List.map_cons, ix]
        · rw [List.pairwise_cons]
          exact ⟨fun d _ h => by simp at h, pw⟩
        · rintro ⟨d, hd, hdok⟩
          rcases List.mem_cons.mp hd with rfl | hd
          · simp at hdok
          · exact gd ⟨d, hd, hdok⟩
    · rw [READLISTVAR2_loop_succ, if_neg hlt]
      have hk : countvar - i = 0 := by omega
      refine ⟨stream, listvar, [], by rw [List.append_nil], by rw [hk]; rfl, List.Pairwise.nil, ?_⟩
      rintro ⟨d, hd, _⟩
      simp at hd


theorem read_impl_length (w : Nat) (s : IStream) (m : List Byte) (hm : m.length = w) :
    (read_impl w s m).2.1.length = w := by
  rw [read_impl_mem_length w s m (by omega), hm]

/-- A 32-bit read leaves a value below 2^32 in the variable, whether it
succeeds or not. -/
theorem scalar_read_value_lt (w : Nat) (s : IStream) (old : Nat) :
    ((scalar w).read s old).2.1 < 256 ^ w := by
  have h := ofBytes_lt (read_impl w s (toBytes w old)).2.1
  rw [read_impl_length w s _ (toBytes_length w old)] at h
  exact h

theorem extendedCount_lt (stream : IStream) (countvar : Nat) :
    (extendedCount stream countvar).countvar < 2 ^ 32 := by
  have h := scalar_read_value_lt 4 stream countvar
  have e : (256 : Nat) ^ 4 = 2 ^ 32 := by norm_num
  rw [e] at h
  unfold extendedCount
  by_cases hb : ((scalar 4).read stream countvar).2.1 &&& 0x80000000 ≠ 0
  · simp only [if_pos hb]
    exact Nat.xor_lt_two_pow h (by norm_num)
  · simp only [if_neg hb]
    exact h

theorem scalar_read_ok_eq_good (w : Nat) (s : IStream) (old : Nat) :
    ((scalar w).read s old).2.2 = ((scalar w).read s old).1.good :=
  read_impl_ok_eq_good w s (toBytes w old)

theorem scalar_read_not_good (w : Nat) (s : IStream) (old : Nat) (h : s.good = false) :
    ((scalar w).read s old).1.good = false :=
  (read_impl_not_good w s (toBytes w old) h).1

/-- When the count read or the parameter read fails, the stream is not
good after the count statements. -/
theorem extendedCount_not_good (stream : IStream) (countvar : Nat)
    (h : ((scalar 4).read stream countvar).2.2 = false ∨
      ((extendedCount stream countvar).flag = true ∧
        ((scalar 1).read ((scalar 4).read stream countvar).1 0).2.2 = false)) :
    (extendedCount stream countvar).stream.good = false := by
  unfold extendedCount at h ⊢
  by_cases hb : ((scalar 4).read stream countvar).2.1 &&& 0x80000000 ≠ 0
  · simp only [if_pos hb] at h ⊢
    rcases h with h | ⟨_, h⟩
    · rw [scalar_read_ok_eq_good] at h
      exact scalar_read_not_good 1 _ 0 h
    · rw [scalar_read_ok_eq_good] at h
      exact h
  · simp only [if_neg hb] at h ⊢
    rcases h with h | ⟨h, _⟩
    · rw [scalar_read_ok_eq_good] at h
      exact h
    · simp at h

/-- C7. `READLISTVAR2` and `READLIST2` do not stop at a failed decode. With normal
type `U32`, alternate type `U16`, the flag as condition and storage that comes
filled with `FF`: on `02 00 00 00 01 00` the decode of element 0 fails and a decode
of element 1 is still made; the run of `READLISTVAR2` goes through to its end
with count 2 and a list of two elements that hold `01 00 FF FF` and `FF FF FF FF`, and
so does the run of `READLIST2`. On `02 00 00 80` the parameter read fails and two
element decodes are still made; on `02 00` the count read fails and two
element decodes are still made, and `READLOOP2` and `READLOOPVAR2` run the body of
the caller twice (the indices it was run with are collected). The sequence
reader `IO::read`, on the same `02 00 00 00 01 00`, returns false at the first failed
element. -/
theorem READLISTVAR2_decodes_after_failure :
    ((scalar 4).read (IStream.ofBytes [1, 0]) 0).2.2 = false ∧
    (READLISTVAR2 (fun flag _ _ => flag) (MemType.scalar 4) (MemType.scalar 2) (fun _ => true)
        (fun _ => 0xFF) (IStream.ofBytes [2, 0, 0, 0, 1, 0]) 0).map
          (Outcome.map fun r => (r.countvar, r.listvar, r.decodes)) =
      some (Outcome.done (2, [1, 0, 0xFF, 0xFF, 0xFF, 0xFF, 0xFF, 0xFF],
        [⟨0, false, false⟩, ⟨1, false, false⟩])) ∧
    (READLIST2 (fun flag _ _ => flag) (MemType.scalar 4) (MemType.scalar 2) [0, 0, 0, 0] 0
        (IStream.ofBytes [2, 0, 0, 0, 1, 0])).map (fun r => (r.length, r.decodes)) =
      some (2, [⟨0, false, false⟩, ⟨1, false, false⟩]) ∧
    ((scalar 1).read (IStream.ofBytes []) 0).2.2 = false ∧
    (READLISTVAR2 (fun flag _ _ => flag) (MemType.scalar 4) (MemType.scalar 2) (fun _ => true)
        (fun _ => 0xFF) (IStream.ofBytes [2, 0, 0, 0x80]) 0).map
          (Outcome.map fun r => r.decodes) =
      some (Outcome.done [⟨0, true, false⟩, ⟨1, true, false⟩]) ∧
    ((scalar 4).read (IStream.ofBytes [2, 0]) 0).2.2 = false ∧
    (READLISTVAR2 (fun flag _ _ => flag) (MemType.scalar 4) (MemType.scalar 2) (fun _ => true)
        (fun _ => 0xFF) (IStream.ofBytes [2, 0]) 0).map (Outcome.map fun r => r.decodes) =
      some (Outcome.done [⟨0, false, false⟩, ⟨1, false, false⟩]) ∧
    (READLOOP2 (fun _ _ i a => (a.1, a.2 ++ [i])) 0 (IStream.ofBytes [2, 0]) []).map
        (fun r => (r.1.countvar, r.2)) = some (2, [0, 1]) ∧
    (READLOOPVAR2 (fun _ _ i a => (a.1, a.2 ++ [i])) (fun _ => true) (fun _ a => a)
        (IStream.ofBytes [2, 0]) 0 []).map (Outcome.map fun r => (r.1.countvar, r.2)) =
      some (Outcome.done (2, [0, 1])) ∧
    (readVector (scalar 4) 0 (fun _ => true) (IStream.ofBytes [2, 0, 0, 0, 1, 0]) []).map
        (Outcome.map fun r => (r.2.1, r.2.2)) =
      some (Outcome.done ([], false)) := by
  refine ⟨by decide, by decide, by decide, by decide, by decide, by decide, by decide,
    by decide, by decide, by decide⟩

/-- Failures in `READLISTVAR2` over fundamental types of which the alternate
one is not wider than the normal one, when the storage is obtained: the run
goes through to its end on every input and makes one element decode for
every index below the count, failed decodes included. Once a decode has
failed every later one fails. When the count read fails, or the flag is set
and the parameter read fails, every element decode fails, no byte is taken
after the count statements and the list storage stays as allocated. After
any failure the stream is not good. -/
theorem READLISTVAR2_failure_persists (condition : Bool → Nat → Nat → Bool) (wn wa : Nat)
    (hw : wa ≤ wn) (alloc : Nat → Bool) (heap : Nat → Byte) (stream : IStream) (countvar : Nat)
    (halloc : alloc (extendedCount stream countvar).countvar = true) :
    ∃ r : ListVar2,
      READLISTVAR2 condition (MemType.scalar wn) (MemType.scalar wa) alloc heap stream countvar =
        some (Outcome.done r) ∧
      r.decodes.map (fun d => d.index) = List.range r.countvar ∧
      List.Pairwise (fun a b : Decode => a.ok = false → b.ok = false) r.decodes ∧
      ((((scalar 4).read stream countvar).2.2 = false ∨
          (r.flag = true ∧ ((scalar 1).read ((scalar 4).read stream countvar).1 0).2.2 = false)) →
        (∀ d ∈ r.decodes, d.ok = false) ∧ r.stream.good = false ∧
          r.stream.buf = (extendedCount stream countvar).stream.buf ∧
          r.listvar = (List.range (r.countvar * wn)).map heap) ∧
      ((∃ d ∈ r.decodes, d.ok = false) → r.stream.good = false) := by
  have hlt := extendedCount_lt stream countvar
  have hmem : ((List.range ((extendedCount stream countvar).countvar * wn)).map heap).length =
      (extendedCount stream countvar).countvar * wn := by
    rw [List.length_map, List.length_range]
  obtain ⟨s, lv, new, e, ix, pw, gd⟩ := READLISTVAR2_loop_spec condition wn wa hw
    (extendedCount stream countvar).countvar hlt (extendedCount stream countvar).flag
    (extendedCount stream countvar).param ((extendedCount stream countvar).countvar + 1) 0
    (extendedCount stream countvar).stream
    ((List.range ((extendedCount stream countvar).countvar * wn)).map heap) []
    (Nat.zero_le _) (by omega) hmem
  rw [List.nil_append] at e
  rw [Nat.sub_zero] at ix
  have hsz : (MemType.scalar wn).size = wn := rfl
  refine ⟨{ stream := s, countvar := (extendedCount stream countvar).countvar,
            flag := (extendedCount stream countvar).flag,
            param := (extendedCount stream countvar).param, listvar := lv, decodes := new },
    ?_, ?_, pw, ?_, gd⟩
  · unfold READLISTVAR2
    simp only [halloc, hsz, e, Bool.not_true, Bool.false_eq_true, if_false, Option.map_some',
      Outcome.map]
  · rw [List.range_eq_range']
    exact ix
  · intro hfail
    have hg := extendedCount_not_good stream countvar hfail
    obtain ⟨s2, new2, e2, g2, b2, _, ok2⟩ := READLISTVAR2_loop_not_good condition wn wa hw
      (extendedCount stream countvar).countvar hlt (extendedCount stream countvar).flag
      (extendedCount stream countvar).param ((extendedCount stream countvar).countvar + 1) 0
      (extendedCount stream countvar).stream
      ((List.range ((extendedCount stream countvar).countvar * wn)).map heap) []
      (Nat.zero_le _) (by omega) hmem hg
    rw [List.nil_append, e] at e2
    have e3 := Outcome.done.inj (Option.some.inj e2)
    simp only [Prod.mk.injEq] at e3
    obtain ⟨hs, hl, hn⟩ := e3
    subst hs hl hn
    exact ⟨ok2, g2, b2, rfl⟩

/-- The other ways in which a run of `READLISTVAR2` ends. With normal type `U8` and
alternate type `U32`, on `01 00 00 80 00 AA BB CC DD` the 4 bytes of element 0 are stored
into an array of 1 byte: the behaviour is undefined. On `FF FF FF 7F 01`, on a
machine that provides storage for at most 2^20 elements, `new` throws after
the count statements and no element is read. -/
theorem READLISTVAR2_undefined_or_thrown :
    READLISTVAR2 (fun flag _ _ => flag) (MemType.scalar 1) (MemType.scalar 4) (fun _ => true)
        (fun _ => 0) (IStream.ofBytes [1, 0, 0, 0x80, 0, 0xAA, 0xBB, 0xCC, 0xDD]) 0 =
      some Outcome.undefined ∧
    READLISTVAR2 (fun flag _ _ => flag) (MemType.scalar 4) (MemType.scalar 2)
        (fun n => decide (n ≤ 2 ^ 20)) (fun _ => 0) (IStream.ofBytes [0xFF, 0xFF, 0xFF, 0x7F, 1])
        0 =
      some (Outcome.thrown
        { stream := IStream.ofBytes [1], countvar := 0x7FFFFFFF, flag := false, param := 0 }) := by
  decide

/-! ## Theorems: failure states of the readers -/

/-- Decoding into a destination that holds `p` appends to `p` what decoding
into an empty destination yields. -/
theorem readN_acc {T : Type} (c : Codec T) (obj0 : T) (k : Nat) (s sk : IStream)
    (p es : List T) (b : Bool) (h : readN c obj0 k s [] = (sk, es, b)) :
    readN c obj0 k s p = (sk, p ++ es, b) := by
  suffices hg : ∀ (k : Nat) (s : IStream) (v : List T),
      readN c obj0 k s v = ((readN c obj0 k s []).1, v ++ (readN c obj0 k s []).2.1,
        (readN c obj0 k s []).2.2) by
    rw [hg k s p, h]
  intro k
  induction k with
  | zero =>
    intro s v
    simp [readN]
  | succ k ih =>
    intro s v
    rw [readN, readN]
    cases hok : (c.read s obj0).2.2
    · simp
    · simp only [if_true]
      rw [ih (c.read s obj0).1 (v ++ [(c.read s obj0).2.1]),
        ih (c.read s obj0).1 ([] ++ [(c.read s obj0).2.1])]
      simp

/-- When the first `k` decodes succeed and the next one fails, decoding more
than `k` elements ends at the failing decode with the `k` elements. -/
theorem readN_first_failure {T : Type} (c : Codec T) (obj0 : T) (k m : Nat) (s sk : IStream)
    (v es : List T) (h : readN c obj0 k s v = (sk, es, true))
    (hf : (c.read sk obj0).2.2 = false) :
    readN c obj0 (k + 1 + m) s v = ((c.read sk obj0).1, es, false) := by
  induction k generalizing s v with
  | zero =>
    rw [readN] at h
    obtain ⟨rfl, rfl⟩ : s = sk ∧ v = es := by
      simpa using h
    rw [Nat.zero_add, Nat.add_comm, readN, hf]
    simp
  | succ k ih =>
    rw [readN] at h
    have e : k + 1 + 1 + m = (k + 1 + m) + 1 := by omega
    rw [e, readN]
    cases hok : (c.read s obj0).2.2
    · rw [hok] at h
      simp at h
    · rw [hok] at h
      simp only [if_true] at h ⊢
      exact ih _ _ h

/-- C11, counterexample. The stream `FF FF FF FF 01 00` read as `U32` elements into a
vector that holds 9, on a machine on which storage for 2^32 - 1 elements
cannot be reserved (here: at most 2^20 elements). The count decodes, to
2^32 - 1, and the decode of element 0 from the 2 bytes that follow would fail;
the call does not return false: `reserve` throws, with the 2 bytes unread and
the destination unchanged. -/
theorem readVector_throws_on_large_count :
    (scalar 4).read (IStream.ofBytes [0xFF, 0xFF, 0xFF, 0xFF, 1, 0]) 0 =
      (IStream.ofBytes [1, 0], 0xFFFFFFFF, true) ∧
    ((scalar 4).read (IStream.ofBytes [1, 0]) 0).2.2 = false ∧
    readVector (scalar 4) 0 (fun n => decide (n ≤ 2 ^ 20))
        (IStream.ofBytes [0xFF, 0xFF, 0xFF, 0xFF, 1, 0]) [9] =
      some (Outcome.thrown (IStream.ofBytes [1, 0], [9])) := by
  decide

/-- C11, amended. The sequence reader on a destination that holds `p`. When
the count read fails it returns false and the destination still holds `p`.
When the count is read and storage for that many elements cannot be
reserved, the call is left by an exception, with the stream as the count
read left it and the destination still holding `p`. When the count is read,
the storage is reserved, the first `k` element decodes succeed with the
elements `es` and the decode of element `k` fails, it returns false, the
destination holds `p` followed by `es`, and the stream is the one the
failing decode left: no later element is decoded. -/
theorem readVector_failure_states {T : Type} (c : Codec T) (obj0 : T) (reserve : Nat → Bool)
    (stream : IStream) (p : List T) :
    (((scalar 4).read stream 0).2.2 = false →
      readVector c obj0 reserve stream p =
        some (Outcome.done (((scalar 4).read stream 0).1, p, false))) ∧
    (((scalar 4).read stream 0).2.2 = true →
        reserve ((scalar 4).read stream 0).2.1 = false →
      readVector c obj0 reserve stream p =
        some (Outcome.thrown (((scalar 4).read stream 0).1, p))) ∧
    (((scalar 4).read stream 0).2.2 = true →
        reserve ((scalar 4).read stream 0).2.1 = true →
      ∀ (k : Nat) (sk : IStream) (es : List T), k < ((scalar 4).read stream 0).2.1 →
        readN c obj0 k ((scalar 4).read stream 0).1 [] = (sk, es, true) →
        (c.read sk obj0).2.2 = false →
        readVector c obj0 reserve stream p =
          some (Outcome.done ((c.read sk obj0).1, p ++ es, false))) := by
  refine ⟨?_, ?_, ?_⟩
  · intro h
    rw [readVector_eq, h]
    simp
  · intro h hres
    rw [readVector_eq, h, hres]
    simp
  · intro h hres k sk es hk hes hf
    rw [readVector_eq, h, hres]
    simp only [if_true]
    have e : ((scalar 4).read stream 0).2.1 = k + 1 + (((scalar 4).read stream 0).2.1 - k - 1) := by
      omega
    rw [e, readN_first_failure c obj0 k _ _ sk p (p ++ es) (readN_acc c obj0 k _ sk p es true hes) hf]

/-- C11 at the stream `03 00 00 00 01 00 00 00 02 00` read as `U32` elements into
a vector that holds 9, on a machine that reserves storage for up to 1000
elements: element 1 is the first to fail. -/
theorem readVector_failure_states_witness :
    readVector (scalar 4) 0 (fun n => decide (n ≤ 1000))
        (IStream.ofBytes [3, 0, 0, 0, 1, 0, 0, 0, 2, 0]) [9] =
      some (Outcome.done (((scalar 4).read (IStream.ofBytes [2, 0]) 0).1, [9] ++ [1], false)) :=
  (readVector_failure_states (scalar 4) 0 (fun n => decide (n ≤ 1000))
      (IStream.ofBytes [3, 0, 0, 0, 1, 0, 0, 0, 2, 0]) [9]).2.2
    (by decide) (by decide) 1 (IStream.ofBytes [2, 0]) [1] (by decide) (by decide) (by decide)

/-- C12. A scalar read from a stream whose end-of-file bit is set returns
false and changes nothing: the stream, with its bytes and state bits, and
the destination are as before. -/
theorem scalar_read_at_eof (w : Nat) (stream : IStream) (heof : stream.eof = true)
    (value : List Byte) (v : Nat) (hv : v < 256 ^ w) :
    read_impl w stream value = (stream, value, false) ∧
      (scalar w).read stream v = (stream, v, false) := by
  have h : read_impl w stream value = (stream, value, false) := by
    unfold read_impl
    rw [if_pos heof]
  refine ⟨h, ?_⟩
  have h2 : read_impl w stream (toBytes w v) = (stream, toBytes w v, false) := by
    unfold read_impl
    rw [if_pos heof]
  simp only [scalar, h2, ofBytes_toBytes_of_lt hv]

/-- C12 at a `U32` destination holding 7 and a stream with three unread bytes
whose end-of-file bit is set. -/
theorem scalar_read_at_eof_witness :
    read_impl 4 { buf := [1, 2, 3], eofbit := true, failbit := false, badbit := false }
        [7, 0, 0, 0] =
      ({ buf := [1, 2, 3], eofbit := true, failbit := false, badbit := false },
        [7, 0, 0, 0], false) ∧
      (scalar 4).read { buf := [1, 2, 3], eofbit := true, failbit := false, badbit := false } 7 =
        ({ buf := [1, 2, 3], eofbit := true, failbit := false, badbit := false }, 7, false) :=
  scalar_read_at_eof 4 { buf := [1, 2, 3], eofbit := true, failbit := false, badbit := false }
    rfl [7, 0, 0, 0] 7 (by decide)

/-- C19. The sequence reader appends: on a destination that holds `p` and a
stream that holds the encoding of `e`, on a machine on which storage for as
many elements as `e` has can be reserved, it returns true and the
destination holds `p` followed by `e`, `|p| + |e|` elements; the string reader
replaces what the destination held; so the sequence read yields `e` itself
exactly when `p` is empty. -/
theorem readVector_appends (w obj0 : Nat) (reserve : Nat → Bool) (p e : List Nat)
    (tail : List Byte) (he : ∀ x ∈ e, x < 256 ^ w) (hn : e.length < 2 ^ 32)
    (hres : reserve e.length = true) (s prior : List Byte) (hs : s.length ≤ 255) :
    readVector (scalar w) obj0 reserve (IStream.ofBytes (encodeVector w e ++ tail)) p =
        some (Outcome.done (IStream.ofBytes tail, p ++ e, true)) ∧
      (p ++ e).length = p.length + e.length ∧
      readString (IStream.ofBytes (encodeString s ++ tail)) prior =
        some (IStream.ofBytes tail, s, true) ∧
      (p ++ e = e ↔ p = []) := by
  refine ⟨readVector_scalar_ofBytes w obj0 reserve e tail p he hn hres, List.length_append p e,
    readString_ofBytes s tail prior hs, ?_⟩
  constructor
  · intro h
    have hl := congrArg List.length h
    rw [List.length_append] at hl
    exact List.length_eq_zero.mp (by omega)
  · intro h
    rw [h, List.nil_append]

/-- C19 at the destination [5, 6] and the encoding of [1, 2] as `U32`, on a machine
that reserves storage for up to 1000 elements, and at the string "ok" read
over a destination that held two bytes. -/
theorem readVector_appends_witness :
    readVector (scalar 4) 0 (fun n => decide (n ≤ 1000))
          (IStream.ofBytes (encodeVector 4 [1, 2] ++ [7])) [5, 6] =
        some (Outcome.done (IStream.ofBytes [7], [5, 6] ++ [1, 2], true)) ∧
      ([5, 6] ++ [1, 2]).length = [5, 6].length + [1, 2].length ∧
      readString (IStream.ofBytes (encodeString [0x6F, 0x6B] ++ [7])) [1, 1] =
        some (IStream.ofBytes [7], [0x6F, 0x6B], true) ∧
      ([5, 6] ++ [1, 2] = [1, 2] ↔ [5, 6] = ([] : List Nat)) :=
  readVector_appends 4 0 (fun n => decide (n ≤ 1000)) [5, 6] [1, 2] [7] (by decide) (by decide)
    (by decide) [0x6F, 0x6B] [1, 1] (by decide)

/-! ## Theorems: the geometric and colour records -/

theorem Point2_roundtrip (w a b : Nat) (ha : a < 256 ^ w) (hb : b < 256 ^ w)
    (out tail : List Byte) (old : Point2 Nat) :
    Point2.write (scalar w) (OStream.sink out) { x := a, y := b } =
        (OStream.sink (out ++ (toBytes w a ++ toBytes w b)), true) ∧
      Point2.read (scalar w) (IStream.ofBytes ((toBytes w a ++ toBytes w b) ++ tail)) old =
        (IStream.ofBytes tail, { x := a, y := b }, true) := by
  constructor
  · simp only [Point2.write, scalar_write_sink, Bool.not_true, Bool.false_eq_true, if_false,
      List.append_assoc]
  · simp only [Point2.read, List.append_assoc, scalar_read_toBytes w a _ _ ha,
      scalar_read_toBytes w b _ _ hb, Bool.not_true, Bool.false_eq_true, if_false]

theorem Point3_roundtrip (w a b c : Nat) (ha : a < 256 ^ w) (hb : b < 256 ^ w)
    (hc : c < 256 ^ w) (out tail : List Byte) (old : Point3 Nat) :
    Point3.write (scalar w) (OStream.sink out) { x := a, y := b, z := c } =
        (OStream.sink (out ++ (toBytes w a ++ toBytes w b ++ toBytes w c)), true) ∧
      Point3.read (scalar w)
          (IStream.ofBytes ((toBytes w a ++ toBytes w b ++ toBytes w c) ++ tail)) old =
        (IStream.ofBytes tail, { x := a, y := b, z := c }, true) := by
  constructor
  · simp only [Point3.write, scalar_write_sink, Bool.not_true, Bool.false_eq_true, if_false,
      List.append_assoc]
  · simp only [Point3.read, List.append_assoc, scalar_read_toBytes w a _ _ ha,
      scalar_read_toBytes w b _ _ hb, scalar_read_toBytes w c _ _ hc, Bool.not_true,
      Bool.false_eq_true, if_false]

theorem Point4_roundtrip (w a b c d : Nat) (ha : a < 256 ^ w) (hb : b < 256 ^ w)
    (hc : c < 256 ^ w) (hd : d < 256 ^ w) (out tail : List Byte) (old : Point4 Nat) :
    Point4.write (scalar w) (OStream.sink out) { w := a, x := b, y := c, z := d } =
        (OStream.sink (out ++ (toBytes w a ++ toBytes w b ++ toBytes w c ++ toBytes w d)),
          true) ∧
      Point4.read (scalar w)
          (IStream.ofBytes ((toBytes w a ++ toBytes w b ++ toBytes w c ++ toBytes w d) ++ tail))
          old =
        (IStream.ofBytes tail, { w := a, x := b, y := c, z := d }, true) := by
  constructor
  · simp only [Point4.write, scalar_write_sink, Bool.not_true, Bool.false_eq_true, if_false,
      List.append_assoc]
  · simp only [Point4.read, List.append_assoc, scalar_read_toBytes w a _ _ ha,
      scalar_read_toBytes w b _ _ hb, scalar_read_toBytes w c _ _ hc,
      scalar_read_toBytes w d _ _ hd, Bool.not_true, Bool.false_eq_true, if_false]

theorem Color_roundtrip (w a b c d : Nat) (ha : a < 256 ^ w) (hb : b < 256 ^ w)
    (hc : c < 256 ^ w) (hd : d < 256 ^ w) (out tail : List Byte) (old : Color Nat) :
    Color.write (scalar w) (OStream.sink out) { red := a, green := b, blue := c, alpha := d } =
        (OStream.sink (out ++ (toBytes w a ++ toBytes w b ++ toBytes w c ++ toBytes w d)),
          true) ∧
      Color.read (scalar w)
          (IStream.ofBytes ((toBytes w a ++ toBytes w b ++ toBytes w c ++ toBytes w d) ++ tail))
          old =
        (IStream.ofBytes tail, { red := a, green := b, blue := c, alpha := d }, true) := by
  constructor
  · simp only [Color.write, scalar_write_sink, Bool.not_true, Bool.false_eq_true, if_false,
      List.append_assoc]
  · simp only [Color.read, List.append_assoc, scalar_read_toBytes w a _ _ ha,
      scalar_read_toBytes w b _ _ hb, scalar_read_toBytes w c _ _ hc,
      scalar_read_toBytes w d _ _ hd, Bool.not_true, Bool.false_eq_true, if_false]

/-- The reader of `Point2<T>` reads its components in order and stops at the
first that fails. -/
theorem Point2_short_circuit {T : Type} (c : Codec T) (s : IStream) (p2 : Point2 T) :
    ∀ r1 r2 : IStream × T × Bool, r1 = c.read s p2.x →
      r2 = c.read r1.1 p2.y →
      (Point2.read c s p2).2.2 = (r1.2.2 && r2.2.2) ∧
      (r1.2.2 = false →
        Point2.read c s p2 = (r1.1, { p2 with x := r1.2.1 }, false)) ∧
      (r1.2.2 = true →
        Point2.read c s p2 = (r2.1, { x := r1.2.1, y := r2.2.1 }, r2.2.2)) := by
  intro r1 r2 e1 e2
  subst e1 e2
  unfold Point2.read
  refine ⟨?_, ?_, ?_⟩
  · cases h1 : (c.read s p2.x).2.2 <;>
      simp [h1]
  · intro h1
    simp [h1]
  · intro h1
    simp [h1]

/-- The reader of `Point3<T>` reads its components in order and stops at the
first that fails. -/
theorem Point3_short_circuit {T : Type} (c : Codec T) (s : IStream) (p3 : Point3 T) :
    ∀ r1 r2 r3 : IStream × T × Bool, r1 = c.read s p3.x →
      r2 = c.read r1.1 p3.y → r3 = c.read r2.1 p3.z →
      (Point3.read c s p3).2.2 = (r1.2.2 && r2.2.2 && r3.2.2) ∧
      (r1.2.2 = false →
        Point3.read c s p3 = (r1.1, { p3 with x := r1.2.1 }, false)) ∧
      (r1.2.2 = true → r2.2.2 = false →
        Point3.read c s p3 = (r2.1, { p3 with x := r1.2.1, y := r2.2.1 }, false)) ∧
      (r1.2.2 = true → r2.2.2 = true →
        Point3.read c s p3 = (r3.1, { x := r1.2.1, y := r2.2.1, z := r3.2.1 }, r3.2.2)) := by
  intro r1 r2 r3 e1 e2 e3
  subst e1 e2 e3
  unfold Point3.read
  refine ⟨?_, ?_, ?_, ?_⟩
  · cases h1 : (c.read s p3.x).2.2 <;>
      cases h2 : (c.read (c.read s p3.x).1 p3.y).2.2 <;>
      simp [h1, h2]
  · intro h1
    simp [h1]
  · intro h1 h2
    simp [h1, h2]
  · intro h1 h2
    simp [h1, h2]

/-- The reader of `Point4<T>` reads its components in order and stops at the
first that fails. -/
theorem Point4_short_circuit {T : Type} (c : Codec T) (s : IStream) (p4 : Point4 T) :
    ∀ r1 r2 r3 r4 : IStream × T × Bool, r1 = c.read s p4.w →
      r2 = c.read r1.1 p4.x → r3 = c.read r2.1 p4.y → r4 = c.read r3.1 p4.z →
      (Point4.read c s p4).2.2 = (r1.2.2 && r2.2.2 && r3.2.2 && r4.2.2) ∧
      (r1.2.2 = false →
        Point4.read c s p4 = (r1.1, { p4 with w := r1.2.1 }, false)) ∧
      (r1.2.2 = true → r2.2.2 = false →
        Point4.read c s p4 = (r2.1, { p4 with w := r1.2.1, x := r2.2.1 }, false)) ∧
      (r1.2.2 = true → r2.2.2 = true → r3.2.2 = false →
        Point4.read c s p4 = (r3.1, { p4 with w := r1.2.1, x := r2.2.1, y := r3.2.1 }, false)) ∧
      (r1.2.2 = true → r2.2.2 = true → r3.2.2 = true →
        Point4.read c s p4 = (r4.1, { w := r1.2.1, x := r2.2.1, y := r3.2.1, z := r4.2.1 }, r4.2.2)) := by
  intro r1 r2 r3 r4 e1 e2 e3 e4
  subst e1 e2 e3 e4
  unfold Point4.read
  refine ⟨?_, ?_, ?_, ?_, ?_⟩
  · cases h1 : (c.read s p4.w).2.2 <;>
      cases h2 : (c.read (c.read s p4.w).1 p4.x).2.2 <;>
      cases h3 : (c.read (c.read (c.read s p4.w).1 p4.x).1 p4.y).2.2 <;>
      simp [h1, h2, h3]
  · intro h1
    simp [h1]
  · intro h1 h2
    simp [h1, h2]
  · intro h1 h2 h3
    simp [h1, h2, h3]
  · intro h1 h2 h3
    simp [h1, h2, h3]

/-- The reader of `Color<T>` reads its components in order and stops at the
first that fails. -/
theorem Color_short_circuit {T : Type} (c : Codec T) (s : IStream) (col : Color T) :
    ∀ r1 r2 r3 r4 : IStream × T × Bool, r1 = c.read s col.red →
      r2 = c.read r1.1 col.green → r3 = c.read r2.1 col.blue → r4 = c.read r3.1 col.alpha →
      (Color.read c s col).2.2 = (r1.2.2 && r2.2.2 && r3.2.2 && r4.2.2) ∧
      (r1.2.2 = false →
        Color.read c s col = (r1.1, { col with red := r1.2.1 }, false)) ∧
      (r1.2.2 = true → r2.2.2 = false →
        Color.read c s col = (r2.1, { col with red := r1.2.1, green := r2.2.1 }, false)) ∧
      (r1.2.2 = true → r2.2.2 = true → r3.2.2 = false →
        Color.read c s col = (r3.1, { col with red := r1.2.1, green := r2.2.1, blue := r3.2.1 }, false)) ∧
      (r1.2.2 = true → r2.2.2 = true → r3.2.2 = true →
        Color.read c s col = (r4.1, { red := r1.2.1, green := r2.2.1, blue := r3.2.1, alpha := r4.2.1 }, r4.2.2)) := by
  intro r1 r2 r3 r4 e1 e2 e3 e4
  subst e1 e2 e3 e4
  unfold Color.read
  refine ⟨?_, ?_, ?_, ?_, ?_⟩
  · cases h1 : (c.read s col.red).2.2 <;>
      cases h2 : (c.read (c.read s col.red).1 col.green).2.2 <;>
      cases h3 : (c.read (c.read (c.read s col.red).1 col.green).1 col.blue).2.2 <;>
      simp [h1, h2, h3]
  · intro h1
    simp [h1]
  · intro h1 h2
    simp [h1, h2]
  · intro h1 h2 h3
    simp [h1, h2, h3]
  · intro h1 h2 h3
    simp [h1, h2, h3]

/-- C17. `Point2` (x, y), `Point3` (x, y, z), `Point4` (w, x, y, z) and `Color`
(red, green, blue, alpha): the reader returns true exactly when every
component read succeeds; the components are read in the listed order, each
from the stream the one before left; at the first component read that
fails the reader returns with the stream that read left and the later
components untouched. Over a scalar component type the writer emits the
components in the same order and the reader returns the value written. -/
theorem composites_short_circuit {T : Type} (c : Codec T) (s : IStream) (p2 : Point2 T)
    (p3 : Point3 T) (p4 : Point4 T) (col : Color T) (w a b cc d : Nat) (ha : a < 256 ^ w)
    (hb : b < 256 ^ w) (hc : cc < 256 ^ w) (hd : d < 256 ^ w) (out tail : List Byte)
    (o2 : Point2 Nat) (o3 : Point3 Nat) (o4 : Point4 Nat) (oc : Color Nat) :
    (∀ r1 r2 : IStream × T × Bool, r1 = c.read s p2.x →
      r2 = c.read r1.1 p2.y →
      (Point2.read c s p2).2.2 = (r1.2.2 && r2.2.2) ∧
      (r1.2.2 = false →
        Point2.read c s p2 = (r1.1, { p2 with x := r1.2.1 }, false)) ∧
      (r1.2.2 = true →
        Point2.read c s p2 = (r2.1, { x := r1.2.1, y := r2.2.1 }, r2.2.2))) ∧
    (∀ r1 r2 r3 : IStream × T × Bool, r1 = c.read s p3.x →
      r2 = c.read r1.1 p3.y → r3 = c.read r2.1 p3.z →
      (Point3.read c s p3).2.2 = (r1.2.2 && r2.2.2 && r3.2.2) ∧
      (r1.2.2 = false →
        Point3.read c s p3 = (r1.1, { p3 with x := r1.2.1 }, false)) ∧
      (r1.2.2 = true → r2.2.2 = false →
        Point3.read c s p3 = (r2.1, { p3 with x := r1.2.1, y := r2.2.1 }, false)) ∧
      (r1.2.2 = true → r2.2.2 = true →
        Point3.read c s p3 = (r3.1, { x := r1.2.1, y := r2.2.1, z := r3.2.1 }, r3.2.2))) ∧
    (∀ r1 r2 r3 r4 : IStream × T × Bool, r1 = c.read s p4.w →
      r2 = c.read r1.1 p4.x → r3 = c.read r2.1 p4.y → r4 = c.read r3.1 p4.z →
      (Point4.read c s p4).2.2 = (r1.2.2 && r2.2.2 && r3.2.2 && r4.2.2) ∧
      (r1.2.2 = false →
        Point4.read c s p4 = (r1.1, { p4 with w := r1.2.1 }, false)) ∧
      (r1.2.2 = true → r2.2.2 = false →
        Point4.read c s p4 = (r2.1, { p4 with w := r1.2.1, x := r2.2.1 }, false)) ∧
      (r1.2.2 = true → r2.2.2 = true → r3.2.2 = false →
        Point4.read c s p4 = (r3.1, { p4 with w := r1.2.1, x := r2.2.1, y := r3.2.1 }, false)) ∧
      (r1.2.2 = true → r2.2.2 = true → r3.2.2 = true →
        Point4.read c s p4 = (r4.1, { w := r1.2.1, x := r2.2.1, y := r3.2.1, z := r4.2.1 }, r4.2.2))) ∧
    (∀ r1 r2 r3 r4 : IStream × T × Bool, r1 = c.read s col.red →
      r2 = c.read r1.1 col.green → r3 = c.read r2.1 col.blue → r4 = c.read r3.1 col.alpha →
      (Color.read c s col).2.2 = (r1.2.2 && r2.2.2 && r3.2.2 && r4.2.2) ∧
      (r1.2.2 = false →
        Color.read c s col = (r1.1, { col with red := r1.2.1 }, false)) ∧
      (r1.2.2 = true → r2.2.2 = false →
        Color.read c s col = (r2.1, { col with red := r1.2.1, green := r2.2.1 }, false)) ∧
      (r1.2.2 = true → r2.2.2 = true → r3.2.2 = false →
        Color.read c s col = (r3.1, { col with red := r1.2.1, green := r2.2.1, blue := r3.2.1 }, false)) ∧
      (r1.2.2 = true → r2.2.2 = true → r3.2.2 = true →
        Color.read c s col = (r4.1, { red := r1.2.1, green := r2.2.1, blue := r3.2.1, alpha := r4.2.1 }, r4.2.2))) ∧
    (Point2.write (scalar w) (OStream.sink out) { x := a, y := b } =
        (OStream.sink (out ++ (toBytes w a ++ toBytes w b)), true) ∧
      Point2.read (scalar w) (IStream.ofBytes ((toBytes w a ++ toBytes w b) ++ tail)) o2 =
        (IStream.ofBytes tail, { x := a, y := b }, true)) ∧
    (Point3.write (scalar w) (OStream.sink out) { x := a, y := b, z := cc } =
        (OStream.sink (out ++ (toBytes w a ++ toBytes w b ++ toBytes w cc)), true) ∧
      Point3.read (scalar w) (IStream.ofBytes ((toBytes w a ++ toBytes w b ++ toBytes w cc) ++ tail)) o3 =
        (IStream.ofBytes tail, { x := a, y := b, z := cc }, true)) ∧
    (Point4.write (scalar w) (OStream.sink out) { w := a, x := b, y := cc, z := d } =
        (OStream.sink (out ++ (toBytes w a ++ toBytes w b ++ toBytes w cc ++ toBytes w d)), true) ∧
      Point4.read (scalar w) (IStream.ofBytes ((toBytes w a ++ toBytes w b ++ toBytes w cc ++ toBytes w d) ++ tail)) o4 =
        (IStream.ofBytes tail, { w := a, x := b, y := cc, z := d }, true)) ∧
    (Color.write (scalar w) (OStream.sink out) { red := a, green := b, blue := cc, alpha := d } =
        (OStream.sink (out ++ (toBytes w a ++ toBytes w b ++ toBytes w cc ++ toBytes w d)), true) ∧
      Color.read (scalar w) (IStream.ofBytes ((toBytes w a ++ toBytes w b ++ toBytes w cc ++ toBytes w d) ++ tail)) oc =
        (IStream.ofBytes tail, { red := a, green := b, blue := cc, alpha := d }, true)) :=
  ⟨Point2_short_circuit c s p2, Point3_short_circuit c s p3, Point4_short_circuit c s p4,
    Color_short_circuit c s col, Point2_roundtrip w a b ha hb out tail o2,
    Point3_roundtrip w a b cc ha hb hc out tail o3,
    Point4_roundtrip w a b cc d ha hb hc hd out tail o4,
    Color_roundtrip w a b cc d ha hb hc hd out tail oc⟩

/-- C17 at `Point2` and `Color` values over `U32` components. -/
theorem composites_short_circuit_witness :
    (Point2.write (scalar 4) (OStream.sink []) { x := 1, y := 2 } =
        (OStream.sink ([] ++ (toBytes 4 1 ++ toBytes 4 2)), true) ∧
      Point2.read (scalar 4) (IStream.ofBytes ((toBytes 4 1 ++ toBytes 4 2) ++ [9]))
          { x := 0, y := 0 } =
        (IStream.ofBytes [9], { x := 1, y := 2 }, true)) ∧
    (Color.write (scalar 4) (OStream.sink []) { red := 1, green := 2, blue := 3, alpha := 4 } =
        (OStream.sink ([] ++ (toBytes 4 1 ++ toBytes 4 2 ++ toBytes 4 3 ++ toBytes 4 4)), true) ∧
      Color.read (scalar 4)
          (IStream.ofBytes ((toBytes 4 1 ++ toBytes 4 2 ++ toBytes 4 3 ++ toBytes 4 4) ++ [9]))
          { red := 0, green := 0, blue := 0, alpha := 0 } =
        (IStream.ofBytes [9], { red := 1, green := 2, blue := 3, alpha := 4 }, true)) :=
  ⟨(composites_short_circuit (scalar 4) (IStream.ofBytes []) { x := 0, y := 0 }
      { x := 0, y := 0, z := 0 } { w := 0, x := 0, y := 0, z := 0 }
      { red := 0, green := 0, blue := 0, alpha := 0 } 4 1 2 3 4 (by decide) (by decide)
      (by decide) (by decide) [] [9] { x := 0, y := 0 } { x := 0, y := 0, z := 0 }
      { w := 0, x := 0, y := 0, z := 0 } { red := 0, green := 0, blue := 0, alpha := 0 }).2.2.2.2.1,
    (composites_short_circuit (scalar 4) (IStream.ofBytes []) { x := 0, y := 0 }
      { x := 0, y := 0, z := 0 } { w := 0, x := 0, y := 0, z := 0 }
      { red := 0, green := 0, blue := 0, alpha := 0 } 4 1 2 3 4 (by decide) (by decide)
      (by decide) (by decide) [] [9] { x := 0, y := 0 } { x := 0, y := 0, z := 0 }
      { w := 0, x := 0, y := 0, z := 0 }
      { red := 0, green := 0, blue := 0, alpha := 0 }).2.2.2.2.2.2.2⟩

/-! ## Theorems: the waypoint writer -/

/-- A scalar write of `w > 0` bytes to a sink without room fails. -/
theorem scalar_write_no_room (w v : Nat) (hw : 0 < w) (out : List Byte) :
    ((scalar w).write
      { out := out, room := some 0, eofbit := false, failbit := false, badbit := false } v).2 =
      false := by
  simp only [scalar, write_impl, OStream.write, OStream.good, toBytes_length]
  have h : ¬ w ≤ 0 := by omega
  simp [h]

/-- C16. `WayPoint::write` returns true on every stream. On a sink without room
the write of `position` fails; on a sink with room for 4 bytes the sequence
writer emits the count of a one-element vector, no element write succeeds,
and it returns true. With `QuatF` written as four `F32` the output is
`01 00 00 00` and the stream is left in a failed state. -/
theorem wayPoint_write_reports_success {Q : Type} (quatF : Codec Q) (stream : OStream)
    (wp : WayPoint Q) :
    (WayPoint.write quatF stream wp).2 = true ∧
      ((Point3.codec (scalar 4)).write
        { out := [], room := some 0, eofbit := false, failbit := false, badbit := false }
        wp.position).2 = false ∧
      (∃ st : OStream, writeVector (WayPoint.codec quatF)
        { out := [], room := some 4, eofbit := false, failbit := false, badbit := false } [wp] =
          some (st, true)) ∧
      writeVector (WayPoint.codec (Point4.codec (scalar 4)))
          { out := [], room := some 4, eofbit := false, failbit := false, badbit := false }
          [{ position := { x := 1, y := 2, z := 3 }, rotation := { w := 4, x := 5, y := 6, z := 7 },
             msToNext := 8, smoothingType := 9 }] =
        some ({ out := [1, 0, 0, 0], room := some 0, eofbit := false, failbit := true,
                badbit := true }, true) := by
  refine ⟨rfl, ?_, ?_, by decide⟩
  · simp only [Point3.codec, Point3.write, scalar_write_no_room 4 wp.position.x (by decide) []]
    rfl
  · have hl : [wp].length = 1 := rfl
    rw [writeVector_eq _ _ _ (by rw [hl]; decide), hl]
    have hc : (scalar 4).write
        { out := [], room := some 4, eofbit := false, failbit := false, badbit := false }
        (1 % 2 ^ 32) =
        ({ out := [1, 0, 0, 0], room := some 0, eofbit := false, failbit := false,
           badbit := false }, true) := by
      decide
    rw [hc]
    exact ⟨_, rfl⟩

/-! ## Theorems: records on both sides of the stream -/

theorem writeAll_roundTrips {T : Type} (c : Codec T) (enc : T → List Byte) (xs : List T)
    (h : ∀ x ∈ xs, c.RoundTrips enc x) (out : List Byte) :
    writeAll c xs (OStream.sink out) = (OStream.sink (out ++ encodeAll enc xs), true) := by
  induction xs generalizing out with
  | nil => simp [writeAll, encodeAll]
  | cons x xs ih =>
    rw [writeAll, (h x (List.mem_cons_self x xs)).1 out]
    simp only [Bool.not_true, Bool.false_eq_true, if_false]
    rw [ih (fun y hy => h y (List.mem_cons_of_mem x hy)), encodeAll, List.append_assoc]

theorem readN_roundTrips {T : Type} (c : Codec T) (enc : T → List Byte) (obj0 : T)
    (xs : List T) (h : ∀ x ∈ xs, c.RoundTrips enc x) (tail : List Byte) (value : List T) :
    readN c obj0 xs.length (IStream.ofBytes (encodeAll enc xs ++ tail)) value =
      (IStream.ofBytes tail, value ++ xs, true) := by
  induction xs generalizing value with
  | nil => simp [readN, encodeAll]
  | cons x xs ih =>
    rw [List.length_cons, readN, encodeAll, List.append_assoc,
      (h x (List.mem_cons_self x xs)).2 _ obj0]
    simp only [if_true]
    rw [ih (fun y hy => h y (List.mem_cons_of_mem x hy))]
    simp

/-- A sequence of fewer than 2^31 elements of a type that round-trips is
written as its count and its elements. -/
theorem writeVector_roundTrips {T : Type} (c : Codec T) (enc : T → List Byte) (xs : List T)
    (h : ∀ x ∈ xs, c.RoundTrips enc x) (hn : xs.length < 2 ^ 31) (out : List Byte) :
    writeVector c (OStream.sink out) xs =
      some (OStream.sink (out ++ encodeSeq enc xs), true) := by
  rw [encodeSeq, writeVector_eq c (OStream.sink out) xs (by omega), scalar_write_sink]
  simp only [if_true]
  rw [writeAll_roundTrips c enc _ (fun x hx => h x (List.mem_of_mem_take hx)),
    Nat.mod_eq_of_lt (by omega), List.take_of_length_le (by omega), List.append_assoc]

/-- The count and the elements of a sequence of a type that round-trips are
read back into the empty vector. -/
theorem readVector_roundTrips {T : Type} (c : Codec T) (enc : T → List Byte) (obj0 : T)
    (reserve : Nat → Bool) (xs : List T) (h : ∀ x ∈ xs, c.RoundTrips enc x)
    (hn : xs.length < 2 ^ 32) (hres : reserve xs.length = true) (tail : List Byte) :
    readVector c obj0 reserve (IStream.ofBytes (encodeSeq enc xs ++ tail)) [] =
      some (Outcome.done (IStream.ofBytes tail, xs, true)) := by
  rw [encodeSeq, readVector_eq, List.append_assoc,
    scalar_read_toBytes 4 xs.length _ 0 (by omega)]
  simp only [if_true, hres]
  rw [readN_roundTrips c enc obj0 xs h tail [], List.nil_append]

theorem Point3_roundTrips (p : Point3 Nat) (hx : p.x < 2 ^ 32) (hy : p.y < 2 ^ 32)
    (hz : p.z < 2 ^ 32) : (Point3.codec (scalar 4)).RoundTrips encodePoint3 p := by
  have e : (256 : Nat) ^ 4 = 2 ^ 32 := by norm_num
  constructor
  · intro out
    exact (Point3_roundtrip 4 p.x p.y p.z (by omega) (by omega) (by omega) out [] p).1
  · intro tail old
    exact (Point3_roundtrip 4 p.x p.y p.z (by omega) (by omega) (by omega) [] tail old).2

/-- A waypoint whose members hold values of their types round-trips when
its rotation does. -/
theorem WayPoint_roundTrips {Q : Type} (quatF : Codec Q) (encQ : Q → List Byte)
    (wp : WayPoint Q) (hv : wp.Valid) (hq : quatF.RoundTrips encQ wp.rotation) :
    (WayPoint.codec quatF).RoundTrips (encodeWayPoint encQ) wp := by
  obtain ⟨hx, hy, hz, hm, hs⟩ := hv
  have e : (256 : Nat) ^ 4 = 2 ^ 32 := by norm_num
  have hp := Point3_roundTrips wp.position hx hy hz
  constructor
  · intro out
    show WayPoint.write quatF (OStream.sink out) wp = _
    simp only [WayPoint.write, hp.1, hq.1, scalar_write_sink, encodeWayPoint,
      List.append_assoc]
  · intro tail old
    show WayPoint.read quatF (IStream.ofBytes (encodeWayPoint encQ wp ++ tail)) old = _
    simp only [WayPoint.read, encodeWayPoint, List.append_assoc, hp.2, hq.2,
      scalar_read_toBytes 4 wp.msToNext _ _ (by omega),
      scalar_read_toBytes 4 wp.smoothingType _ _ (by omega)]

theorem writeString_encode (s out : List Byte) (hl : s.length ≤ 255) :
    writeString (OStream.sink out) s = some (OStream.sink (out ++ encodeString s), true) := by
  rw [writeString_sink s out (by omega), Nat.mod_eq_of_lt (by omega), encodeString]

theorem writeVector_scalar_encode (w : Nat) (xs : List Nat) (out : List Byte)
    (hn : xs.length < 2 ^ 31) :
    writeVector (scalar w) (OStream.sink out) xs =
      some (OStream.sink (out ++ encodeVector w xs), true) := by
  rw [writeVector_scalar_sink w xs out (by omega), Nat.mod_eq_of_lt (by omega),
    List.take_of_length_le (by omega), encodeVector]

/-- C14. A waypoint whose members hold values of their types is written and
read back field by field in the same order (position, rotation, msToNext,
smoothingType): the reader returns the waypoint written and leaves exactly
what follows its bytes. A path follower whose members hold values the
format can carry is written as name, datablock, interiorResIndex, offset,
properties, triggerId, wayPoint, totalMS, and the constructor applied to
those bytes yields the same members and leaves exactly what follows, on a
machine on which storage for as many trigger ids and waypoints as the
follower has can be reserved. `Dictionary` and `QuatF` are assumed to
round-trip. -/
theorem records_roundtrip {D Q : Type} (dictionary : Codec D) (quatF : Codec Q)
    (encD : D → List Byte) (encQ : Q → List Byte) (wp : WayPoint Q) (hwp : wp.Valid)
    (hwq : quatF.RoundTrips encQ wp.rotation) (v : InteriorPathFollower D Q) (hv : v.Valid)
    (hd : dictionary.RoundTrips encD v.properties)
    (hq : ∀ p ∈ v.wayPoint, quatF.RoundTrips encQ p.rotation)
    (reserveId reserveWp : Nat → Bool) (hrid : reserveId v.triggerId.length = true)
    (hrwp : reserveWp v.wayPoint.length = true)
    (out tail : List Byte) (old obj0 : WayPoint Q) (init : InteriorPathFollower D Q) :
    (WayPoint.write quatF (OStream.sink out) wp =
        (OStream.sink (out ++ encodeWayPoint encQ wp), true) ∧
      WayPoint.read quatF (IStream.ofBytes (encodeWayPoint encQ wp ++ tail)) old =
        (IStream.ofBytes tail, wp, true)) ∧
    InteriorPathFollower.write dictionary quatF (OStream.sink out) v =
      some (OStream.sink (out ++ encodeFollower encD encQ v), true,
        [Field.name, Field.datablock, Field.interiorResIndex, Field.offset,
         Field.properties, Field.triggerId, Field.wayPoint, Field.totalMS]) ∧
    InteriorPathFollower.construct dictionary quatF obj0 reserveId reserveWp init
        (IStream.ofBytes (encodeFollower encD encQ v ++ tail)) =
      some (Outcome.done (IStream.ofBytes tail, v)) := by
  obtain ⟨hname, hdb, hidx, ⟨hox, hoy, hoz⟩, ⟨htn, htx⟩, ⟨hwn, hwv⟩, hms⟩ := hv
  have e : (256 : Nat) ^ 4 = 2 ^ 32 := by norm_num
  have hp := Point3_roundTrips v.offset hox hoy hoz
  have hw : ∀ p ∈ v.wayPoint, (WayPoint.codec quatF).RoundTrips (encodeWayPoint encQ) p :=
    fun p hp => WayPoint_roundTrips quatF encQ p (hwv p hp) (hq p hp)
  refine ⟨?_, ?_, ?_⟩
  · have h := WayPoint_roundTrips quatF encQ wp hwp hwq
    exact ⟨h.1 out, h.2 tail old⟩
  · simp only [InteriorPathFollower.write, writeString_encode _ _ hname,
      writeString_encode _ _ hdb, scalar_write_sink, hp.1, hd.1,
      writeVector_scalar_encode 4 _ _ htn,
      writeVector_roundTrips (WayPoint.codec quatF) (encodeWayPoint encQ) _ hw hwn,
      Bool.not_true, Bool.false_eq_true, if_false, encodeFollower, List.append_assoc]
  · simp only [InteriorPathFollower.construct, encodeFollower, List.append_assoc,
      readString_ofBytes _ _ _ hname, readString_ofBytes _ _ _ hdb,
      scalar_read_toBytes 4 v.interiorResIndex _ _ (by omega), hp.2, hd.2,
      readVector_scalar_ofBytes 4 0 reserveId v.triggerId _ [] (by rw [e]; exact htx) (by omega)
        hrid,
      readVector_roundTrips (WayPoint.codec quatF) (encodeWayPoint encQ) obj0 reserveWp _ hw
        (by omega) hrwp,
      scalar_read_toBytes 4 v.totalMS _ _ (by omega), List.nil_append]

theorem scalar_roundTrips (w v : Nat) (hv : v < 256 ^ w) :
    (scalar w).RoundTrips (toBytes w) v :=
  ⟨fun out => scalar_write_sink w out v, fun tail old => scalar_read_toBytes w v tail old hv⟩

theorem Point4_roundTrips (q : Point4 Nat) (hw : q.w < 2 ^ 32) (hx : q.x < 2 ^ 32)
    (hy : q.y < 2 ^ 32) (hz : q.z < 2 ^ 32) :
    (Point4.codec (scalar 4)).RoundTrips encodePoint4 q := by
  have e : (256 : Nat) ^ 4 = 2 ^ 32 := by norm_num
  have h4 : ∀ n : Nat, n < 2 ^ 32 → n < 256 ^ 4 := fun n hn => by omega
  constructor
  · intro out
    show Point4.write (scalar 4) (OStream.sink out) q = _
    simp only [Point4.write, scalar_write_sink, Bool.not_true, Bool.false_eq_true, if_false,
      List.append_assoc, encodePoint4]
  · intro tail old
    simp only [Point4.codec, Point4.read, encodePoint4, List.append_assoc,
      scalar_read_toBytes 4 q.w _ _ (h4 _ hw), scalar_read_toBytes 4 q.x _ _ (h4 _ hx),
      scalar_read_toBytes 4 q.y _ _ (h4 _ hy), scalar_read_toBytes 4 q.z _ _ (h4 _ hz),
      Bool.not_true, Bool.false_eq_true, if_false]

theorem exampleWayPoint_valid : exampleWayPoint.Valid :=
  ⟨by decide, by decide, by decide, by decide, by decide⟩

theorem exampleWayPoint_rotation :
    (Point4.codec (scalar 4)).RoundTrips encodePoint4 exampleWayPoint.rotation :=
  Point4_roundTrips _ (by decide) (by decide) (by decide) (by decide)

/-- C14 at the example path follower, written with `QuatF` as four `F32` and
`Dictionary` as one `U32`, and read back with one byte following, on a machine
that reserves storage for up to 1000 elements. -/
theorem records_roundtrip_witness :
    InteriorPathFollower.construct (scalar 4) (Point4.codec (scalar 4)) exampleWayPoint
        (fun n => decide (n ≤ 1000)) (fun n => decide (n ≤ 1000)) exampleFollower
        (IStream.ofBytes (encodeFollower (toBytes 4) encodePoint4 exampleFollower ++ [0xEE])) =
      some (Outcome.done (IStream.ofBytes [0xEE], exampleFollower)) :=
  (records_roundtrip (scalar 4) (Point4.codec (scalar 4)) (toBytes 4) encodePoint4
    exampleWayPoint exampleWayPoint_valid exampleWayPoint_rotation exampleFollower
    ⟨by decide, by decide, by decide, ⟨by decide, by decide, by decide⟩,
      ⟨by decide, by decide⟩,
      ⟨by decide, fun p hp => by
        rw [List.mem_singleton.mp hp]
        exact exampleWayPoint_valid⟩,
      by decide⟩
    (scalar_roundTrips 4 5 (by decide))
    (fun p hp => by
      rw [List.mem_singleton.mp hp]
      exact exampleWayPoint_rotation)
    (fun n => decide (n ≤ 1000)) (fun n => decide (n ≤ 1000)) (by decide) (by decide)
    [] [0xEE] exampleWayPoint exampleWayPoint exampleFollower).2.2

/-! ## Theorems: the path follower writer -/

theorem scalar_write_ok_eq_good (w v : Nat) (s : OStream) :
    ((scalar w).write s v).2 = ((scalar w).write s v).1.good := rfl

/-- A scalar write to a stream that is not good fails and leaves it not
good. -/
theorem scalar_write_not_good (w v : Nat) (s : OStream) (h : s.good = false) :
    ((scalar w).write s v).2 = false := by
  simp only [scalar, write_impl, OStream.write, h]
  simp [OStream.good]

/-- The string writer returns false when the write of the length fails. -/
theorem writeString_length_fails (s : OStream) (value : List Byte)
    (h : ((scalar 1).write s (value.length % 2 ^ 8)).2 = false) :
    writeString s value = some (((scalar 1).write s (value.length % 2 ^ 8)).1, false) := by
  unfold writeString
  simp only [h, Bool.not_false, if_true]

/-- C15. `InteriorPathFollower::write` on a sink without room: the write of `name`
fails, and the run goes on through the writes of `datablock` and
`interiorResIndex` before it returns false. -/
theorem follower_write_runs_past_failure {D Q : Type} (dictionary : Codec D) (quatF : Codec Q)
    (value : InteriorPathFollower D Q) :
    (writeString
        { out := [], room := some 0, eofbit := false, failbit := false, badbit := false }
        value.name).map (fun r => r.2) = some false ∧
      ∃ st : OStream, InteriorPathFollower.write dictionary quatF
        { out := [], room := some 0, eofbit := false, failbit := false, badbit := false }
        value = some (st, false, [Field.name, Field.datablock, Field.interiorResIndex]) := by
  have h1 := scalar_write_no_room 1 (value.name.length % 2 ^ 8) (by decide) []
  have g1 := h1
  rw [scalar_write_ok_eq_good] at g1
  have w1 := writeString_length_fails _ value.name h1
  have h2 := scalar_write_not_good 1 (value.datablock.length % 2 ^ 8) _ g1
  have g2 := h2
  rw [scalar_write_ok_eq_good] at g2
  have w2 := writeString_length_fails _ value.datablock h2
  have h3 := scalar_write_not_good 4 value.interiorResIndex _ g2
  refine ⟨by rw [w1]; rfl, ?_⟩
  simp only [InteriorPathFollower.write, w1, w2, h3, Bool.not_false, if_true]
  exact ⟨_, rfl⟩

/-! ## Theorems: element decodes in the extended-count shorthands -/

/-- A successful scalar read takes exactly `w` bytes. -/
theorem read_impl_ok_buf (w : Nat) (s : IStream) (m : List Byte)
    (h : (read_impl w s m).2.2 = true) : (read_impl w s m).1.buf = s.buf.drop w := by
  unfold read_impl at h ⊢
  by_cases he : s.eof = true
  · rw [if_pos he] at h
    simp at h
  · rw [if_neg he] at h ⊢
    by_cases hg : s.good = true
    · by_cases hw : w ≤ s.buf.length
      · simp [IStream.read, hg, hw]
      · have hs := IStream.read_short s w (by omega)
        simp only at h
        rw [hs] at h
        simp at h
    · have hs := IStream.read_not_good s w (by simpa using hg)
      simp only at h
      rw [hs] at h
      simp at h

theorem read_impl_ofBytes (w : Nat) (bs rest m : List Byte) (h : bs.length = w) :
    read_impl w (IStream.ofBytes (bs ++ rest)) m = (IStream.ofBytes rest, bs ++ m.drop w, true) := by
  subst h
  simp only [read_impl, IStream.read_ofBytes]
  simp [IStream.eof, IStream.ofBytes, IStream.good]

/-- One pass of the loop of `READLISTVAR2` over two types whose readers store
within the memory of one element of the normal type, on an array of
`countvar` elements: no byte is stored outside the array, and the array
keeps its size. -/
theorem READLISTVAR2_loop_step_mem (condition : Bool → Nat → Nat → Bool)
    (normaltype alternatetype : MemType)
    (hN : ∀ (s : IStream) (m : List Byte), normaltype.size ≤ m.length →
      (normaltype.read s m).2.1.length = m.length)
    (hA : ∀ (s : IStream) (m : List Byte), normaltype.size ≤ m.length →
      (alternatetype.read s m).2.1.length = m.length)
    (countvar : Nat) (hc : countvar < 2 ^ 32) (flag : Bool) (param : Nat)
    (fuel i : Nat) (stream : IStream) (listvar : List Byte) (decodes : List Decode)
    (hlt : i < countvar) (hl : listvar.length = countvar * normaltype.size) :
    READLISTVAR2_loop condition normaltype alternatetype countvar flag param
        (fuel + 1) i stream listvar decodes =
      READLISTVAR2_loop condition normaltype alternatetype countvar flag param fuel (i + 1)
        ((if condition flag param i then alternatetype else normaltype).read stream
          (listvar.drop (i * normaltype.size))).1
        (listvar.take (i * normaltype.size) ++
          ((if condition flag param i then alternatetype else normaltype).read stream
            (listvar.drop (i * normaltype.size))).2.1)
        (decodes ++ [Decode.mk i (condition flag param i)
          ((if condition flag param i then alternatetype else normaltype).read stream
            (listvar.drop (i * normaltype.size))).2.2]) ∧
    (listvar.take (i * normaltype.size) ++
      ((if condition flag param i then alternatetype else normaltype).read stream
        (listvar.drop (i * normaltype.size))).2.1).length = countvar * normaltype.size := by
  have hm : (i + 1) % 2 ^ 32 = i + 1 := Nat.mod_eq_of_lt (by omega)
  have hmul : (i + 1) * normaltype.size ≤ countvar * normaltype.size :=
    Nat.mul_le_mul_right normaltype.size hlt
  rw [Nat.add_mul, Nat.one_mul] at hmul
  have hwle : normaltype.size ≤ (listvar.drop (i * normaltype.size)).length := by
    rw [List.length_drop, hl]
    omega
  have hlen : ((if condition flag param i then alternatetype else normaltype).read stream
      (listvar.drop (i * normaltype.size))).2.1.length =
        (listvar.drop (i * normaltype.size)).length := by
    split
    · exact hA _ _ hwle
    · exact hN _ _ hwle
  constructor
  · rw [READLISTVAR2_loop_succ, if_pos hlt, hm, if_neg (by omega)]
  · rw [List.length_append, hlen, List.length_take, List.length_drop, hl]
    omega

/-- The loop of `READLISTVAR2` over two types whose readers store within the
memory of one element of the normal type runs through; it makes one decode
for each remaining index, in increasing order, with the reader of the
alternate type where the condition holds and the reader of the normal type
elsewhere, each on the stream the one before it left and on the memory of
its element. -/
theorem READLISTVAR2_loop_choice (condition : Bool → Nat → Nat → Bool)
    (normaltype alternatetype : MemType)
    (hN : ∀ (s : IStream) (m : List Byte), normaltype.size ≤ m.length →
      (normaltype.read s m).2.1.length = m.length)
    (hA : ∀ (s : IStream) (m : List Byte), normaltype.size ≤ m.length →
      (alternatetype.read s m).2.1.length = m.length)
    (countvar : Nat) (hc : countvar < 2 ^ 32) (flag : Bool)
    (param : Nat) (fuel i : Nat) (stream : IStream) (listvar : List Byte)
    (decodes : List Decode) (hi : i ≤ countvar) (hf : countvar - i < fuel)
    (hl : listvar.length = countvar * normaltype.size) :
    ∃ (s : IStream) (lv : List Byte) (new : List Decode),
      READLISTVAR2_loop condition normaltype alternatetype countvar flag param fuel i stream
        listvar decodes = some (Outcome.done (s, lv, decodes ++ new)) ∧
      new.map (fun d => (d.index, d.alternate)) =
        (List.range' i (countvar - i)).map (fun j => (j, condition flag param j)) ∧
      (s, lv) = (List.range' i (countvar - i)).foldl
        (fun a j =>
          (((if condition flag param j then alternatetype else normaltype).read a.1
              (a.2.drop (j * normaltype.size))).1,
            a.2.take (j * normaltype.size) ++
              ((if condition flag param j then alternatetype else normaltype).read a.1
                (a.2.drop (j * normaltype.size))).2.1))
        (stream, listvar) := by
  induction fuel generalizing i stream listvar decodes with
  | zero => omega
  | succ fuel ih =>
    by_cases hlt : i < countvar
    · obtain ⟨hstep, hlen⟩ := READLISTVAR2_loop_step_mem condition normaltype alternatetype hN hA
        countvar hc flag param fuel i stream listvar decodes hlt hl
      rw [hstep]
      have hk : countvar - i = (countvar - (i + 1)) + 1 := by omega
      obtain ⟨s, lv, new, e, ix, fd⟩ := ih (i + 1) _ _
        (decodes ++ [Decode.mk i (condition flag param i)
          ((if condition flag param i then alternatetype else normaltype).read stream
            (listvar.drop (i * normaltype.size))).2.2]) (by omega) (by omega) hlen
      refine ⟨s, lv, Decode.mk i (condition flag param i)
        ((if condition flag param i then alternatetype else normaltype).read stream
          (listvar.drop (i * normaltype.size))).2.2 :: new, ?_, ?_, ?_⟩
      · rw [e, List.append_assoc, List.singleton_append]
      · rw [hk, List.range'_succ, List.map_cons, List.map_cons, ix]
      · rw [hk, List.range'_succ, List.foldl_cons]
        exact fd
    · rw [READLISTVAR2_loop_succ, if_neg hlt]
      have hk : countvar - i = 0 := by omega
      exact ⟨stream, listvar, [], by rw [List.append_nil], by rw [hk]; rfl, by rw [hk]; rfl⟩

/-- The loop of `READLISTVAR2` over fundamental types of which the alternate
one is not wider than the normal one, on a stream in good state that holds
the bytes of the remaining elements, each in its chosen type: every decode
succeeds and exactly these bytes are taken. -/
theorem READLISTVAR2_loop_bytes (condition : Bool → Nat → Nat → Bool) (wn wa : Nat)
    (hw : wa ≤ wn) (countvar : Nat) (hc : countvar < 2 ^ 32) (flag : Bool) (param : Nat)
    (fuel i : Nat) (elems tail : List Byte) (listvar : List Byte) (decodes : List Decode)
    (hi : i ≤ countvar) (hf : countvar - i < fuel) (hl : listvar.length = countvar * wn)
    (he : elems.length = ((List.range' i (countvar - i)).map
      (fun j => if condition flag param j then wa else wn)).sum) :
    ∃ (lv : List Byte) (new : List Decode),
      READLISTVAR2_loop condition (MemType.scalar wn) (MemType.scalar wa) countvar flag param
        fuel i (IStream.ofBytes (elems ++ tail)) listvar decodes =
          some (Outcome.done (IStream.ofBytes tail, lv, decodes ++ new)) ∧
      ∀ d ∈ new, d.ok = true := by
  induction fuel generalizing i elems listvar decodes with
  | zero => omega
  | succ fuel ih =>
    by_cases hlt : i < countvar
    · obtain ⟨hstep, hlen⟩ := READLISTVAR2_loop_step condition wn wa hw countvar hc flag param
        fuel i (IStream.ofBytes (elems ++ tail)) listvar decodes hlt hl
      rw [hstep]
      have hk : countvar - i = (countvar - (i + 1)) + 1 := by omega
      rw [hk, List.range'_succ, List.map_cons, List.sum_cons] at he
      have hsplit : elems ++ tail =
          elems.take (if condition flag param i then wa else wn) ++
            (elems.drop (if condition flag param i then wa else wn) ++ tail) := by
        rw [← List.append_assoc, List.take_append_drop]
      have htake : (elems.take (if condition flag param i then wa else wn)).length =
          (if condition flag param i then wa else wn) := by
        rw [List.length_take]
        omega
      have hread := read_impl_ofBytes (if condition flag param i then wa else wn)
        (elems.take (if condition flag param i then wa else wn))
        (elems.drop (if condition flag param i then wa else wn) ++ tail)
        (listvar.drop (i * wn)) htake
      rw [← hsplit] at hread
      rw [hread] at hlen ⊢
      obtain ⟨lv, new, e, ok⟩ := ih (i + 1)
        (elems.drop (if condition flag param i then wa else wn)) _
        (decodes ++ [Decode.mk i (condition flag param i) true]) (by omega) (by omega) hlen
        (by rw [List.length_drop]; omega)
      refine ⟨lv, Decode.mk i (condition flag param i) true :: new, ?_, ?_⟩
      · rw [e, List.append_assoc, List.singleton_append]
      · intro d hd
        rcases List.mem_cons.mp hd with rfl | hd
        · rfl
        · exact ok d hd
    · rw [READLISTVAR2_loop_succ, if_neg hlt]
      have hk : countvar - i = 0 := by omega
      rw [hk] at he
      have hnil : elems = [] := List.length_eq_zero.mp (by simpa using he)
      rw [hnil, List.nil_append]
      exact ⟨listvar, [], by rw [List.append_nil], by simp⟩

/-- One pass of the loop of `READLIST2`, with the two branches of the
condition written as one. -/
theorem READLIST2_loop_succ (condition : Bool → Nat → Nat → Bool)
    (normaltype alternatetype : MemType) (garbage : List Byte) (length : Nat) (flag : Bool)
    (param : Nat) (fuel i : Nat) (stream : IStream) (decodes : List Decode) :
    READLIST2_loop condition normaltype alternatetype garbage length flag param (fuel + 1) i
        stream decodes =
      if i < length then
        READLIST2_loop condition normaltype alternatetype garbage length flag param fuel
          ((i + 1) % 2 ^ 32)
          ((if condition flag param i then alternatetype else normaltype).read stream garbage).1
          (decodes ++ [Decode.mk i (condition flag param i)
            ((if condition flag param i then alternatetype else normaltype).read stream
              garbage).2.2])
      else some (stream, decodes) := by
  rw [READLIST2_loop]
  by_cases hlt : i < length
  · by_cases hc : condition flag param i = true
    · simp only [hlt, hc, if_true]
    · have hc2 : condition flag param i = false := by simpa using hc
      simp only [hlt, hc2, if_true, Bool.false_eq_true, if_false]
  · simp only [hlt, if_false]

/-- The loop of `READLIST2` makes one decode for each remaining index, in
increasing order, with the reader of the alternate type where the condition
holds and the reader of the normal type elsewhere, each on the stream the
one before it left. -/
theorem READLIST2_loop_choice (condition : Bool → Nat → Nat → Bool)
    (normaltype alternatetype : MemType) (garbage : List Byte) (length : Nat)
    (hc : length < 2 ^ 32) (flag : Bool) (param : Nat) (fuel i : Nat) (stream : IStream)
    (decodes : List Decode) (hi : i ≤ length) (hf : length - i < fuel) :
    ∃ (s : IStream) (new : List Decode),
      READLIST2_loop condition normaltype alternatetype garbage length flag param fuel i stream
        decodes = some (s, decodes ++ new) ∧
      new.map (fun d => (d.index, d.alternate)) =
        (List.range' i (length - i)).map (fun j => (j, condition flag param j)) ∧
      s = (List.range' i (length - i)).foldl
        (fun a j =>
          ((if condition flag param j then alternatetype else normaltype).read a garbage).1)
        stream := by
  induction fuel generalizing i stream decodes with
  | zero => omega
  | succ fuel ih =>
    rw [READLIST2_loop_succ]
    by_cases hlt : i < length
    · rw [if_pos hlt]
      have hm : (i + 1) % 2 ^ 32 = i + 1 := Nat.mod_eq_of_lt (by omega)
      have hk : length - i = (length - (i + 1)) + 1 := by omega
      rw [hm]
      obtain ⟨s, new, e, ix, fd⟩ := ih (i + 1)
        ((if condition flag param i then alternatetype else normaltype).read stream garbage).1
        (decodes ++ [Decode.mk i (condition flag param i)
          ((if condition flag param i then alternatetype else normaltype).read stream
            garbage).2.2]) (by omega) (by omega)
      refine ⟨s, Decode.mk i (condition flag param i)
        ((if condition flag param i then alternatetype else normaltype).read stream
          garbage).2.2 :: new, ?_, ?_, ?_⟩
      · rw [e, List.append_assoc, List.singleton_append]
      · rw [hk, List.range'_succ, List.map_cons, List.map_cons, ix]
      · rw [hk, List.range'_succ, List.foldl_cons]
        exact fd
    · rw [if_neg hlt]
      have hk : length - i = 0 := by omega
      exact ⟨stream, [], by rw [List.append_nil], by rw [hk]; rfl, by rw [hk]; rfl⟩

/-- The loop of `READLIST2` over fundamental types, on a stream in good state
that holds the bytes of the remaining elements, each in its chosen type:
every decode succeeds and exactly these bytes are taken. -/
theorem READLIST2_loop_bytes (condition : Bool → Nat → Nat → Bool) (wn wa : Nat)
    (garbage : List Byte) (length : Nat) (hc : length < 2 ^ 32) (flag : Bool) (param : Nat)
    (fuel i : Nat) (elems tail : List Byte) (decodes : List Decode)
    (hi : i ≤ length) (hf : length - i < fuel)
    (he : elems.length = ((List.range' i (length - i)).map
      (fun j => if condition flag param j then wa else wn)).sum) :
    ∃ new : List Decode,
      READLIST2_loop condition (MemType.scalar wn) (MemType.scalar wa) garbage length flag param
        fuel i (IStream.ofBytes (elems ++ tail)) decodes =
          some (IStream.ofBytes tail, decodes ++ new) ∧
      ∀ d ∈ new, d.ok = true := by
  induction fuel generalizing i elems decodes with
  | zero => omega
  | succ fuel ih =>
    rw [READLIST2_loop_succ]
    by_cases hlt : i < length
    · rw [if_pos hlt]
      have hm : (i + 1) % 2 ^ 32 = i + 1 := Nat.mod_eq_of_lt (by omega)
      have hty : (if condition flag param i then MemType.scalar wa else MemType.scalar wn).read =
          read_impl (if condition flag param i then wa else wn) := by
        split <;> rfl
      have hk : length - i = (length - (i + 1)) + 1 := by omega
      rw [hty, hm]
      rw [hk, List.range'_succ, List.map_cons, List.sum_cons] at he
      have hsplit : elems ++ tail =
          elems.take (if condition flag param i then wa else wn) ++
            (elems.drop (if condition flag param i then wa else wn) ++ tail) := by
        rw [← List.append_assoc, List.take_append_drop]
      have htake : (elems.take (if condition flag param i then wa else wn)).length =
          (if condition flag param i then wa else wn) := by
        rw [List.length_take]
        omega
      have hread := read_impl_ofBytes (if condition flag param i then wa else wn)
        (elems.take (if condition flag param i then wa else wn))
        (elems.drop (if condition flag param i then wa else wn) ++ tail) garbage htake
      rw [← hsplit] at hread
      rw [hread]
      obtain ⟨new, e, ok⟩ := ih (i + 1)
        (elems.drop (if condition flag param i then wa else wn))
        (decodes ++ [Decode.mk i (condition flag param i) true]) (by omega) (by omega)
        (by rw [List.length_drop]; omega)
      refine ⟨Decode.mk i (condition flag param i) true :: new, ?_, ?_⟩
      · rw [e, List.append_assoc, List.singleton_append]
      · intro d hd
        rcases List.mem_cons.mp hd with rfl | hd
        · rfl
        · exact ok d hd
    · rw [if_neg hlt]
      have hk : length - i = 0 := by omega
      rw [hk] at he
      have hnil : elems = [] := List.length_eq_zero.mp (by simpa using he)
      rw [hnil, List.nil_append]
      exact ⟨[], by rw [List.append_nil], by simp⟩

/-- C13. `READLIST2` and `READLISTVAR2`, for the count, flag and parameter `h` that
their count statements leave and every condition. `READLIST2`, for any two
types: the run makes exactly one element decode for each index from 0 up
to the count, in increasing order, with the reader of the alternate type
where the condition holds at that index and the reader of the normal type
elsewhere, each applied to the stream the one before it left. `READLISTVAR2`
does the same on the stream and on the memory of each element, for any two
types whose readers store within one element of the normal type, when the
storage is obtained. Over fundamental types of `wn` and `wa` bytes, on a
stream that holds after the header the elements, each in its chosen
representation, every decode succeeds and the bytes taken by the elements
are exactly the sizes of the chosen representations added up (for
`READLISTVAR2` when the alternate type is not wider than the normal one). On
`02 00 00 80 09 34 12 01 00 00 00 EE` with normal type `U32`, alternate type `U16` and the
condition "flag set and index 0", element 0 is read as `U16` and element 1 as
`U32`, 6 bytes in all, and `EE` is left. -/
theorem element_representation_choice (condition : Bool → Nat → Nat → Bool)
    (normaltype alternatetype : MemType) (wn wa : Nat) (alloc : Nat → Bool) (heap : Nat → Byte)
    (garbage : List Byte) (stream : IStream) (countvar : Nat) (h : Count2)
    (hh : extendedCount stream countvar = h) (elems tail : List Byte) :
    (∃ r : List2,
      READLIST2 condition normaltype alternatetype garbage countvar stream = some r ∧
      r.length = h.countvar ∧ r.flag = h.flag ∧ r.param = h.param ∧
      r.decodes.map (fun d => (d.index, d.alternate)) =
        (List.range h.countvar).map (fun i => (i, condition h.flag h.param i)) ∧
      r.stream = (List.range h.countvar).foldl
        (fun a i =>
          ((if condition h.flag h.param i then alternatetype else normaltype).read a garbage).1)
        h.stream) ∧
    ((∀ (s : IStream) (m : List Byte), normaltype.size ≤ m.length →
        (normaltype.read s m).2.1.length = m.length) →
      (∀ (s : IStream) (m : List Byte), normaltype.size ≤ m.length →
        (alternatetype.read s m).2.1.length = m.length) →
      alloc h.countvar = true →
      ∃ r : ListVar2,
        READLISTVAR2 condition normaltype alternatetype alloc heap stream countvar =
          some (Outcome.done r) ∧
        r.countvar = h.countvar ∧ r.flag = h.flag ∧ r.param = h.param ∧
        r.decodes.map (fun d => (d.index, d.alternate)) =
          (List.range h.countvar).map (fun i => (i, condition h.flag h.param i)) ∧
        (r.stream, r.listvar) = (List.range h.countvar).foldl
          (fun a i =>
            (((if condition h.flag h.param i then alternatetype else normaltype).read a.1
                (a.2.drop (i * normaltype.size))).1,
              a.2.take (i * normaltype.size) ++
                ((if condition h.flag h.param i then alternatetype else normaltype).read a.1
                  (a.2.drop (i * normaltype.size))).2.1))
          (h.stream, (List.range (h.countvar * normaltype.size)).map heap)) ∧
    (h.stream = IStream.ofBytes (elems ++ tail) →
      elems.length = ((List.range h.countvar).map
        (fun i => if condition h.flag h.param i then wa else wn)).sum →
      (∃ r : List2,
        READLIST2 condition (MemType.scalar wn) (MemType.scalar wa) garbage countvar stream =
          some r ∧
        r.stream = IStream.ofBytes tail ∧ ∀ d ∈ r.decodes, d.ok = true) ∧
      (wa ≤ wn → alloc h.countvar = true →
        ∃ r : ListVar2,
          READLISTVAR2 condition (MemType.scalar wn) (MemType.scalar wa) alloc heap stream
            countvar = some (Outcome.done r) ∧
          r.stream = IStream.ofBytes tail ∧ ∀ d ∈ r.decodes, d.ok = true)) ∧
    READLISTVAR2 (fun flag _ i => flag && i == 0) (MemType.scalar 4) (MemType.scalar 2)
        (fun _ => true) (fun _ => 0)
        (IStream.ofBytes [2, 0, 0, 0x80, 9, 0x34, 0x12, 1, 0, 0, 0, 0xEE]) 0 =
      some (Outcome.done
        { stream := IStream.ofBytes [0xEE], countvar := 2, flag := true, param := 9,
          listvar := [0x34, 0x12, 0, 0, 1, 0, 0, 0],
          decodes := [⟨0, true, true⟩, ⟨1, false, true⟩] }) ∧
    READLIST2 (fun flag _ i => flag && i == 0) (MemType.scalar 4) (MemType.scalar 2)
        [0, 0, 0, 0] 0 (IStream.ofBytes [2, 0, 0, 0x80, 9, 0x34, 0x12, 1, 0, 0, 0, 0xEE]) =
      some { stream := IStream.ofBytes [0xEE], length := 2, flag := true, param := 9,
             decodes := [⟨0, true, true⟩, ⟨1, false, true⟩] } := by
  subst hh
  have hlt := extendedCount_lt stream countvar
  refine ⟨?_, ?_, ?_, by decide, by decide⟩
  · obtain ⟨s, new, e, ix, fd⟩ := READLIST2_loop_choice condition normaltype alternatetype garbage
      (extendedCount stream countvar).countvar hlt (extendedCount stream countvar).flag
      (extendedCount stream countvar).param ((extendedCount stream countvar).countvar + 1) 0
      (extendedCount stream countvar).stream [] (Nat.zero_le _) (by omega)
    rw [List.nil_append] at e
    rw [Nat.sub_zero, ← List.range_eq_range'] at ix fd
    refine ⟨List2.mk s (extendedCount stream countvar).countvar
      (extendedCount stream countvar).flag (extendedCount stream countvar).param new,
      ?_, rfl, rfl, rfl, ix, fd⟩
    unfold READLIST2
    simp only [e, Option.map_some']
  · intro hN hA halloc
    obtain ⟨s, lv, new, e, ix, fd⟩ := READLISTVAR2_loop_choice condition normaltype alternatetype
      hN hA (extendedCount stream countvar).countvar hlt (extendedCount stream countvar).flag
      (extendedCount stream countvar).param ((extendedCount stream countvar).countvar + 1) 0
      (extendedCount stream countvar).stream
      ((List.range ((extendedCount stream countvar).countvar * normaltype.size)).map heap) []
      (Nat.zero_le _) (by omega) (by rw [List.length_map, List.length_range])
    rw [List.nil_append] at e
    rw [Nat.sub_zero, ← List.range_eq_range'] at ix fd
    refine ⟨ListVar2.mk s (extendedCount stream countvar).countvar
      (extendedCount stream countvar).flag (extendedCount stream countvar).param lv new,
      ?_, rfl, rfl, rfl, ix, fd⟩
    unfold READLISTVAR2
    simp only [halloc, e, Bool.not_true, Bool.false_eq_true, if_false, Option.map_some',
      Outcome.map]
  · intro hs he
    rw [List.range_eq_range'] at he
    constructor
    · obtain ⟨new, e, ok⟩ := READLIST2_loop_bytes condition wn wa garbage
        (extendedCount stream countvar).countvar hlt (extendedCount stream countvar).flag
        (extendedCount stream countvar).param ((extendedCount stream countvar).countvar + 1) 0
        elems tail [] (Nat.zero_le _) (by omega) (by rw [Nat.sub_zero]; exact he)
      rw [List.nil_append] at e
      refine ⟨List2.mk (IStream.ofBytes tail) (extendedCount stream countvar).countvar
        (extendedCount stream countvar).flag (extendedCount stream countvar).param new,
        ?_, rfl, ok⟩
      unfold READLIST2
      simp only [hs, e, Option.map_some']
    · intro hw halloc
      have hsz : (MemType.scalar wn).size = wn := rfl
      obtain ⟨lv, new, e, ok⟩ := READLISTVAR2_loop_bytes condition wn wa hw
        (extendedCount stream countvar).countvar hlt (extendedCount stream countvar).flag
        (extendedCount stream countvar).param ((extendedCount stream countvar).countvar + 1) 0
        elems tail ((List.range ((extendedCount stream countvar).countvar * wn)).map heap) []
        (Nat.zero_le _) (by omega) (by rw [List.length_map, List.length_range])
        (by rw [Nat.sub_zero]; exact he)
      rw [List.nil_append] at e
      refine ⟨ListVar2.mk (IStream.ofBytes tail) (extendedCount stream countvar).countvar
        (extendedCount stream countvar).flag (extendedCount stream countvar).param lv new,
        ?_, rfl, ok⟩
      unfold READLISTVAR2
      simp only [halloc, hs, hsz, e, Bool.not_true, Bool.false_eq_true, if_false,
        Option.map_some', Outcome.map]

/-- C13 at the stream `03 00 00 80 07 0A 0B 0C 0D 0E EE` with normal type `U16`, alternate
type `U8` and the condition "flag set and the index is 1": the header leaves
count 3, flag true, parameter 7; the elements take 2 + 1 + 2 bytes and `EE` is
left, in `READLIST2` and in `READLISTVAR2`. -/
theorem element_representation_choice_witness :
    (∃ r : List2,
      READLIST2 (fun flag _ i => flag && i == 1) (MemType.scalar 2) (MemType.scalar 1) [0, 0] 0
          (IStream.ofBytes [3, 0, 0, 0x80, 7, 10, 11, 12, 13, 14, 0xEE]) = some r ∧
        r.stream = IStream.ofBytes [0xEE] ∧ ∀ d ∈ r.decodes, d.ok = true) ∧
    (∃ r : ListVar2,
      READLISTVAR2 (fun flag _ i => flag && i == 1) (MemType.scalar 2) (MemType.scalar 1)
          (fun _ => true) (fun _ => 0)
          (IStream.ofBytes [3, 0, 0, 0x80, 7, 10, 11, 12, 13, 14, 0xEE]) 0 =
        some (Outcome.done r) ∧
      r.stream = IStream.ofBytes [0xEE] ∧ ∀ d ∈ r.decodes, d.ok = true) :=
  (fun t => ⟨t.1, t.2 (by decide) rfl⟩)
    ((element_representation_choice (fun flag _ i => flag && i == 1) (MemType.scalar 2)
      (MemType.scalar 1) 2 1 (fun _ => true) (fun _ => 0) [0, 0]
      (IStream.ofBytes [3, 0, 0, 0x80, 7, 10, 11, 12, 13, 14, 0xEE]) 0
      { stream := IStream.ofBytes [10, 11, 12, 13, 14, 0xEE], countvar := 3, flag := true,
        param := 7 }
      (by decide) [10, 11, 12, 13, 14] [0xEE]).2.2.1 rfl (by decide))

/-! ## Theorems: the sequence writer and the extended-count reader -/

theorem and_high_bit_of_lt (n : Nat) (h : n < 2 ^ 31) : n &&& 0x80000000 = 0 := by
  have e1 : (0x80000000 : Nat) = 2 ^ 31 := by norm_num
  rw [e1]
  apply Nat.eq_of_testBit_eq
  intro i
  simp only [Nat.testBit_and, Nat.testBit_two_pow, Nat.zero_testBit]
  by_cases hi : 31 = i
  · subst hi
    simp [Nat.testBit_lt_two_pow h]
  · simp [hi]

/-- The loop of `READLISTVAR2` with a condition that never holds, on a
stream that holds the remaining elements: it stores them in order over the
rest of the array and leaves what follows them unread. -/
theorem READLISTVAR2_loop_normal (condition : Bool → Nat → Nat → Bool) (w : Nat)
    (alternatetype : MemType) (countvar : Nat) (hc : countvar < 2 ^ 32) (flag : Bool)
    (param : Nat) (hcond : ∀ j, condition flag param j = false) (tail : List Byte)
    (ys : List Nat) (fuel i : Nat) (done rest : List Byte) (decodes : List Decode)
    (hd : done.length = i * w) (hr : rest.length = ys.length * w)
    (hi : countvar = i + ys.length) (hf : ys.length < fuel) :
    ∃ ds : List Decode,
      READLISTVAR2_loop condition (MemType.scalar w) alternatetype countvar flag param fuel i
        (IStream.ofBytes (encodeElems w ys ++ tail)) (done ++ rest) decodes =
        some (Outcome.done (IStream.ofBytes tail, done ++ encodeElems w ys, ds)) := by
  induction ys generalizing fuel i done rest decodes with
  | nil =>
    cases fuel with
    | zero => simp at hf
    | succ fuel =>
      rw [READLISTVAR2_loop_succ, if_neg (by simp at hi; omega)]
      have hrest : rest = [] := List.length_eq_zero.mp (by simpa using hr)
      rw [hrest]
      exact ⟨decodes, rfl⟩
  | cons y ys ih =>
    cases fuel with
    | zero => simp at hf
    | succ fuel =>
      have hlen : (y :: ys).length = ys.length + 1 := rfl
      rw [hlen] at hi hr hf
      have hm : (i + 1) % 2 ^ 32 = i + 1 := Nat.mod_eq_of_lt (by omega)
      have hsz : (MemType.scalar w).size = w := rfl
      rw [READLISTVAR2_loop_succ, if_pos (by omega), hcond i, hm, hsz]
      simp only [Bool.false_eq_true, if_false]
      have hread : (MemType.scalar w).read = read_impl w := rfl
      rw [hread, List.drop_left' hd, List.take_left' hd, encodeElems, List.append_assoc,
        read_impl_ofBytes w (toBytes w y) _ rest (toBytes_length w y)]
      rw [if_neg (by
        simp only [List.length_append, toBytes_length, List.length_drop, hr]
        rw [Nat.add_mul, Nat.one_mul]
        omega)]
      have hstep := ih fuel (i + 1) (done ++ toBytes w y) (rest.drop w)
        (decodes ++ [Decode.mk i false true])
        (by rw [List.length_append, hd, toBytes_length, Nat.add_mul, Nat.one_mul])
        (by rw [List.length_drop, hr, Nat.add_mul, Nat.one_mul]; omega)
        (by omega) (by omega)
      obtain ⟨ds, e⟩ := hstep
      refine ⟨ds, ?_⟩
      rw [← List.append_assoc done (toBytes w y) (List.drop w rest), e, List.append_assoc]

/-- The loop of `WRITELIST` over a sink in good state writes the elements from
index `j` on. -/
theorem WRITELIST_loop_sink (w : Nat) (xs : List Nat) (hn : xs.length < 2 ^ 32) (fuel j : Nat)
    (out : List Byte) (hj : j ≤ xs.length) (hf : xs.length - j < fuel) :
    WRITELIST_loop w xs.length xs fuel j (OStream.sink out) =
      some (OStream.sink (out ++ encodeElems w (xs.drop j))) := by
  induction fuel generalizing j out with
  | zero => omega
  | succ fuel ih =>
    unfold WRITELIST_loop
    by_cases hlt : j < xs.length
    · have hm : (j + 1) % 2 ^ 32 = j + 1 := Nat.mod_eq_of_lt (by omega)
      rw [if_pos hlt, List.drop_eq_getElem_cons hlt, encodeElems, hm]
      simp only [List.get?_eq_getElem?, List.getElem?_eq_getElem hlt, scalar_write_sink]
      rw [ih (j + 1) _ (by omega) (by omega), List.append_assoc]
    · have hd : xs.drop j = [] := List.drop_eq_nil_of_le (by omega)
      rw [if_neg hlt, hd, encodeElems, List.append_nil]

/-- The elements of an array laid out from a list are the values of the list
reduced to the width of the element type. -/
theorem arrayGet_encodeElems (w : Nat) (xs : List Nat) (i : Nat) (h : i < xs.length) :
    arrayGet w (encodeElems w xs) i = xs[i] % 256 ^ w := by
  induction xs generalizing i with
  | nil => simp at h
  | cons x xs ih =>
    cases i with
    | zero =>
      simp only [arrayGet, encodeElems, Nat.zero_mul, List.drop_zero, List.getElem_cons_zero]
      rw [List.take_left' (toBytes_length w x), ofBytes_toBytes]
    | succ j =>
      have hj : j < xs.length := by simpa using h
      have e : (j + 1) * w = (toBytes w x).length + j * w := by
        rw [toBytes_length, Nat.add_mul, Nat.one_mul, Nat.add_comm]
      have hdrop : List.drop ((j + 1) * w) (encodeElems w (x :: xs)) =
          List.drop (j * w) (encodeElems w xs) := by
        rw [encodeElems, e, List.drop_append]
      have := ih j hj
      simp only [arrayGet] at this ⊢
      rw [hdrop, this, List.getElem_cons_succ]

theorem WRITELIST_sink (w : Nat) (xs : List Nat) (hn : xs.length < 2 ^ 32) (out : List Byte) :
    WRITELIST w (OStream.sink out) xs.length xs =
      some (OStream.sink (out ++ encodeVector w xs), true) := by
  unfold WRITELIST
  rw [scalar_write_sink]
  simp only [Bool.not_true, Bool.false_eq_true, if_false]
  rw [WRITELIST_loop_sink w xs hn (xs.length + 1) 0 _ (Nat.zero_le _) (by omega), List.drop_zero,
    encodeVector, List.append_assoc]
  rfl

/-- `READLISTVAR2` with the flag as condition on the bytes of a sequence of
fewer than 2^31 scalars. -/
theorem READLISTVAR2_encodeVector (w : Nat) (alternatetype : MemType) (xs : List Nat)
    (hn : xs.length < 2 ^ 31) (tail : List Byte) (alloc : Nat → Bool)
    (halloc : alloc xs.length = true) (heap : Nat → Byte) (countvar : Nat) :
    ∃ ds : List Decode,
      READLISTVAR2 (fun flag _ _ => flag) (MemType.scalar w) alternatetype alloc heap
        (IStream.ofBytes (encodeVector w xs ++ tail)) countvar =
      some (Outcome.done
        { stream := IStream.ofBytes tail, countvar := xs.length, flag := false, param := 0,
          listvar := encodeElems w xs, decodes := ds }) := by
  have hh : extendedCount (IStream.ofBytes (encodeVector w xs ++ tail)) countvar =
      { stream := IStream.ofBytes (encodeElems w xs ++ tail), countvar := xs.length,
        flag := false, param := 0 } := by
    rw [encodeVector, List.append_assoc]
    exact extendedCount_clear xs.length (by omega) (and_high_bit_of_lt _ hn) _ countvar
  obtain ⟨ds, e⟩ := READLISTVAR2_loop_normal (fun flag _ _ => flag) w alternatetype xs.length
    (by omega) false 0 (fun _ => rfl) tail xs (xs.length + 1) 0 []
    ((List.range (xs.length * w)).map heap) [] (by rw [Nat.zero_mul]; rfl) (by simp)
    (by omega) (by omega)
  refine ⟨ds, ?_⟩
  unfold READLISTVAR2
  rw [hh]
  simp only [List.nil_append] at e
  have hsz : (MemType.scalar w).size = w := rfl
  simp only [halloc, hsz, e, Bool.not_true, Bool.false_eq_true, if_false, Option.map_some',
    Outcome.map]

/-- C18. A sequence of fewer than 2^31 scalars of `w` bytes, on a machine on
which storage for as many elements as the sequence has can be obtained:
the sequence writer and `WRITELIST` emit the same bytes, and `READLISTVAR2` with
that type as normal type and the flag as condition reads them to the count
`n`, flag false, parameter 0 and an array that holds the same elements in
order, leaving the stream where the sequence reader leaves it. -/
theorem writeVector_read_by_READLISTVAR2 (w : Nat) (alternatetype : MemType) (xs : List Nat)
    (hx : ∀ x ∈ xs, x < 256 ^ w) (hn : xs.length < 2 ^ 31) (out tail : List Byte)
    (alloc reserve : Nat → Bool) (halloc : alloc xs.length = true)
    (hres : reserve xs.length = true) (heap : Nat → Byte) (countvar obj0 : Nat) :
    ∃ enc : List Byte,
      writeVector (scalar w) (OStream.sink out) xs = some (OStream.sink (out ++ enc), true) ∧
      WRITELIST w (OStream.sink out) xs.length xs = some (OStream.sink (out ++ enc), true) ∧
      ∃ r : ListVar2,
        READLISTVAR2 (fun flag _ _ => flag) (MemType.scalar w) alternatetype alloc heap
          (IStream.ofBytes (enc ++ tail)) countvar = some (Outcome.done r) ∧
        r.countvar = xs.length ∧ r.flag = false ∧ r.param = 0 ∧
        r.listvar = encodeElems w xs ∧
        (∀ (i : Nat) (h : i < xs.length), arrayGet w r.listvar i = xs[i]) ∧
        r.stream = IStream.ofBytes tail ∧
        readVector (scalar w) obj0 reserve (IStream.ofBytes (enc ++ tail)) [] =
          some (Outcome.done (r.stream, xs, true)) := by
  obtain ⟨ds, e⟩ :=
    READLISTVAR2_encodeVector w alternatetype xs hn tail alloc halloc heap countvar
  refine ⟨encodeVector w xs, writeVector_scalar_encode w xs out hn,
    WRITELIST_sink w xs (by omega) out, _, e, rfl, rfl, rfl, rfl, ?_, rfl, ?_⟩
  · intro i h
    show arrayGet w (encodeElems w xs) i = xs[i]
    rw [arrayGet_encodeElems w xs i h, Nat.mod_eq_of_lt (hx _ (List.getElem_mem h))]
  · rw [readVector_scalar_ofBytes w obj0 reserve xs tail [] hx (by omega) hres,
      List.nil_append]

/-- C18 at the vector [1, 2, 3] of `U32`, with `U16` as alternate type and storage
that comes filled with `FF`, on a machine that provides storage for up to 1000
elements. -/
theorem writeVector_read_by_READLISTVAR2_witness :
    ∃ enc : List Byte,
      writeVector (scalar 4) (OStream.sink []) [1, 2, 3] =
        some (OStream.sink ([] ++ enc), true) ∧
      WRITELIST 4 (OStream.sink []) [1, 2, 3].length [1, 2, 3] =
        some (OStream.sink ([] ++ enc), true) ∧
      ∃ r : ListVar2,
        READLISTVAR2 (fun flag _ _ => flag) (MemType.scalar 4) (MemType.scalar 2)
          (fun n => decide (n ≤ 1000)) (fun _ => 0xFF) (IStream.ofBytes (enc ++ [9])) 0 =
            some (Outcome.done r) ∧
        r.countvar = [1, 2, 3].length ∧ r.flag = false ∧ r.param = 0 ∧
        r.listvar = encodeElems 4 [1, 2, 3] ∧
        (∀ (i : Nat) (h : i < [1, 2, 3].length), arrayGet 4 r.listvar i = [1, 2, 3][i]) ∧
        r.stream = IStream.ofBytes [9] ∧
        readVector (scalar 4) 0 (fun n => decide (n ≤ 1000)) (IStream.ofBytes (enc ++ [9])) [] =
          some (Outcome.done (r.stream, [1, 2, 3], true)) :=
  writeVector_read_by_READLISTVAR2 4 (MemType.scalar 2) [1, 2, 3] (by decide) (by decide) [] [9]
    (fun n => decide (n ≤ 1000)) (fun n => decide (n ≤ 1000)) (by decide) (by decide)
    (fun _ => 0xFF) 0 0

/-- C20. `READLISTVAR2` with normal type `U32`, alternate type `U16` and the flag as
condition, on `01 00 00 80 00 34 12`: the decode of element 0 as `U16` succeeds with
the value `0x1234`. Over storage that comes filled with `FF` the element then
holds `34 12 FF FF`, the value `0xFFFF1234`; over storage filled with `00` it holds
`0x1234`. -/
theorem READLISTVAR2_alternate_keeps_storage :
    (scalar 2).read (IStream.ofBytes [0x34, 0x12]) 0 = (IStream.ofBytes [], 0x1234, true) ∧
    (READLISTVAR2 (fun flag _ _ => flag) (MemType.scalar 4) (MemType.scalar 2) (fun _ => true)
        (fun _ => 0xFF) (IStream.ofBytes [1, 0, 0, 0x80, 0, 0x34, 0x12]) 0).map
          (Outcome.map fun r => (r.decodes, r.listvar, arrayGet 4 r.listvar 0)) =
      some (Outcome.done ([⟨0, true, true⟩], [0x34, 0x12, 0xFF, 0xFF], 0xFFFF1234)) ∧
    (READLISTVAR2 (fun flag _ _ => flag) (MemType.scalar 4) (MemType.scalar 2) (fun _ => true)
        (fun _ => 0) (IStream.ofBytes [1, 0, 0, 0x80, 0, 0x34, 0x12]) 0).map
          (Outcome.map fun r => (r.decodes, r.listvar, arrayGet 4 r.listvar 0)) =
      some (Outcome.done ([⟨0, true, true⟩], [0x34, 0x12, 0, 0], 0x1234)) := by
  decide

end Dif
